import Mathlib

/-!
Verification of the catalog-introspection and metadata-synchronization engine:
a shallow embedding of the extractor result shaping (`app/extractors/postgres.py`,
`app/extractors/base.py`), the metadata repository (`app/repositories/meta_repository.py`)
and the connection helpers (`app/db/connections.py`), together with proofs of the
spec's claims about them.

Machine conventions: SQL result rows are lists of records; the metadata store is a
record of row lists plus the next value of each surrogate-id sequence; Python dicts
are association lists with assign-overwrites semantics; exceptions are `Except`;
the transaction of `engine.begin()` commits the new store on success and leaves the
old store untouched on error.
-/
/-! ## Code-point string order (the model of SQL `ORDER BY` on text columns) -/
/-- Lexicographic comparison of char lists by code point. -/
def strLeAux : List Char → List Char → Bool
  | [], _ => true
  | _ :: _, [] => false
  | a :: as, b :: bs =>
      if a.toNat < b.toNat then true
      else if b.toNat < a.toNat then false
      else strLeAux as bs

/-- `s` sorts no later than `t` (code-point collation). -/
def strLe (s t : String) : Bool := strLeAux s.data t.data

/-- Strictly earlier in code-point collation. -/
def strLt (s t : String) : Bool := strLe s t && !(strLe t s)

/-! ## In-flight extraction records (`app/extractors/base.py`) -/
/-- `TableInfo` of `base.py`. -/
structure TableInfo where
  schema : String
  table_name : String
  table_type : String
deriving DecidableEq

/-- `ColumnInfo` of `base.py`; `default` is the optional default expression text. -/
structure ColumnInfo where
  name : String
  data_type : String
  is_nullable : Bool
  ordinal_position : Int
  default : Option String
deriving DecidableEq

/-- `PrimaryKeyInfo` of `base.py`. -/
structure PrimaryKeyInfo where
  constraint_name : String
  columns : List String
  ordinal_positions : List Int
deriving DecidableEq

/-- `ForeignKeyInfo` of `base.py`. -/
structure ForeignKeyInfo where
  constraint_name : String
  columns : List String
  referenced_schema : String
  referenced_table : String
  referenced_columns : List String
  column_pairs : List (String × String)
deriving DecidableEq

/-- `_fq` of `meta_repository.py`: the fully-qualified `"schema.table"` name. -/
def _fq (schema table : String) : String := schema ++ "." ++ table

namespace PostgresExtractor

/-! ## The Postgres extractor's catalog queries (`app/extractors/postgres.py`)

Each `list_*` method runs one SQL catalog query and shapes its rows.  The rows a
query returns are modelled as explicit record lists; the `WHERE`/`ORDER BY`
clauses are modelled where a claim depends on them (as list filtering/sorting for
`list_tables` and `list_columns`, and as a sortedness hypothesis on the incoming
rows for the grouping performed by `list_primary_keys` and `list_foreign_keys`,
whose queries end in `ORDER BY kcu.ordinal_position` and
`ORDER BY con.conname, ord.n` respectively). -/
/-- A row of the `information_schema.tables` view (the three selected columns). -/
structure InfoSchemaTableRow where
  table_schema : String
  table_name : String
  table_type : String
deriving DecidableEq

/-- Row order of `ORDER BY table_schema, table_name`: lexicographic on the pair. -/
def tableRowLe (a b : InfoSchemaTableRow) : Bool :=
  strLt a.table_schema b.table_schema
    || (a.table_schema = b.table_schema && strLe a.table_name b.table_name)

/-- The `WHERE` clause of `list_tables`: drop `pg_catalog`/`information_schema`
unless system schemas are requested, and restrict to `schemas` when given. -/
def tableRowKept (schemas : Option (List String)) (include_system_schemas : Bool)
    (r : InfoSchemaTableRow) : Bool :=
  (include_system_schemas
      || !(r.table_schema = "pg_catalog" || r.table_schema = "information_schema"))
    && (match schemas with
        | none => true
        | some ss => ss.contains r.table_schema)

/-- `PostgresExtractor.list_tables`: filter `information_schema.tables` rows,
order by `(table_schema, table_name)`, and shape each row into a `TableInfo`.
The `database` argument is accepted and ignored, as in the source. -/
def list_tables (catalog : List InfoSchemaTableRow) (database : Option String)
    (schemas : Option (List String) := none) (include_system_schemas : Bool := false) :
    List TableInfo :=
  let _ := database
  let rows := (catalog.filter (tableRowKept schemas include_system_schemas)).insertionSort
    (fun a b => tableRowLe a b = true)
  rows.map (fun r =>
    { schema := r.table_schema, table_name := r.table_name, table_type := r.table_type })

/-- A row of `pg_attribute` (the fields the `list_columns` query touches). -/
structure PgAttributeRow where
  attrelid : Nat
  attnum : Int
  attname : String
  atttypid : Nat
  atttypmod : Int
  attnotnull : Bool
  attisdropped : Bool
deriving DecidableEq

/-- A row of `pg_class` (the fields the `list_columns` query touches). -/
structure PgClassRow where
  oid : Nat
  relname : String
  relnamespace : Nat
deriving DecidableEq

/-- A row of `pg_namespace`. -/
structure PgNamespaceRow where
  oid : Nat
  nspname : String
deriving DecidableEq

/-- A row of `pg_attrdef`, with `pg_get_expr(adbin, adrelid)` already rendered. -/
structure PgAttrdefRow where
  adrelid : Nat
  adnum : Int
  adexpr : String
deriving DecidableEq

/-- The source catalog visible to `list_columns`: the four joined system tables
plus the server-side rendering function `pg_catalog.format_type`. -/
structure PgCatalog where
  pg_attribute : List PgAttributeRow
  pg_class : List PgClassRow
  pg_namespace : List PgNamespaceRow
  pg_attrdef : List PgAttrdefRow
  format_type : Nat → Int → String

/-- The join/`WHERE` of the `list_columns` query: the attribute belongs to the
relation named `(table_schema, table_name)`, is a live user column
(`attnum > 0 AND NOT attisdropped`). -/
def attributeKept (cat : PgCatalog) (table_schema table_name : String)
    (a : PgAttributeRow) : Bool :=
  cat.pg_class.any (fun c =>
    c.oid = a.attrelid && c.relname = table_name
      && cat.pg_namespace.any (fun n => n.oid = c.relnamespace && n.nspname = table_schema))
    && (0 : Int) < a.attnum && !a.attisdropped

/-- The `LEFT JOIN pg_attrdef` of `list_columns`, giving the rendered default
expression when one exists. -/
def attributeDefault (cat : PgCatalog) (a : PgAttributeRow) : Option String :=
  (cat.pg_attrdef.find? (fun d => d.adrelid = a.attrelid && d.adnum = a.attnum)).map
    (fun d => d.adexpr)

/-- `PostgresExtractor.list_columns`: live user columns of the table, ordered by
`attnum`, each with its `format_type`-rendered type string and default. -/
def list_columns (cat : PgCatalog) (table_schema table_name : String) : List ColumnInfo :=
  let rows := (cat.pg_attribute.filter (attributeKept cat table_schema table_name)).insertionSort
    (fun a b => a.attnum ≤ b.attnum)
  rows.map (fun a =>
    { name := a.attname
      data_type := cat.format_type a.atttypid a.atttypmod
      is_nullable := !a.attnotnull
      ordinal_position := a.attnum
      default := attributeDefault cat a })

/-- A row of the `list_primary_keys` query (constraint name, column, position). -/
structure PKRawRow where
  constraint_name : String
  column_name : String
  ordinal_position : Int
deriving DecidableEq

/-- One step of the grouping dict of `list_primary_keys`: append the row's column
and position to its constraint's entry, creating the entry on first sight. -/
def pkInsertRow (acc : List PrimaryKeyInfo) (r : PKRawRow) : List PrimaryKeyInfo :=
  if acc.any (fun pk => pk.constraint_name = r.constraint_name) then
    acc.map (fun pk =>
      if pk.constraint_name = r.constraint_name then
        { pk with
            columns := pk.columns ++ [r.column_name]
            ordinal_positions := pk.ordinal_positions ++ [r.ordinal_position] }
      else pk)
  else
    acc ++ [{ constraint_name := r.constraint_name
              columns := [r.column_name]
              ordinal_positions := [r.ordinal_position] }]

/-- `PostgresExtractor.list_primary_keys`: group the query's rows by constraint
name (the `acc` dict of the source, in first-insertion order). -/
def list_primary_keys (rows : List PKRawRow) : List PrimaryKeyInfo :=
  rows.foldl pkInsertRow []

/-- A row of the `list_foreign_keys` query. -/
structure FKRawRow where
  constraint_name : String
  src_schema : String
  src_table : String
  tgt_schema : String
  tgt_table : String
  src_col : String
  tgt_col : String
  position : Int
deriving DecidableEq

/-- One step of the grouping dict of `list_foreign_keys`: append the row's source
and target columns to its constraint's entry, creating the entry (with the row's
target schema/table and empty pair list) on first sight. -/
def fkInsertRow (acc : List ForeignKeyInfo) (r : FKRawRow) : List ForeignKeyInfo :=
  if acc.any (fun fk => fk.constraint_name = r.constraint_name) then
    acc.map (fun fk =>
      if fk.constraint_name = r.constraint_name then
        { fk with
            columns := fk.columns ++ [r.src_col]
            referenced_columns := fk.referenced_columns ++ [r.tgt_col] }
      else fk)
  else
    acc ++ [{ constraint_name := r.constraint_name
              columns := [r.src_col]
              referenced_schema := r.tgt_schema
              referenced_table := r.tgt_table
              referenced_columns := [r.tgt_col]
              column_pairs := [] }]

/-- `PostgresExtractor.list_foreign_keys`: group the query's rows by constraint
name, then fill each entry's explicit `column_pairs` by zipping its grouped,
ordered column lists. -/
def list_foreign_keys (rows : List FKRawRow) : List ForeignKeyInfo :=
  let fks := rows.foldl fkInsertRow []
  fks.map (fun fk => { fk with column_pairs := fk.columns.zip fk.referenced_columns })

/-- Invariant of the grouping dict of `list_primary_keys` after consuming
`processed`: entry names are distinct, each entry holds exactly its constraint's
columns and positions in row order, and entries exist exactly for the constraint
names seen so far. -/
def PkAccInv (processed : List PKRawRow) (acc : List PrimaryKeyInfo) : Prop :=
  (acc.map (fun pk => pk.constraint_name)).Nodup ∧
  (∀ pk ∈ acc,
    pk.columns =
      (processed.filter (fun r => r.constraint_name = pk.constraint_name)).map
        (fun r => r.column_name) ∧
    pk.ordinal_positions =
      (processed.filter (fun r => r.constraint_name = pk.constraint_name)).map
        (fun r => r.ordinal_position)) ∧
  (∀ n, (∃ pk ∈ acc, pk.constraint_name = n) ↔ ∃ r ∈ processed, r.constraint_name = n)

/-- Invariant of the grouping dict of `list_foreign_keys` after consuming
`processed`: entry names are distinct, each entry holds exactly its constraint's
source and target columns in row order, and entries exist exactly for the
constraint names seen so far. -/
def FkAccInv (processed : List FKRawRow) (acc : List ForeignKeyInfo) : Prop :=
  (acc.map (fun fk => fk.constraint_name)).Nodup ∧
  (∀ fk ∈ acc,
    fk.columns =
      (processed.filter (fun r => r.constraint_name = fk.constraint_name)).map
        (fun r => r.src_col) ∧
    fk.referenced_columns =
      (processed.filter (fun r => r.constraint_name = fk.constraint_name)).map
        (fun r => r.tgt_col)) ∧
  (∀ n, (∃ fk ∈ acc, fk.constraint_name = n) ↔ ∃ r ∈ processed, r.constraint_name = n)

end PostgresExtractor

/-- The composite-primary-key scenario: raw rows of one two-column constraint. -/
def pkRowsExample : List PostgresExtractor.PKRawRow :=
  [{ constraint_name := "t_pkey", column_name := "tenant_id", ordinal_position := 1 },
   { constraint_name := "t_pkey", column_name := "id", ordinal_position := 2 }]

/-- The entry `list_primary_keys` builds from `pkRowsExample`. -/
def pkEntryExample : PrimaryKeyInfo :=
  { constraint_name := "t_pkey", columns := ["tenant_id", "id"], ordinal_positions := [1, 2] }

/-- The orders→customers scenario: one single-pair foreign-key row. -/
def fkRowsExample : List PostgresExtractor.FKRawRow :=
  [{ constraint_name := "orders_customer_id_fkey", src_schema := "public",
     src_table := "orders", tgt_schema := "public", tgt_table := "customers",
     src_col := "customer_id", tgt_col := "id", position := 1 }]

/-- The entry `list_foreign_keys` builds from `fkRowsExample`. -/
def fkEntryExample : ForeignKeyInfo :=
  { constraint_name := "orders_customer_id_fkey", columns := ["customer_id"],
    referenced_schema := "public", referenced_table := "customers",
    referenced_columns := ["id"], column_pairs := [("customer_id", "id")] }

namespace PostgresExtractor

/-- The `(schema, table)` order on the shaped output records. -/
def tableInfoLe (a b : TableInfo) : Bool :=
  strLt a.schema b.schema || (a.schema = b.schema && strLe a.table_name b.table_name)

end PostgresExtractor

/-- A small `information_schema.tables` snapshot: one system schema row, one row
in a schema outside the restriction list, two rows out of `(schema, name)` order. -/
def tablesCatalogExample : List PostgresExtractor.InfoSchemaTableRow :=
  [{ table_schema := "pg_catalog", table_name := "pg_class", table_type := "BASE TABLE" },
   { table_schema := "public", table_name := "orders", table_type := "BASE TABLE" },
   { table_schema := "audit", table_name := "log", table_type := "BASE TABLE" },
   { table_schema := "public", table_name := "customers", table_type := "BASE TABLE" }]

/-- A concrete `pg_attribute` catalog for one table `public.t`: a system column
(`attnum ≤ 0`), a dropped column, and two live columns declared out of
alphabetical order. -/
def pgCatalogExample : PostgresExtractor.PgCatalog :=
  { pg_attribute :=
      [{ attrelid := 11, attnum := -1, attname := "ctid", atttypid := 27,
         atttypmod := -1, attnotnull := true, attisdropped := false },
       { attrelid := 11, attnum := 1, attname := "price", atttypid := 1700,
         atttypmod := 655366, attnotnull := true, attisdropped := false },
       { attrelid := 11, attnum := 2, attname := "gone", atttypid := 23,
         atttypmod := -1, attnotnull := false, attisdropped := true },
       { attrelid := 11, attnum := 3, attname := "amount", atttypid := 23,
         atttypmod := -1, attnotnull := false, attisdropped := false },
       { attrelid := 99, attnum := 1, attname := "other", atttypid := 23,
         atttypmod := -1, attnotnull := false, attisdropped := false }],
    pg_class := [{ oid := 11, relname := "t", relnamespace := 5 },
                 { oid := 99, relname := "u", relnamespace := 5 }],
    pg_namespace := [{ oid := 5, nspname := "public" }],
    pg_attrdef := [{ adrelid := 11, adnum := 1, adexpr := "0.00" }],
    format_type := fun oid mod =>
      if oid = 1700 && mod = 655366 then "numeric(10,2)"
      else if oid = 23 then "integer" else "oid" }

/-! ## The metadata store (the `meta_*` tables written by `meta_repository.py`)

Rows are records, each `meta_*` table a row list, and each table's serial
primary-key sequence an explicit `next_*` counter.  `INSERT ... RETURNING id`
draws the counter and appends the row; `engine.begin()` is modelled at the
result: a run that raises inside the transaction leaves the store as it was. -/
/-- A `meta_databases` row. -/
structure MetaDatabaseRow where
  id : Nat
  name : String
deriving DecidableEq

/-- A `meta_tables` row (`name` is the fully-qualified `"schema.table"`). -/
structure MetaTableRow where
  id : Nat
  database_id : Nat
  name : String
deriving DecidableEq

/-- A `meta_columns` row. -/
structure MetaColumnRow where
  id : Nat
  table_id : Nat
  name : String
  data_type : String
deriving DecidableEq

/-- A `meta_primary_keys` row. -/
structure MetaPrimaryKeyRow where
  id : Nat
  table_id : Nat
deriving DecidableEq

/-- A `meta_primary_key_columns` row. -/
structure MetaPrimaryKeyColumnRow where
  pk_id : Nat
  column_id : Nat
  ordinal_position : Int
deriving DecidableEq

/-- A `meta_foreign_keys` row. -/
structure MetaForeignKeyRow where
  id : Nat
  table_id : Nat
  referenced_table_id : Nat
deriving DecidableEq

/-- A `meta_foreign_key_columns` row. -/
structure MetaForeignKeyColumnRow where
  fk_id : Nat
  column_id : Nat
  referenced_column_id : Nat
  ordinal_position : Nat
deriving DecidableEq

/-- The metadata store. -/
structure MetaStore where
  next_database_id : Nat
  next_table_id : Nat
  next_column_id : Nat
  next_pk_id : Nat
  next_fk_id : Nat
  meta_databases : List MetaDatabaseRow
  meta_tables : List MetaTableRow
  meta_columns : List MetaColumnRow
  meta_primary_keys : List MetaPrimaryKeyRow
  meta_primary_key_columns : List MetaPrimaryKeyColumnRow
  meta_foreign_keys : List MetaForeignKeyRow
  meta_foreign_key_columns : List MetaForeignKeyColumnRow
deriving DecidableEq

/-- A store with no rows and fresh sequences. -/
def emptyMetaStore : MetaStore :=
  { next_database_id := 0, next_table_id := 0, next_column_id := 0,
    next_pk_id := 0, next_fk_id := 0,
    meta_databases := [], meta_tables := [], meta_columns := [],
    meta_primary_keys := [], meta_primary_key_columns := [],
    meta_foreign_keys := [], meta_foreign_key_columns := [] }

/-- Results of fallible calls are compared in concrete runs. -/
instance {ε α : Type} [DecidableEq ε] [DecidableEq α] : DecidableEq (Except ε α) := fun x y =>
  match x, y with
  | .ok a, .ok b =>
      if h : a = b then .isTrue (by rw [h]) else .isFalse (by simp [h])
  | .error a, .error b =>
      if h : a = b then .isTrue (by rw [h]) else .isFalse (by simp [h])
  | .ok _, .error _ => .isFalse (by simp)
  | .error _, .ok _ => .isFalse (by simp)

/-! ### Python dicts as association lists -/
/-- Assignment `d[k] = v`: a key keeps its first-insertion place, a repeated
assignment overwrites the value. -/
def dictAssign {α β : Type} [DecidableEq α] (d : List (α × β)) (k : α) (v : β) :
    List (α × β) :=
  if d.any (fun p => p.1 = k) then d.map (fun p => if p.1 = k then (k, v) else p)
  else d ++ [(k, v)]

/-- Lookup `d[k]` (`none` is Python's `KeyError`, `in` is `isSome`). -/
def dictFind? {α β : Type} [DecidableEq α] (d : List (α × β)) (k : α) : Option β :=
  (d.find? (fun p => p.1 = k)).map (fun p => p.2)

/-- Merge two dicts built over disjoint loop segments; a key of the later
segment wins, as the later assignment does in Python. -/
def dictMerge {α β : Type} [DecidableEq α] (d later : List (α × β)) : List (α × β) :=
  d.filter (fun p => !(later.any (fun q => q.1 = p.1))) ++ later

/-! ### The extraction phase of `rescan_schema` (step 1) -/
/-- The extractor as `rescan_schema` consumes it, bound to one source database:
each catalog read returns rows or raises.  (`PostgresExtractor`'s query/shaping
behaviour itself is modelled above; here the per-call results are the data.) -/
structure PostgresSource where
  list_tables : Except String (List TableInfo)
  list_columns : String → String → Except String (List ColumnInfo)
  list_primary_keys : String → String → Except String (List PrimaryKeyInfo)
  list_foreign_keys : String → String → Except String (List ForeignKeyInfo)

/-- The in-memory snapshot of step 1: the table list plus the three per-table
dicts keyed by fully-qualified name. -/
structure Snapshot where
  tables : List TableInfo
  per_table_columns : List (String × List ColumnInfo)
  per_table_pks : List (String × List PrimaryKeyInfo)
  per_table_fks : List (String × List ForeignKeyInfo)
deriving DecidableEq

/-- The per-table read loop of step 1: for each table pull columns, primary keys
and foreign keys, filling the three dicts; the first raising read aborts. -/
def extractLoop (src : PostgresSource) : List TableInfo → Snapshot → Except String Snapshot
  | [], snap => .ok snap
  | t :: rest, snap =>
      match src.list_columns t.schema t.table_name with
      | .error e => .error e
      | .ok cols =>
        match src.list_primary_keys t.schema t.table_name with
        | .error e => .error e
        | .ok pks =>
          match src.list_foreign_keys t.schema t.table_name with
          | .error e => .error e
          | .ok fks =>
            extractLoop src rest
              { snap with
                  per_table_columns :=
                    dictAssign snap.per_table_columns (_fq t.schema t.table_name) cols
                  per_table_pks :=
                    dictAssign snap.per_table_pks (_fq t.schema t.table_name) pks
                  per_table_fks :=
                    dictAssign snap.per_table_fks (_fq t.schema t.table_name) fks }

/-- Step 1 of `rescan_schema`: list the tables, then run the per-table loop. -/
def extractSnapshot (src : PostgresSource) : Except String Snapshot :=
  match src.list_tables with
  | .error e => .error e
  | .ok tables =>
      extractLoop src tables
        { tables := tables, per_table_columns := [], per_table_pks := [],
          per_table_fks := [] }

/-! ### The write phase of `rescan_schema` (step 2) -/
/-- An exception raised inside the write transaction: a `KeyError` on the
table-id map, a `KeyError` on the column-id map, or the `RuntimeError` for a
foreign key whose referenced table is not in the scan result. -/
inductive RescanError where
  | tableKeyError (fq : String)
  | columnKeyError (fq : String) (column : String)
  | referencedTableNotFound (fq : String)
deriving DecidableEq

namespace MetaRepository

/-- `_get_database_id`: `SELECT id FROM meta_databases WHERE name = :n`, raising
when no row matches. -/
def _get_database_id (s : MetaStore) (name : String) : Except String Nat :=
  match s.meta_databases.find? (fun d => d.name = name) with
  | some d => .ok d.id
  | none => .error name

/-- `_upsert_database`: `INSERT ... ON CONFLICT (name) DO NOTHING RETURNING id`,
falling back to the `SELECT` when the row already exists. -/
def _upsert_database (s : MetaStore) (name : String) : Nat × MetaStore :=
  match s.meta_databases.find? (fun d => d.name = name) with
  | some d => (d.id, s)
  | none =>
      (s.next_database_id,
       { s with
           next_database_id := s.next_database_id + 1
           meta_databases := s.meta_databases ++ [⟨s.next_database_id, name⟩] })

/-- Modelled from the spec: the `meta_*` DDL is not part of the repository (the
repository assumes "мета-схема уже развёрнута"); per the spec's store layout,
child rows cascade-delete from their parent `Table`, so deleting a database's
tables removes their columns, primary keys and key columns, and every foreign
key (and its columns) either end of which was deleted. -/
def deleteTablesCascade (s : MetaStore) (database_id : Nat) : MetaStore :=
  let deadTables := (s.meta_tables.filter (fun t => t.database_id = database_id)).map
    (fun t => t.id)
  let deadPks := (s.meta_primary_keys.filter (fun pk => deadTables.contains pk.table_id)).map
    (fun pk => pk.id)
  let deadFks := (s.meta_foreign_keys.filter (fun fk =>
    deadTables.contains fk.table_id || deadTables.contains fk.referenced_table_id)).map
    (fun fk => fk.id)
  { s with
      meta_tables := s.meta_tables.filter (fun t => !(t.database_id = database_id))
      meta_columns := s.meta_columns.filter (fun c => !(deadTables.contains c.table_id))
      meta_primary_keys :=
        s.meta_primary_keys.filter (fun pk => !(deadTables.contains pk.table_id))
      meta_primary_key_columns :=
        s.meta_primary_key_columns.filter (fun pc => !(deadPks.contains pc.pk_id))
      meta_foreign_keys := s.meta_foreign_keys.filter (fun fk =>
        !(deadTables.contains fk.table_id || deadTables.contains fk.referenced_table_id))
      meta_foreign_key_columns :=
        s.meta_foreign_key_columns.filter (fun fc => !(deadFks.contains fc.fk_id)) }

/-- Step 2.1: insert a `meta_tables` row per extracted table, recording each
`RETURNING id` in `table_id_by_fq` (a later assignment to the same key wins). -/
def insertTables (database_id : Nat) :
    List TableInfo → Nat → List MetaTableRow × List (String × Nat) × Nat
  | [], next => ([], [], next)
  | t :: rest, next =>
      let fq := _fq t.schema t.table_name
      let res := insertTables database_id rest (next + 1)
      (⟨next, database_id, fq⟩ :: res.1,
       (if res.2.1.any (fun p => p.1 = fq) then res.2.1 else (fq, next) :: res.2.1),
       res.2.2)

/-- Step 2.2, inner loop: insert one table's `meta_columns` rows in extraction
order, recording ids in `column_id_by_fq_and_name`. -/
def insertTableColumns (fq : String) (table_id : Nat) :
    List ColumnInfo → Nat →
      List MetaColumnRow × List ((String × String) × Nat) × Nat
  | [], next => ([], [], next)
  | c :: rest, next =>
      let res := insertTableColumns fq table_id rest (next + 1)
      (⟨next, table_id, c.name, c.data_type⟩ :: res.1,
       (if res.2.1.any (fun p => p.1 = (fq, c.name)) then res.2.1
        else ((fq, c.name), next) :: res.2.1),
       res.2.2)

/-- Step 2.2: for every entry of `per_table_columns`, resolve the table id and
insert the column rows. -/
def insertColumns (tmap : List (String × Nat)) :
    List (String × List ColumnInfo) → Nat →
      Except RescanError (List MetaColumnRow × List ((String × String) × Nat) × Nat)
  | [], next => .ok ([], [], next)
  | (fq, cols) :: rest, next =>
      match dictFind? tmap fq with
      | none => .error (.tableKeyError fq)
      | some table_id =>
          let res := insertTableColumns fq table_id cols next
          match insertColumns tmap rest res.2.2 with
          | .error e => .error e
          | .ok (rows', m', fin) => .ok (res.1 ++ rows', dictMerge res.2.1 m', fin)

/-- Step 2.3, innermost loop: one `meta_primary_key_columns` row per member
column of a primary key, resolving each column id. -/
def insertPkColumns (fq : String) (pk_id : Nat)
    (cmap : List ((String × String) × Nat)) :
    List (String × Int) → Except RescanError (List MetaPrimaryKeyColumnRow)
  | [] => .ok []
  | (col, ord) :: rest =>
      match dictFind? cmap (fq, col) with
      | none => .error (.columnKeyError fq col)
      | some col_id =>
          match insertPkColumns fq pk_id cmap rest with
          | .error e => .error e
          | .ok rows => .ok (⟨pk_id, col_id, ord⟩ :: rows)

/-- Step 2.3, per-table loop: one `meta_primary_keys` row per entry, then its
column rows from the zipped `columns`/`ordinal_positions`. -/
def insertPksForTable (fq : String) (table_id : Nat)
    (cmap : List ((String × String) × Nat)) :
    List PrimaryKeyInfo → Nat →
      Except RescanError (List MetaPrimaryKeyRow × List MetaPrimaryKeyColumnRow × Nat)
  | [], next => .ok ([], [], next)
  | pk :: rest, next =>
      match insertPkColumns fq next cmap (pk.columns.zip pk.ordinal_positions) with
      | .error e => .error e
      | .ok pcrows =>
          match insertPksForTable fq table_id cmap rest (next + 1) with
          | .error e => .error e
          | .ok (rows, pcs, fin) => .ok (⟨next, table_id⟩ :: rows, pcrows ++ pcs, fin)

/-- Step 2.3: for every entry of `per_table_pks`, skip empty lists, else resolve
the table id and insert the primary keys. -/
def insertPrimaryKeys (tmap : List (String × Nat))
    (cmap : List ((String × String) × Nat)) :
    List (String × List PrimaryKeyInfo) → Nat →
      Except RescanError (List MetaPrimaryKeyRow × List MetaPrimaryKeyColumnRow × Nat)
  | [], next => .ok ([], [], next)
  | (fq, pks) :: rest, next =>
      if pks.isEmpty then insertPrimaryKeys tmap cmap rest next
      else
        match dictFind? tmap fq with
        | none => .error (.tableKeyError fq)
        | some table_id =>
            match insertPksForTable fq table_id cmap pks next with
            | .error e => .error e
            | .ok (rows, pcs, next') =>
                match insertPrimaryKeys tmap cmap rest next' with
                | .error e => .error e
                | .ok (rows', pcs', fin) => .ok (rows ++ rows', pcs ++ pcs', fin)

/-- The pair list `rescan_schema` walks for one foreign key:
`fk.get("column_pairs") or list(zip(...))` — the explicit pairs, or the
positional zip when the pair list is empty. -/
def pairsOf (fk : ForeignKeyInfo) : List (String × String) :=
  if fk.column_pairs.isEmpty then fk.columns.zip fk.referenced_columns
  else fk.column_pairs

/-- Step 2.4, innermost loop: one `meta_foreign_key_columns` row per pair, with
1-based sequential ordinal position, resolving both column ids. -/
def insertFkColumns (src_fq tgt_fq : String) (fk_id : Nat)
    (cmap : List ((String × String) × Nat)) :
    List (String × String) → Nat → Except RescanError (List MetaForeignKeyColumnRow)
  | [], _ => .ok []
  | (src_col, tgt_col) :: rest, idx =>
      match dictFind? cmap (src_fq, src_col) with
      | none => .error (.columnKeyError src_fq src_col)
      | some src_col_id =>
          match dictFind? cmap (tgt_fq, tgt_col) with
          | none => .error (.columnKeyError tgt_fq tgt_col)
          | some tgt_col_id =>
              match insertFkColumns src_fq tgt_fq fk_id cmap rest (idx + 1) with
              | .error e => .error e
              | .ok rows => .ok (⟨fk_id, src_col_id, tgt_col_id, idx⟩ :: rows)

/-- Step 2.4, per-table loop: resolve the referenced table in the table-id map —
absent means `RuntimeError` — then insert the `meta_foreign_keys` row and its
column rows. -/
def insertFksForTable (src_fq : String) (src_table_id : Nat)
    (tmap : List (String × Nat)) (cmap : List ((String × String) × Nat)) :
    List ForeignKeyInfo → Nat →
      Except RescanError (List MetaForeignKeyRow × List MetaForeignKeyColumnRow × Nat)
  | [], next => .ok ([], [], next)
  | fk :: rest, next =>
      let tgt_fq := _fq fk.referenced_schema fk.referenced_table
      match dictFind? tmap tgt_fq with
      | none => .error (.referencedTableNotFound tgt_fq)
      | some tgt_table_id =>
          match insertFkColumns src_fq tgt_fq next cmap (pairsOf fk) 1 with
          | .error e => .error e
          | .ok fcrows =>
              match insertFksForTable src_fq src_table_id tmap cmap rest (next + 1) with
              | .error e => .error e
              | .ok (rows, fcs, fin) =>
                  .ok (⟨next, src_table_id, tgt_table_id⟩ :: rows, fcrows ++ fcs, fin)

/-- Step 2.4: for every entry of `per_table_fks`, skip empty lists, else resolve
the source table id and insert its foreign keys. -/
def insertForeignKeys (tmap : List (String × Nat))
    (cmap : List ((String × String) × Nat)) :
    List (String × List ForeignKeyInfo) → Nat →
      Except RescanError (List MetaForeignKeyRow × List MetaForeignKeyColumnRow × Nat)
  | [], next => .ok ([], [], next)
  | (src_fq, fks) :: rest, next =>
      if fks.isEmpty then insertForeignKeys tmap cmap rest next
      else
        match dictFind? tmap src_fq with
        | none => .error (.tableKeyError src_fq)
        | some src_table_id =>
            match insertFksForTable src_fq src_table_id tmap cmap fks next with
            | .error e => .error e
            | .ok (rows, fcs, next') =>
                match insertForeignKeys tmap cmap rest next' with
                | .error e => .error e
                | .ok (rows', fcs', fin) => .ok (rows ++ rows', fcs ++ fcs', fin)

/-- The write transaction of `rescan_schema` (steps 2–8 of the spec): upsert the
database row, delete the database's tables (cascading), insert tables, columns,
primary keys and foreign keys; any raise rolls the transaction back. -/
def rescanWrite (s : MetaStore) (dbname : String) (snap : Snapshot) :
    Except RescanError MetaStore :=
  let dbres := _upsert_database s dbname
  let database_id := dbres.1
  let s₂ := deleteTablesCascade dbres.2 database_id
  let tres := insertTables database_id snap.tables s₂.next_table_id
  let trows := tres.1
  let tmap := tres.2.1
  match insertColumns tmap snap.per_table_columns s₂.next_column_id with
  | .error e => .error e
  | .ok (crows, cmap, nc) =>
      match insertPrimaryKeys tmap cmap snap.per_table_pks s₂.next_pk_id with
      | .error e => .error e
      | .ok (pkrows, pcrows, npk) =>
          match insertForeignKeys tmap cmap snap.per_table_fks s₂.next_fk_id with
          | .error e => .error e
          | .ok (fkrows, fcrows, nfk) =>
              .ok { s₂ with
                      next_table_id := tres.2.2
                      next_column_id := nc
                      next_pk_id := npk
                      next_fk_id := nfk
                      meta_tables := s₂.meta_tables ++ trows
                      meta_columns := s₂.meta_columns ++ crows
                      meta_primary_keys := s₂.meta_primary_keys ++ pkrows
                      meta_primary_key_columns := s₂.meta_primary_key_columns ++ pcrows
                      meta_foreign_keys := s₂.meta_foreign_keys ++ fkrows
                      meta_foreign_key_columns := s₂.meta_foreign_key_columns ++ fcrows }

/-- Why a rescan run fails: the extraction raise of step 1, or a write-phase
raise (step 2), which rolls the store transaction back. -/
inductive RescanFailure where
  | extraction (msg : String)
  | write (e : RescanError)
deriving DecidableEq

/-- The externally visible phases of one rescan run, in order. -/
inductive RescanEvent where
  | extractorConnect
  | extractorClose
  | txBegin
  | txCommit
  | txRollback
deriving DecidableEq

/-- `rescan_schema`: run step 1 under `with ext:` (the extractor is closed when
the block exits, raise or not), then — only if extraction succeeded — run the
write transaction under `engine.begin()`.  Returns the outcome and the ordered
phase events of the run. -/
def rescan_schema (s : MetaStore) (src : PostgresSource) (dbname : String) :
    Except RescanFailure MetaStore × List RescanEvent :=
  match extractSnapshot src with
  | .error e =>
      (.error (.extraction e), [.extractorConnect, .extractorClose])
  | .ok snap =>
      match rescanWrite s dbname snap with
      | .error e =>
          (.error (.write e),
           [.extractorConnect, .extractorClose, .txBegin, .txRollback])
      | .ok s' =>
          (.ok s', [.extractorConnect, .extractorClose, .txBegin, .txCommit])

/-- The store after a rescan run: the new store on commit, the old store
untouched when the run raised (the transaction rolled back, or never began). -/
def rescanFinalStore (s : MetaStore) (src : PostgresSource) (dbname : String) :
    MetaStore :=
  match (rescan_schema s src dbname).1 with
  | .ok s' => s'
  | .error _ => s

/-- `add_database`: reject an empty name, test the source connection, then
upsert the registry row in its own transaction.  The connectivity test
(`test_connection` of `connections.py`, a live `SELECT 1` against the source)
is the oracle `connOk`. -/
def add_database (connOk : String → Bool) (s : MetaStore) (name : String) :
    Except String (Nat × MetaStore) :=
  if name = "" then .error "Database name is empty"
  else if connOk name = false then .error name
  else .ok (_upsert_database s name)

/-- The store after `add_database`: unchanged when it raised. -/
def addDatabaseFinalStore (connOk : String → Bool) (s : MetaStore) (name : String) :
    MetaStore :=
  match add_database connOk s name with
  | .ok r => r.2
  | .error _ => s

/-- `list_databases`: registered names, `ORDER BY name`. -/
def list_databases (s : MetaStore) : List String :=
  ((s.meta_databases.insertionSort (fun a b => strLe a.name b.name = true)).map
    (fun d => d.name))

/-- `list_tables` of the repository: the database's table names, `ORDER BY name`. -/
def list_tables (s : MetaStore) (dbname : String) : Except String (List String) :=
  match _get_database_id s dbname with
  | .error e => .error e
  | .ok db_id =>
      .ok (((s.meta_tables.filter (fun t => t.database_id = db_id)).insertionSort
        (fun a b => strLe a.name b.name = true)).map (fun t => t.name))

/-- `list_columns` of the repository: reject a name without a dot, resolve the
database and the table, and return `(name, data_type)` pairs `ORDER BY name`;
an unknown table yields `[]`. -/
def list_columns (s : MetaStore) (dbname table : String) :
    Except String (List (String × String)) :=
  if (table.data.contains '.') = false then .error table
  else
    match _get_database_id s dbname with
    | .error e => .error e
    | .ok db_id =>
        match s.meta_tables.find? (fun t => t.database_id = db_id && t.name = table) with
        | none => .ok []
        | some trow =>
            .ok (((s.meta_columns.filter (fun c => c.table_id = trow.id)).insertionSort
              (fun a b => strLe a.name b.name = true)).map
              (fun c => (c.name, c.data_type)))

end MetaRepository

/-- A source whose extraction fails partway: the first table reads fine, the
second table's column query raises. -/
def failingSourceExample : PostgresSource :=
  { list_tables := .ok
      [{ schema := "public", table_name := "t1", table_type := "BASE TABLE" },
       { schema := "public", table_name := "t2", table_type := "BASE TABLE" }],
    list_columns := fun _ tn =>
      if tn = "t1" then
        .ok [{ name := "id", data_type := "integer", is_nullable := false,
               ordinal_position := 1, default := none }]
      else .error "connection reset while reading pg_attribute",
    list_primary_keys := fun _ _ => .ok [],
    list_foreign_keys := fun _ _ => .ok [] }

/-- A store holding an earlier scan of `"shop"`, to watch survive a failed rescan. -/
def preRescanStoreExample : MetaStore :=
  { next_database_id := 1, next_table_id := 1, next_column_id := 1,
    next_pk_id := 0, next_fk_id := 0,
    meta_databases := [{ id := 0, name := "shop" }],
    meta_tables := [{ id := 0, database_id := 0, name := "public.old" }],
    meta_columns := [{ id := 0, table_id := 0, name := "x", data_type := "text" }],
    meta_primary_keys := [], meta_primary_key_columns := [],
    meta_foreign_keys := [], meta_foreign_key_columns := [] }

/-- `enumerate(pairs, start=idx)`: each pair with its 1-based position. -/
def enumPairsFrom : List (String × String) → Nat → List (String × String × Nat)
  | [], _ => []
  | p :: rest, idx => (p.1, p.2, idx) :: enumPairsFrom rest (idx + 1)

/-- Well-formedness of the store: every surrogate id and every foreign reference
is below its sequence's next value (what the serial sequences guarantee). -/
structure StoreWF (s : MetaStore) : Prop where
  tables_id_lt : ∀ r ∈ s.meta_tables, r.id < s.next_table_id
  columns_id_lt : ∀ r ∈ s.meta_columns, r.id < s.next_column_id
  columns_table_lt : ∀ r ∈ s.meta_columns, r.table_id < s.next_table_id
  pks_id_lt : ∀ r ∈ s.meta_primary_keys, r.id < s.next_pk_id
  pks_table_lt : ∀ r ∈ s.meta_primary_keys, r.table_id < s.next_table_id
  pkcols_pk_lt : ∀ r ∈ s.meta_primary_key_columns, r.pk_id < s.next_pk_id
  fks_id_lt : ∀ r ∈ s.meta_foreign_keys, r.id < s.next_fk_id
  fks_table_lt : ∀ r ∈ s.meta_foreign_keys, r.table_id < s.next_table_id
  fkcols_fk_lt : ∀ r ∈ s.meta_foreign_key_columns, r.fk_id < s.next_fk_id

/-- The id-free content of one stored table: its fully-qualified name, its
`(name, data_type)` column list in row order, its primary keys as
(column name, ordinal) lists, and its foreign keys as referenced-table name plus
(source column, referenced column, ordinal) triples. -/
structure TableContent where
  name : String
  columns : List (String × String)
  pks : List (List (String × Int))
  fks : List (String × List (String × String × Nat))
deriving DecidableEq

/-- The name of the table row holding id `i`. -/
def tableNameById (s : MetaStore) (i : Nat) : String :=
  ((s.meta_tables.find? (fun t => t.id = i)).map (fun t => t.name)).getD ""

/-- The name of the column row holding id `i`. -/
def columnNameById (s : MetaStore) (i : Nat) : String :=
  ((s.meta_columns.find? (fun c => c.id = i)).map (fun c => c.name)).getD ""

/-- The content of one stored table row. -/
def tableContent (s : MetaStore) (t : MetaTableRow) : TableContent :=
  { name := t.name
    columns := (s.meta_columns.filter (fun c => c.table_id = t.id)).map
      (fun c => (c.name, c.data_type))
    pks := (s.meta_primary_keys.filter (fun pk => pk.table_id = t.id)).map (fun pk =>
      (s.meta_primary_key_columns.filter (fun pc => pc.pk_id = pk.id)).map (fun pc =>
        (columnNameById s pc.column_id, pc.ordinal_position)))
    fks := (s.meta_foreign_keys.filter (fun fk => fk.table_id = t.id)).map (fun fk =>
      (tableNameById s fk.referenced_table_id,
       (s.meta_foreign_key_columns.filter (fun fc => fc.fk_id = fk.id)).map (fun fc =>
         (columnNameById s fc.column_id, columnNameById s fc.referenced_column_id,
          fc.ordinal_position)))) }

/-- The id-free content of one database's store subtree, in table row order. -/
def subtreeContent (s : MetaStore) (dbname : String) : List TableContent :=
  match s.meta_databases.find? (fun d => d.name = dbname) with
  | none => []
  | some d => (s.meta_tables.filter (fun t => t.database_id = d.id)).map (tableContent s)

/-- The content one extracted table contributes, read off the snapshot alone. -/
def snapTableContent (snap : Snapshot) (t : TableInfo) : TableContent :=
  { name := _fq t.schema t.table_name
    columns := ((dictFind? snap.per_table_columns (_fq t.schema t.table_name)).getD []).map
      (fun c => (c.name, c.data_type))
    pks := ((dictFind? snap.per_table_pks (_fq t.schema t.table_name)).getD []).map
      (fun pk => pk.columns.zip pk.ordinal_positions)
    fks := ((dictFind? snap.per_table_fks (_fq t.schema t.table_name)).getD []).map
      (fun fk => (_fq fk.referenced_schema fk.referenced_table,
        enumPairsFrom (MetaRepository.pairsOf fk) 1)) }

/-- The store content a successful write of the snapshot produces. -/
def snapContent (snap : Snapshot) : List TableContent :=
  snap.tables.map (snapTableContent snap)

/-- A two-table source (customers with a primary key, orders with a foreign key
to customers) whose reads always succeed and never change. -/
def c2SourceExample : PostgresSource :=
  { list_tables := .ok [⟨"public", "customers", "BASE TABLE"⟩,
      ⟨"public", "orders", "BASE TABLE"⟩]
    list_columns := fun _ tn =>
      if tn = "customers" then .ok [⟨"id", "integer", false, 1, none⟩]
      else .ok [⟨"id", "integer", false, 1, none⟩,
        ⟨"customer_id", "integer", true, 2, none⟩]
    list_primary_keys := fun _ tn =>
      if tn = "customers" then .ok [⟨"customers_pkey", ["id"], [1]⟩] else .ok []
    list_foreign_keys := fun _ tn =>
      if tn = "orders" then .ok [⟨"orders_customer_id_fkey", ["customer_id"],
        "public", "customers", ["id"], [("customer_id", "id")]⟩]
      else .ok [] }

/-- The store after the first rescan of `c2SourceExample` into an empty store. -/
def c2FirstStore : MetaStore := MetaRepository.rescanFinalStore emptyMetaStore
  c2SourceExample "shop"

/-- The store after rescanning `c2SourceExample` a second time. -/
def c2SecondStore : MetaStore := MetaRepository.rescanFinalStore c2FirstStore
  c2SourceExample "shop"

/-- A source whose single table `public.orders` carries a foreign key to
`public.customers`, a table absent from the scan: the referential check fires. -/
def c1SourceExample : PostgresSource :=
  { list_tables := .ok [⟨"public", "orders", "BASE TABLE"⟩]
    list_columns := fun _ _ => .ok [⟨"customer_id", "integer", true, 1, none⟩]
    list_primary_keys := fun _ _ => .ok []
    list_foreign_keys := fun _ _ => .ok [⟨"orders_customer_id_fkey",
      ["customer_id"], "public", "customers", ["id"], [("customer_id", "id")]⟩] }

/-- The snapshot step 1 builds from `c1SourceExample`. -/
def c1SnapExample : Snapshot :=
  { tables := [⟨"public", "orders", "BASE TABLE"⟩]
    per_table_columns := [("public.orders", [⟨"customer_id", "integer", true, 1, none⟩])]
    per_table_pks := [("public.orders", [])]
    per_table_fks := [("public.orders", [⟨"orders_customer_id_fkey",
      ["customer_id"], "public", "customers", ["id"], [("customer_id", "id")]⟩])] }

/-- A populated pre-rescan store the failed run must leave untouched. -/
def c1StoreExample : MetaStore :=
  { next_database_id := 1, next_table_id := 1, next_column_id := 1,
    next_pk_id := 0, next_fk_id := 0,
    meta_databases := [⟨0, "shop"⟩], meta_tables := [⟨0, 0, "public.old"⟩],
    meta_columns := [⟨0, 0, "x", "text"⟩], meta_primary_keys := [],
    meta_primary_key_columns := [], meta_foreign_keys := [],
    meta_foreign_key_columns := [] }

/-- A source whose table `public.t` declares its columns in the order `b`
(ordinal 1) then `a` (ordinal 2) — names against alphabetical order. -/
def c4SourceExample : PostgresSource :=
  { list_tables := .ok [⟨"public", "t", "BASE TABLE"⟩]
    list_columns := fun _ _ => .ok [⟨"b", "integer", true, 1, none⟩,
      ⟨"a", "integer", true, 2, none⟩]
    list_primary_keys := fun _ _ => .ok []
    list_foreign_keys := fun _ _ => .ok [] }

/-- The snapshot step 1 builds from `c4SourceExample`. -/
def c4SnapExample : Snapshot :=
  { tables := [⟨"public", "t", "BASE TABLE"⟩]
    per_table_columns := [("public.t", [⟨"b", "integer", true, 1, none⟩,
      ⟨"a", "integer", true, 2, none⟩])]
    per_table_pks := [("public.t", [])]
    per_table_fks := [("public.t", [])] }

/-- The store a rescan of `c4SourceExample` builds from empty. -/
def c4StoreAfter : MetaStore :=
  MetaRepository.rescanFinalStore emptyMetaStore c4SourceExample "db"

theorem strLeAux_trans : ∀ a b c : List Char,
    strLeAux a b = true → strLeAux b c = true → strLeAux a c = true
  | [], _, _, _, _ => rfl
  | _ :: _, [], _, h, _ => by simp [strLeAux] at h
  | _ :: _, _ :: _, [], _, h => by simp [strLeAux] at h
  | a :: as, b :: bs, c :: cs, h₁, h₂ => by
      simp only [strLeAux] at h₁ h₂ ⊢
      by_cases hab : a.toNat < b.toNat <;> by_cases hba : b.toNat < a.toNat <;>
        by_cases hbc : b.toNat < c.toNat <;> by_cases hcb : c.toNat < b.toNat <;>
          by_cases hac : a.toNat < c.toNat <;> by_cases hca : c.toNat < a.toNat <;>
            simp_all <;> first
              | omega
              | exact Or.inr (strLeAux_trans as bs cs h₁ h₂)

theorem strLeAux_total : ∀ a b : List Char, strLeAux a b = true ∨ strLeAux b a = true
  | [], _ => .inl rfl
  | _ :: _, [] => .inr rfl
  | a :: as, b :: bs => by
      simp only [strLeAux]
      rcases Nat.lt_trichotomy a.toNat b.toNat with h | h | h
      · left; simp [h]
      · have h1 : ¬ a.toNat < b.toNat := by omega
        have h2 : ¬ b.toNat < a.toNat := by omega
        rcases strLeAux_total as bs with ih | ih
        · left; simp [h1, h2, ih]
        · right; simp [h1, h2, ih]
      · right; simp [h]

theorem strLe_trans {a b c : String} (h₁ : strLe a b = true) (h₂ : strLe b c = true) :
    strLe a c = true :=
  strLeAux_trans a.data b.data c.data h₁ h₂

theorem strLe_total (a b : String) : strLe a b = true ∨ strLe b a = true :=
  strLeAux_total a.data b.data

namespace PostgresExtractor

theorem pkInsertRow_inv {processed : List PKRawRow} {acc : List PrimaryKeyInfo}
    (r : PKRawRow) (h : PkAccInv processed acc) :
    PkAccInv (processed ++ [r]) (pkInsertRow acc r) := by
  obtain ⟨hnodup, hentries, hnames⟩ := h
  have hnamefix : ∀ pk : PrimaryKeyInfo,
      ((if pk.constraint_name = r.constraint_name then
          { pk with
              columns := pk.columns ++ [r.column_name]
              ordinal_positions := pk.ordinal_positions ++ [r.ordinal_position] }
        else pk) : PrimaryKeyInfo).constraint_name = pk.constraint_name := by
    intro pk
    by_cases hc : pk.constraint_name = r.constraint_name <;> simp [hc]
  by_cases hmem : acc.any (fun pk => pk.constraint_name = r.constraint_name)
  · -- the constraint already has an entry: it is updated in place
    rw [PkAccInv, pkInsertRow, if_pos hmem]
    have hmapname : (acc.map (fun pk =>
        if pk.constraint_name = r.constraint_name then
          { pk with
              columns := pk.columns ++ [r.column_name]
              ordinal_positions := pk.ordinal_positions ++ [r.ordinal_position] }
        else pk)).map (fun pk => pk.constraint_name) =
          acc.map (fun pk => pk.constraint_name) := by
      rw [List.map_map]
      exact List.map_congr_left (fun pk _ => hnamefix pk)
    refine ⟨by rw [hmapname]; exact hnodup, ?_, ?_⟩
    · intro pk' hpk'
      rw [List.mem_map] at hpk'
      obtain ⟨pk, hpk, hEq⟩ := hpk'
      obtain ⟨hc, ho⟩ := hentries pk hpk
      by_cases hname : pk.constraint_name = r.constraint_name
      · subst hEq
        rw [if_pos hname]
        constructor
        · simp only [List.filter_append, List.map_append, hc]
          simp [hname]
        · simp only [List.filter_append, List.map_append, ho]
          simp [hname]
      · subst hEq
        rw [if_neg hname]
        have hfil : [r].filter (fun x => x.constraint_name = pk.constraint_name) = [] := by
          have : ¬ r.constraint_name = pk.constraint_name := fun hr => hname hr.symm
          simp [List.filter, this]
        refine ⟨?_, ?_⟩ <;>
          simp only [List.filter_append, hfil, List.append_nil, hc, ho]
    · intro n
      constructor
      · rintro ⟨pk', hpk', hn⟩
        rw [List.mem_map] at hpk'
        obtain ⟨pk, hpk, hEq⟩ := hpk'
        have hsame : pk'.constraint_name = pk.constraint_name := by
          rw [← hEq]
          exact hnamefix pk
        obtain ⟨x, hx, hxn⟩ := (hnames n).mp ⟨pk, hpk, by rw [← hsame, hn]⟩
        exact ⟨x, List.mem_append_left _ hx, hxn⟩
      · rintro ⟨x, hx, hn⟩
        rcases List.mem_append.mp hx with hx | hx
        · obtain ⟨pk, hpk, hpkn⟩ := (hnames n).mpr ⟨x, hx, hn⟩
          exact ⟨_, List.mem_map_of_mem _ hpk, by rw [hnamefix pk]; exact hpkn⟩
        · have hxr : x = r := by simpa using hx
          subst hxr
          rw [List.any_eq_true] at hmem
          obtain ⟨pk, hpk, hpkn⟩ := hmem
          rw [decide_eq_true_eq] at hpkn
          exact ⟨_, List.mem_map_of_mem _ hpk,
            by rw [hnamefix pk]; rw [hpkn]; exact hn⟩
  · -- first row of this constraint: a fresh entry is appended
    rw [PkAccInv, pkInsertRow, if_neg hmem]
    rw [List.any_eq_true] at hmem
    push_neg at hmem
    have hmem' : ∀ pk ∈ acc, ¬ pk.constraint_name = r.constraint_name := by
      intro pk hpk
      have := hmem pk hpk
      simpa using this
    have hnew : ∀ x ∈ processed, ¬ x.constraint_name = r.constraint_name := by
      intro x hx hEq
      obtain ⟨pk, hpk, hn⟩ := (hnames r.constraint_name).mpr ⟨x, hx, hEq⟩
      exact hmem' pk hpk hn
    refine ⟨?_, ?_, ?_⟩
    · rw [List.map_append, List.nodup_append]
      refine ⟨hnodup, List.nodup_singleton _, ?_⟩
      intro a ha hb
      rw [List.mem_map] at ha
      obtain ⟨pk, hpk, hEq⟩ := ha
      have hbr : a = r.constraint_name := by simpa using hb
      exact hmem' pk hpk (by rw [hEq, hbr])
    · intro pk hpk
      rcases List.mem_append.mp hpk with hpk | hpk
      · obtain ⟨hc, ho⟩ := hentries pk hpk
        have hname : ¬ r.constraint_name = pk.constraint_name :=
          fun hEq => hmem' pk hpk hEq.symm
        have hfil : [r].filter (fun x => x.constraint_name = pk.constraint_name) = [] := by
          simp [List.filter, hname]
        refine ⟨?_, ?_⟩ <;>
          simp only [List.filter_append, hfil, List.append_nil, hc, ho]
      · have hpke : pk = { constraint_name := r.constraint_name, columns := [r.column_name], ordinal_positions := [r.ordinal_position] } := by
          simpa using hpk
        subst hpke
        have hfilp : processed.filter
            (fun x => x.constraint_name = r.constraint_name) = [] := by
          rw [List.filter_eq_nil_iff]
          intro x hx
          simpa using hnew x hx
        constructor <;> simp [List.filter_append, hfilp, List.filter]
    · intro n
      constructor
      · rintro ⟨pk, hpk, hn⟩
        rcases List.mem_append.mp hpk with hpk | hpk
        · obtain ⟨x, hx, hxn⟩ := (hnames n).mp ⟨pk, hpk, hn⟩
          exact ⟨x, List.mem_append_left _ hx, hxn⟩
        · have hpke : pk = { constraint_name := r.constraint_name, columns := [r.column_name], ordinal_positions := [r.ordinal_position] } := by
            simpa using hpk
          subst hpke
          exact ⟨r, List.mem_append_right _ (List.mem_singleton_self r), hn⟩
      · rintro ⟨x, hx, hn⟩
        rcases List.mem_append.mp hx with hx | hx
        · obtain ⟨pk, hpk, hpkn⟩ := (hnames n).mpr ⟨x, hx, hn⟩
          exact ⟨pk, List.mem_append_left _ hpk, hpkn⟩
        · have hxr : x = r := by simpa using hx
          subst hxr
          exact ⟨_, List.mem_append_right _ (List.mem_singleton_self _), hn⟩

theorem pk_foldl_inv : ∀ (rest processed : List PKRawRow) (acc : List PrimaryKeyInfo),
    PkAccInv processed acc → PkAccInv (processed ++ rest) (rest.foldl pkInsertRow acc)
  | [], processed, acc, h => by simpa using h
  | r :: rest, processed, acc, h => by
      have step := @pkInsertRow_inv processed acc r h
      have ih := pk_foldl_inv rest (processed ++ [r]) (pkInsertRow acc r) step
      simpa using ih

theorem list_primary_keys_inv (rows : List PKRawRow) :
    PkAccInv rows (list_primary_keys rows) := by
  have h := pk_foldl_inv rows [] [] (by refine ⟨List.nodup_nil, ?_, ?_⟩ <;> simp)
  simpa [list_primary_keys] using h

theorem fkInsertRow_inv {processed : List FKRawRow} {acc : List ForeignKeyInfo}
    (r : FKRawRow) (h : FkAccInv processed acc) :
    FkAccInv (processed ++ [r]) (fkInsertRow acc r) := by
  obtain ⟨hnodup, hentries, hnames⟩ := h
  have hnamefix : ∀ fk : ForeignKeyInfo,
      ((if fk.constraint_name = r.constraint_name then
          { fk with
              columns := fk.columns ++ [r.src_col]
              referenced_columns := fk.referenced_columns ++ [r.tgt_col] }
        else fk) : ForeignKeyInfo).constraint_name = fk.constraint_name := by
    intro fk
    by_cases hc : fk.constraint_name = r.constraint_name <;> simp [hc]
  by_cases hmem : acc.any (fun fk => fk.constraint_name = r.constraint_name)
  · rw [FkAccInv, fkInsertRow, if_pos hmem]
    have hmapname : (acc.map (fun fk =>
        if fk.constraint_name = r.constraint_name then
          { fk with
              columns := fk.columns ++ [r.src_col]
              referenced_columns := fk.referenced_columns ++ [r.tgt_col] }
        else fk)).map (fun fk => fk.constraint_name) =
          acc.map (fun fk => fk.constraint_name) := by
      rw [List.map_map]
      exact List.map_congr_left (fun fk _ => hnamefix fk)
    refine ⟨by rw [hmapname]; exact hnodup, ?_, ?_⟩
    · intro fk' hfk'
      rw [List.mem_map] at hfk'
      obtain ⟨fk, hfk, hEq⟩ := hfk'
      obtain ⟨hc, ho⟩ := hentries fk hfk
      by_cases hname : fk.constraint_name = r.constraint_name
      · subst hEq
        rw [if_pos hname]
        constructor
        · simp only [List.filter_append, List.map_append, hc]
          simp [hname]
        · simp only [List.filter_append, List.map_append, ho]
          simp [hname]
      · subst hEq
        rw [if_neg hname]
        have hfil : [r].filter (fun x => x.constraint_name = fk.constraint_name) = [] := by
          have : ¬ r.constraint_name = fk.constraint_name := fun hr => hname hr.symm
          simp [List.filter, this]
        refine ⟨?_, ?_⟩ <;>
          simp only [List.filter_append, hfil, List.append_nil, hc, ho]
    · intro n
      constructor
      · rintro ⟨fk', hfk', hn⟩
        rw [List.mem_map] at hfk'
        obtain ⟨fk, hfk, hEq⟩ := hfk'
        have hsame : fk'.constraint_name = fk.constraint_name := by
          rw [← hEq]
          exact hnamefix fk
        obtain ⟨x, hx, hxn⟩ := (hnames n).mp ⟨fk, hfk, by rw [← hsame, hn]⟩
        exact ⟨x, List.mem_append_left _ hx, hxn⟩
      · rintro ⟨x, hx, hn⟩
        rcases List.mem_append.mp hx with hx | hx
        · obtain ⟨fk, hfk, hfkn⟩ := (hnames n).mpr ⟨x, hx, hn⟩
          exact ⟨_, List.mem_map_of_mem _ hfk, by rw [hnamefix fk]; exact hfkn⟩
        · have hxr : x = r := by simpa using hx
          subst hxr
          rw [List.any_eq_true] at hmem
          obtain ⟨fk, hfk, hfkn⟩ := hmem
          rw [decide_eq_true_eq] at hfkn
          exact ⟨_, List.mem_map_of_mem _ hfk,
            by rw [hnamefix fk]; rw [hfkn]; exact hn⟩
  · rw [FkAccInv, fkInsertRow, if_neg hmem]
    rw [List.any_eq_true] at hmem
    push_neg at hmem
    have hmem' : ∀ fk ∈ acc, ¬ fk.constraint_name = r.constraint_name := by
      intro fk hfk
      have := hmem fk hfk
      simpa using this
    have hnew : ∀ x ∈ processed, ¬ x.constraint_name = r.constraint_name := by
      intro x hx hEq
      obtain ⟨fk, hfk, hn⟩ := (hnames r.constraint_name).mpr ⟨x, hx, hEq⟩
      exact hmem' fk hfk hn
    refine ⟨?_, ?_, ?_⟩
    · rw [List.map_append, List.nodup_append]
      refine ⟨hnodup, List.nodup_singleton _, ?_⟩
      intro a ha hb
      rw [List.mem_map] at ha
      obtain ⟨fk, hfk, hEq⟩ := ha
      have hbr : a = r.constraint_name := by simpa using hb
      exact hmem' fk hfk (by rw [hEq, hbr])
    · intro fk hfk
      rcases List.mem_append.mp hfk with hfk | hfk
      · obtain ⟨hc, ho⟩ := hentries fk hfk
        have hname : ¬ r.constraint_name = fk.constraint_name :=
          fun hEq => hmem' fk hfk hEq.symm
        have hfil : [r].filter (fun x => x.constraint_name = fk.constraint_name) = [] := by
          simp [List.filter, hname]
        refine ⟨?_, ?_⟩ <;>
          simp only [List.filter_append, hfil, List.append_nil, hc, ho]
      · have hfke : fk = { constraint_name := r.constraint_name, columns := [r.src_col], referenced_schema := r.tgt_schema, referenced_table := r.tgt_table, referenced_columns := [r.tgt_col], column_pairs := [] } := by
          simpa using hfk
        subst hfke
        have hfilp : processed.filter
            (fun x => x.constraint_name = r.constraint_name) = [] := by
          rw [List.filter_eq_nil_iff]
          intro x hx
          simpa using hnew x hx
        constructor <;> simp [List.filter_append, hfilp, List.filter]
    · intro n
      constructor
      · rintro ⟨fk, hfk, hn⟩
        rcases List.mem_append.mp hfk with hfk | hfk
        · obtain ⟨x, hx, hxn⟩ := (hnames n).mp ⟨fk, hfk, hn⟩
          exact ⟨x, List.mem_append_left _ hx, hxn⟩
        · have hfke : fk = { constraint_name := r.constraint_name, columns := [r.src_col], referenced_schema := r.tgt_schema, referenced_table := r.tgt_table, referenced_columns := [r.tgt_col], column_pairs := [] } := by
            simpa using hfk
          subst hfke
          exact ⟨r, List.mem_append_right _ (List.mem_singleton_self r), hn⟩
      · rintro ⟨x, hx, hn⟩
        rcases List.mem_append.mp hx with hx | hx
        · obtain ⟨fk, hfk, hfkn⟩ := (hnames n).mpr ⟨x, hx, hn⟩
          exact ⟨fk, List.mem_append_left _ hfk, hfkn⟩
        · have hxr : x = r := by simpa using hx
          subst hxr
          exact ⟨_, List.mem_append_right _ (List.mem_singleton_self _), hn⟩

theorem fk_foldl_inv : ∀ (rest processed : List FKRawRow) (acc : List ForeignKeyInfo),
    FkAccInv processed acc → FkAccInv (processed ++ rest) (rest.foldl fkInsertRow acc)
  | [], processed, acc, h => by simpa using h
  | r :: rest, processed, acc, h => by
      have step := @fkInsertRow_inv processed acc r h
      have ih := fk_foldl_inv rest (processed ++ [r]) (fkInsertRow acc r) step
      simpa using ih

theorem list_foreign_keys_inv (rows : List FKRawRow) :
    ∀ fk ∈ list_foreign_keys rows,
      fk.column_pairs = fk.columns.zip fk.referenced_columns ∧
      fk.columns =
        (rows.filter (fun r => r.constraint_name = fk.constraint_name)).map
          (fun r => r.src_col) ∧
      fk.referenced_columns =
        (rows.filter (fun r => r.constraint_name = fk.constraint_name)).map
          (fun r => r.tgt_col) := by
  intro fk hfk
  have h := fk_foldl_inv rows [] [] (by refine ⟨List.nodup_nil, ?_, ?_⟩ <;> simp)
  rw [List.nil_append] at h
  obtain ⟨_, hentries, _⟩ := h
  rw [list_foreign_keys, List.mem_map] at hfk
  obtain ⟨fk0, hfk0, hEq⟩ := hfk
  obtain ⟨hc, ho⟩ := hentries fk0 hfk0
  subst hEq
  exact ⟨rfl, hc, ho⟩

end PostgresExtractor

/-- Strict position ascent carries from sorted query rows to any one constraint's
rows: filtering preserves pairwise order, and within a filter-by-name group the
name-equality premise is discharged by membership. -/
theorem pairwise_pos_of_filter {α : Type} (rows : List α) (nameOf : α → String)
    (posOf : α → Int) (n : String)
    (hsorted : rows.Pairwise (fun a b => nameOf a = nameOf b → posOf a < posOf b)) :
    ((rows.filter (fun r => nameOf r = n)).map posOf).Pairwise (· < ·) := by
  rw [List.pairwise_map]
  have hfil := hsorted.filter (fun r => decide (nameOf r = n))
  refine hfil.imp_of_mem ?_
  intro a b ha hb hab
  have ha' := (List.mem_filter.mp ha).2
  have hb' := (List.mem_filter.mp hb).2
  rw [decide_eq_true_eq] at ha' hb'
  exact hab (ha'.trans hb'.symm)

/-- C8: every `PrimaryKeyEntry` produced by `list_primary_keys` has `columns`
and `ordinal_positions` of equal length, both grouped from the raw
(constraint, column, position) triples of its constraint name in row order, and
— the rows arriving ordered by position as the query's `ORDER BY` guarantees —
the entry's ordinal positions strictly ascending. -/
theorem c8_primary_keys_parallel_ordered (rows : List PostgresExtractor.PKRawRow)
    (hsorted : rows.Pairwise (fun a b =>
      a.constraint_name = b.constraint_name → a.ordinal_position < b.ordinal_position)) :
    ∀ pk ∈ PostgresExtractor.list_primary_keys rows,
      pk.columns.length = pk.ordinal_positions.length ∧
      pk.columns =
        (rows.filter (fun r => r.constraint_name = pk.constraint_name)).map
          (fun r => r.column_name) ∧
      pk.ordinal_positions =
        (rows.filter (fun r => r.constraint_name = pk.constraint_name)).map
          (fun r => r.ordinal_position) ∧
      pk.ordinal_positions.Pairwise (· < ·) := by
  intro pk hpk
  have hinv := PostgresExtractor.list_primary_keys_inv rows
  obtain ⟨_, hentries, _⟩ := hinv
  obtain ⟨hc, ho⟩ := hentries pk hpk
  refine ⟨by rw [hc, ho, List.length_map, List.length_map], hc, ho, ?_⟩
  rw [ho]
  exact pairwise_pos_of_filter rows (fun r => r.constraint_name)
    (fun r => r.ordinal_position) pk.constraint_name hsorted

/-- Witness for C8 at the composite-key scenario. -/
theorem c8_primary_keys_parallel_ordered_witness :
    pkEntryExample.columns.length = pkEntryExample.ordinal_positions.length ∧
    pkEntryExample.columns =
      (pkRowsExample.filter (fun r => r.constraint_name = pkEntryExample.constraint_name)).map
        (fun r => r.column_name) ∧
    pkEntryExample.ordinal_positions =
      (pkRowsExample.filter (fun r => r.constraint_name = pkEntryExample.constraint_name)).map
        (fun r => r.ordinal_position) ∧
    pkEntryExample.ordinal_positions.Pairwise (· < ·) :=
  c8_primary_keys_parallel_ordered pkRowsExample (by decide) pkEntryExample (by decide)

/-- C3: every `ForeignKeyEntry` produced by `list_foreign_keys` has `columns`,
`referenced_columns` and `column_pairs` of equal length, with
`column_pairs[i] = (columns[i], referenced_columns[i])` at every index; the pair
list is the zip of the grouped, ordered column lists (not a re-sort), the grouped
lists follow the constraint's rows in order, and — the rows arriving ordered by
`(constraint, position)` as the query's `ORDER BY` guarantees — pair order
follows the constraint's column positions ascending. -/
theorem c3_foreign_key_pairs_aligned (rows : List PostgresExtractor.FKRawRow)
    (hsorted : rows.Pairwise (fun a b =>
      a.constraint_name = b.constraint_name → a.position < b.position)) :
    ∀ fk ∈ PostgresExtractor.list_foreign_keys rows,
      fk.columns.length = fk.referenced_columns.length ∧
      fk.column_pairs.length = fk.columns.length ∧
      fk.column_pairs.length = fk.referenced_columns.length ∧
      fk.column_pairs = fk.columns.zip fk.referenced_columns ∧
      (∀ (i : Nat) (h : i < fk.column_pairs.length) (h1 : i < fk.columns.length)
          (h2 : i < fk.referenced_columns.length),
        fk.column_pairs.get ⟨i, h⟩ =
          (fk.columns.get ⟨i, h1⟩, fk.referenced_columns.get ⟨i, h2⟩)) ∧
      fk.columns =
        (rows.filter (fun r => r.constraint_name = fk.constraint_name)).map
          (fun r => r.src_col) ∧
      fk.referenced_columns =
        (rows.filter (fun r => r.constraint_name = fk.constraint_name)).map
          (fun r => r.tgt_col) ∧
      ((rows.filter (fun r => r.constraint_name = fk.constraint_name)).map
          (fun r => r.position)).Pairwise (· < ·) := by
  intro fk hfk
  obtain ⟨hzip, hc, ho⟩ := PostgresExtractor.list_foreign_keys_inv rows fk hfk
  have hlen : fk.columns.length = fk.referenced_columns.length := by
    rw [hc, ho, List.length_map, List.length_map]
  have hplen : fk.column_pairs.length = fk.columns.length := by
    rw [hzip, List.length_zip, hlen, Nat.min_self]
  refine ⟨hlen, hplen, by rw [hplen, hlen], hzip, ?_, hc, ho, ?_⟩
  · intro i h h1 h2
    have hstep := List.get_of_eq hzip ⟨i, h⟩
    rw [hstep]
    simp [List.get_eq_getElem, List.getElem_zip]
  · exact pairwise_pos_of_filter rows (fun r => r.constraint_name)
      (fun r => r.position) fk.constraint_name hsorted

/-- Witness for C3 at the orders→customers scenario, with the indexed pair fact
instantiated at the first pair. -/
theorem c3_foreign_key_pairs_aligned_witness :
    fkEntryExample.columns.length = fkEntryExample.referenced_columns.length ∧
    fkEntryExample.column_pairs.length = fkEntryExample.columns.length ∧
    fkEntryExample.column_pairs = fkEntryExample.columns.zip fkEntryExample.referenced_columns ∧
    fkEntryExample.column_pairs.get ⟨0, by decide⟩ = ("customer_id", "id") ∧
    ((fkRowsExample.filter
        (fun r => r.constraint_name = fkEntryExample.constraint_name)).map
        (fun r => r.position)).Pairwise (· < ·) := by
  have h := c3_foreign_key_pairs_aligned fkRowsExample (by decide) fkEntryExample (by decide)
  refine ⟨h.1, h.2.1, h.2.2.2.1, ?_, h.2.2.2.2.2.2.2⟩
  have hi := h.2.2.2.2.1 0 (by decide) (by decide) (by decide)
  rw [hi]
  decide

theorem strLeAux_antisymm : ∀ a b : List Char,
    strLeAux a b = true → strLeAux b a = true → a = b
  | [], [], _, _ => rfl
  | [], _ :: _, _, h => by simp [strLeAux] at h
  | _ :: _, [], h, _ => by simp [strLeAux] at h
  | a :: as, b :: bs, h₁, h₂ => by
      simp only [strLeAux] at h₁ h₂
      by_cases hab : a.toNat < b.toNat <;> by_cases hba : b.toNat < a.toNat <;>
        simp [hab, hba] at h₁ h₂
      · omega
      · have hchar : a = b :=
          Char.eq_of_val_eq (UInt32.toNat.inj (show a.toNat = b.toNat by omega))
        rw [hchar, strLeAux_antisymm as bs h₁ h₂]

theorem strLe_antisymm {a b : String} (h₁ : strLe a b = true) (h₂ : strLe b a = true) :
    a = b := by
  cases a with
  | mk da =>
    cases b with
    | mk db =>
      have : da = db := strLeAux_antisymm da db h₁ h₂
      rw [this]

theorem strLt_le {a b : String} (h : strLt a b = true) : strLe a b = true := by
  rw [strLt, Bool.and_eq_true] at h
  exact h.1

theorem strLt_not_rev {a b : String} (h : strLt a b = true) : strLe b a = false := by
  rw [strLt, Bool.and_eq_true, Bool.not_eq_true'] at h
  exact h.2

theorem strLt_trans {a b c : String} (h₁ : strLt a b = true) (h₂ : strLt b c = true) :
    strLt a c = true := by
  rw [strLt, Bool.and_eq_true, Bool.not_eq_true']
  refine ⟨strLe_trans (strLt_le h₁) (strLt_le h₂), ?_⟩
  by_contra hca
  rw [Bool.not_eq_false] at hca
  have : strLe c b = true := strLe_trans hca (strLt_le h₁)
  rw [strLt_not_rev h₂] at this
  exact Bool.false_ne_true this

theorem strLt_or_eq_of_not_gt {a b : String}
    (hab : strLt a b = false) (hba : strLt b a = false) : a = b := by
  rcases strLe_total a b with h | h
  · have hrev : strLe b a = true := by
      by_contra hba'
      rw [Bool.not_eq_true] at hba'
      have hlt : strLt a b = true := by rw [strLt, h, hba']; rfl
      rw [hab] at hlt
      exact Bool.false_ne_true hlt
    exact strLe_antisymm h hrev
  · have hrev : strLe a b = true := by
      by_contra hab'
      rw [Bool.not_eq_true] at hab'
      have hlt : strLt b a = true := by rw [strLt, h, hab']; rfl
      rw [hba] at hlt
      exact Bool.false_ne_true hlt
    exact strLe_antisymm hrev h

namespace PostgresExtractor

theorem tableRowLe_trans {a b c : InfoSchemaTableRow}
    (h₁ : tableRowLe a b = true) (h₂ : tableRowLe b c = true) : tableRowLe a c = true := by
  rw [tableRowLe, Bool.or_eq_true, Bool.and_eq_true] at h₁ h₂ ⊢
  rcases h₁ with h₁ | ⟨h₁s, h₁n⟩
  · rcases h₂ with h₂ | ⟨h₂s, h₂n⟩
    · exact .inl (strLt_trans h₁ h₂)
    · rw [decide_eq_true_eq] at h₂s
      exact .inl (h₂s ▸ h₁)
  · rw [decide_eq_true_eq] at h₁s
    rcases h₂ with h₂ | ⟨h₂s, h₂n⟩
    · exact .inl (h₁s ▸ h₂)
    · rw [decide_eq_true_eq] at h₂s
      exact .inr ⟨by rw [decide_eq_true_eq]; exact h₁s.trans h₂s, strLe_trans h₁n h₂n⟩

theorem tableRowLe_total (a b : InfoSchemaTableRow) :
    tableRowLe a b = true ∨ tableRowLe b a = true := by
  rw [tableRowLe, tableRowLe, Bool.or_eq_true, Bool.or_eq_true,
    Bool.and_eq_true, Bool.and_eq_true]
  by_cases hab : strLt a.table_schema b.table_schema
  · exact .inl (.inl hab)
  · by_cases hba : strLt b.table_schema a.table_schema
    · exact .inr (.inl hba)
    · rw [Bool.not_eq_true] at hab hba
      have hEq := strLt_or_eq_of_not_gt hab hba
      rcases strLe_total a.table_name b.table_name with h | h
      · exact .inl (.inr ⟨by rw [decide_eq_true_eq]; exact hEq, h⟩)
      · exact .inr (.inr ⟨by rw [decide_eq_true_eq]; exact hEq.symm, h⟩)

end PostgresExtractor

/-- C9: `list_tables` returns rows ordered by `(schema, table)` ascending; with
`include_system_schemas = false` no `pg_catalog`/`information_schema` table is
returned; with a `schemas` list only tables of those schemas are returned; and
the `database` argument does not affect the result. -/
theorem c9_list_tables_filtered_ordered
    (catalog : List PostgresExtractor.InfoSchemaTableRow)
    (database₁ database₂ : Option String) (schemas : Option (List String))
    (include_system_schemas : Bool) :
    (PostgresExtractor.list_tables catalog database₁ schemas
        include_system_schemas).Pairwise
      (fun a b => PostgresExtractor.tableInfoLe a b = true) ∧
    (include_system_schemas = false →
      ∀ t ∈ PostgresExtractor.list_tables catalog database₁ schemas
          include_system_schemas,
        ¬ t.schema = "pg_catalog" ∧ ¬ t.schema = "information_schema") ∧
    (∀ ss, schemas = some ss →
      ∀ t ∈ PostgresExtractor.list_tables catalog database₁ schemas
          include_system_schemas,
        t.schema ∈ ss) ∧
    PostgresExtractor.list_tables catalog database₁ schemas include_system_schemas =
      PostgresExtractor.list_tables catalog database₂ schemas include_system_schemas := by
  have hmem : ∀ t ∈ PostgresExtractor.list_tables catalog database₁ schemas
      include_system_schemas,
      ∃ r ∈ catalog.filter
          (PostgresExtractor.tableRowKept schemas include_system_schemas),
        t = { schema := r.table_schema, table_name := r.table_name,
              table_type := r.table_type } := by
    intro t ht
    rw [PostgresExtractor.list_tables, List.mem_map] at ht
    obtain ⟨r, hr, hEq⟩ := ht
    rw [List.mem_insertionSort] at hr
    exact ⟨r, hr, hEq.symm⟩
  refine ⟨?_, ?_, ?_, rfl⟩
  · letI : IsTrans PostgresExtractor.InfoSchemaTableRow
        (fun a b => PostgresExtractor.tableRowLe a b = true) :=
      ⟨fun _ _ _ => PostgresExtractor.tableRowLe_trans⟩
    letI : IsTotal PostgresExtractor.InfoSchemaTableRow
        (fun a b => PostgresExtractor.tableRowLe a b = true) :=
      ⟨PostgresExtractor.tableRowLe_total⟩
    have hsorted := List.sorted_insertionSort
      (fun a b => PostgresExtractor.tableRowLe a b = true)
      (catalog.filter (PostgresExtractor.tableRowKept schemas include_system_schemas))
    rw [PostgresExtractor.list_tables, List.pairwise_map]
    exact hsorted.imp (fun h => h)
  · intro hsys t ht
    obtain ⟨r, hr, hEq⟩ := hmem t ht
    have hkept := (List.mem_filter.mp hr).2
    rw [hsys] at hkept
    simp only [PostgresExtractor.tableRowKept, Bool.false_or, Bool.and_eq_true,
      Bool.not_eq_true', Bool.or_eq_false_iff] at hkept
    subst hEq
    exact ⟨by simpa using hkept.1.1, by simpa using hkept.1.2⟩
  · intro ss hss t ht
    obtain ⟨r, hr, hEq⟩ := hmem t ht
    have hkept := (List.mem_filter.mp hr).2
    rw [hss] at hkept
    simp only [PostgresExtractor.tableRowKept, Bool.and_eq_true] at hkept
    subst hEq
    simpa using hkept.2

/-- Witness for C9: the schema restriction, system-schema exclusion, ordering and
database-independence at a concrete catalog. -/
theorem c9_list_tables_filtered_ordered_witness :
    (PostgresExtractor.list_tables tablesCatalogExample (some "shop")
        (some ["public"]) false).Pairwise
      (fun a b => PostgresExtractor.tableInfoLe a b = true) ∧
    (false = false →
      ∀ t ∈ PostgresExtractor.list_tables tablesCatalogExample (some "shop")
          (some ["public"]) false,
        ¬ t.schema = "pg_catalog" ∧ ¬ t.schema = "information_schema") ∧
    (∀ ss, (some ["public"] : Option (List String)) = some ss →
      ∀ t ∈ PostgresExtractor.list_tables tablesCatalogExample (some "shop")
          (some ["public"]) false,
        t.schema ∈ ss) ∧
    PostgresExtractor.list_tables tablesCatalogExample (some "shop")
        (some ["public"]) false =
      PostgresExtractor.list_tables tablesCatalogExample none (some ["public"]) false :=
  c9_list_tables_filtered_ordered tablesCatalogExample (some "shop") none
    (some ["public"]) false

/-- C7: for a table with N live columns (rows of `pg_attribute` passing the
query's join and `attnum > 0 AND NOT attisdropped` tests), `list_columns`
returns exactly N entries; with the catalog well-formed (no duplicate `attnum`
among the table's live columns) their ordinal positions are strictly ascending
in declaration (`attnum`) order; and every entry comes from a live, non-dropped
attribute row with its type rendered as the single `format_type` string. -/
theorem c7_list_columns_live_ordered_rendered (cat : PostgresExtractor.PgCatalog)
    (table_schema table_name : String)
    (hnodup : (((cat.pg_attribute.filter
        (PostgresExtractor.attributeKept cat table_schema table_name))).map
        (fun a => a.attnum)).Nodup) :
    (PostgresExtractor.list_columns cat table_schema table_name).length =
      (cat.pg_attribute.filter
        (PostgresExtractor.attributeKept cat table_schema table_name)).length ∧
    ((PostgresExtractor.list_columns cat table_schema table_name).map
        (fun c => c.ordinal_position)).Pairwise (· < ·) ∧
    (∀ c ∈ PostgresExtractor.list_columns cat table_schema table_name,
      ∃ a ∈ cat.pg_attribute,
        PostgresExtractor.attributeKept cat table_schema table_name a = true ∧
        c.name = a.attname ∧
        c.data_type = cat.format_type a.atttypid a.atttypmod ∧
        c.ordinal_position = a.attnum ∧
        (0 : Int) < a.attnum ∧
        a.attisdropped = false) := by
  have hperm := List.perm_insertionSort (fun a b : PostgresExtractor.PgAttributeRow =>
      a.attnum ≤ b.attnum)
    (cat.pg_attribute.filter (PostgresExtractor.attributeKept cat table_schema table_name))
  refine ⟨?_, ?_, ?_⟩
  · rw [PostgresExtractor.list_columns, List.length_map]
    exact hperm.length_eq
  · letI : IsTrans PostgresExtractor.PgAttributeRow (fun a b => a.attnum ≤ b.attnum) :=
      ⟨fun _ _ _ => le_trans⟩
    letI : IsTotal PostgresExtractor.PgAttributeRow (fun a b => a.attnum ≤ b.attnum) :=
      ⟨fun a b => le_total a.attnum b.attnum⟩
    have hsorted := List.sorted_insertionSort (fun a b : PostgresExtractor.PgAttributeRow =>
        a.attnum ≤ b.attnum)
      (cat.pg_attribute.filter (PostgresExtractor.attributeKept cat table_schema table_name))
    have hnodup' : ((((cat.pg_attribute.filter
        (PostgresExtractor.attributeKept cat table_schema table_name))).insertionSort
          (fun a b => a.attnum ≤ b.attnum)).map (fun a => a.attnum)).Nodup :=
      ((hperm.map (fun a => a.attnum)).nodup_iff).mpr hnodup
    rw [List.Nodup, List.pairwise_map] at hnodup'
    rw [PostgresExtractor.list_columns, List.map_map]
    rw [List.pairwise_map]
    exact (hsorted.and hnodup').imp (fun hab => lt_of_le_of_ne hab.1 hab.2)
  · intro c hc
    rw [PostgresExtractor.list_columns, List.mem_map] at hc
    obtain ⟨a, ha, hEq⟩ := hc
    rw [List.mem_insertionSort, List.mem_filter] at ha
    obtain ⟨hmem, hkept⟩ := ha
    refine ⟨a, hmem, hkept, ?_⟩
    have h2 := hkept
    rw [PostgresExtractor.attributeKept, Bool.and_eq_true, Bool.and_eq_true] at h2
    refine ⟨?_, ?_, ?_, ?_, ?_⟩
    · rw [← hEq]
    · rw [← hEq]
    · rw [← hEq]
    · exact by simpa using h2.1.2
    · exact by simpa using h2.2

/-- Witness for C7 at `pgCatalogExample`: the two live columns of `public.t`. -/
theorem c7_list_columns_live_ordered_rendered_witness :
    (PostgresExtractor.list_columns pgCatalogExample "public" "t").length =
      (pgCatalogExample.pg_attribute.filter
        (PostgresExtractor.attributeKept pgCatalogExample "public" "t")).length ∧
    ((PostgresExtractor.list_columns pgCatalogExample "public" "t").map
        (fun c => c.ordinal_position)).Pairwise (· < ·) ∧
    (∀ c ∈ PostgresExtractor.list_columns pgCatalogExample "public" "t",
      ∃ a ∈ pgCatalogExample.pg_attribute,
        PostgresExtractor.attributeKept pgCatalogExample "public" "t" a = true ∧
        c.name = a.attname ∧
        c.data_type = pgCatalogExample.format_type a.atttypid a.atttypmod ∧
        c.ordinal_position = a.attnum ∧
        (0 : Int) < a.attnum ∧
        a.attisdropped = false) :=
  c7_list_columns_live_ordered_rendered pgCatalogExample "public" "t" (by decide)

/-- C6: registering an already-known database name hands back the id of the
existing row and leaves the store unchanged — re-running `_upsert_database` on
its own result returns the same id, inserts no duplicate `Database` row, and
(being a total insert-or-fetch on the unique name, not an exists-check followed
by a blind insert) no error path exists. -/
theorem c6_upsert_reregistration_same_id (s : MetaStore) (name : String) :
    MetaRepository._upsert_database (MetaRepository._upsert_database s name).2 name =
      MetaRepository._upsert_database s name := by
  match hfind : s.meta_databases.find? (fun d => d.name = name) with
  | some d =>
      have h1 : MetaRepository._upsert_database s name = (d.id, s) := by
        rw [MetaRepository._upsert_database, hfind]
      rw [h1]
      exact h1
  | none =>
      have h1 : MetaRepository._upsert_database s name =
          (s.next_database_id,
           { s with
               next_database_id := s.next_database_id + 1
               meta_databases := s.meta_databases ++ [⟨s.next_database_id, name⟩] }) := by
        rw [MetaRepository._upsert_database, hfind]
      have hnew : (s.meta_databases ++ [(⟨s.next_database_id, name⟩ : MetaDatabaseRow)]).find?
          (fun d => d.name = name) = some ⟨s.next_database_id, name⟩ := by
        rw [List.find?_append, hfind]
        simp
      rw [h1, MetaRepository._upsert_database]
      simp only [hnew]

/-- Concrete check of the upsert: a fresh name gets one row with id 0, and a
repeated registration returns the same id over the same single row. -/
theorem upsert_concrete_check :
    (MetaRepository._upsert_database emptyMetaStore "shop").1 = 0 ∧
    (MetaRepository._upsert_database
      (MetaRepository._upsert_database emptyMetaStore "shop").2 "shop").1 = 0 ∧
    (MetaRepository._upsert_database
        (MetaRepository._upsert_database emptyMetaStore "shop").2 "shop").2.meta_databases =
      [{ id := 0, name := "shop" }] := by decide

/-- C10: `add_database` raises on an empty name and on a failed connectivity
test, in both cases leaving the store untouched; a success implies the
connectivity check passed and the name was non-empty, so a `Database` row is
only ever inserted after the source proved reachable. -/
theorem c10_add_database_requires_connectivity (connOk : String → Bool)
    (s : MetaStore) (name : String) :
    (name = "" →
      MetaRepository.add_database connOk s name = .error "Database name is empty" ∧
      MetaRepository.addDatabaseFinalStore connOk s name = s) ∧
    (connOk name = false →
      (∃ e, MetaRepository.add_database connOk s name = .error e) ∧
      MetaRepository.addDatabaseFinalStore connOk s name = s) ∧
    (∀ r, MetaRepository.add_database connOk s name = .ok r →
      connOk name = true ∧ ¬ name = "") ∧
    (¬ MetaRepository.addDatabaseFinalStore connOk s name = s → connOk name = true) := by
  refine ⟨?_, ?_, ?_, ?_⟩
  · intro hname
    subst hname
    constructor
    · rw [MetaRepository.add_database]
      simp
    · rw [MetaRepository.addDatabaseFinalStore, MetaRepository.add_database]
      simp
  · intro hconn
    by_cases hname : name = ""
    · subst hname
      refine ⟨⟨"Database name is empty", ?_⟩, ?_⟩
      · rw [MetaRepository.add_database]; simp
      · rw [MetaRepository.addDatabaseFinalStore, MetaRepository.add_database]; simp
    · refine ⟨⟨name, ?_⟩, ?_⟩
      · rw [MetaRepository.add_database, if_neg hname, hconn]
        simp
      · rw [MetaRepository.addDatabaseFinalStore, MetaRepository.add_database,
          if_neg hname, hconn]
        simp
  · intro r hok
    rw [MetaRepository.add_database] at hok
    by_cases hname : name = ""
    · rw [if_pos hname] at hok
      exact absurd hok (by simp)
    · rw [if_neg hname] at hok
      by_cases hconn : connOk name = false
      · rw [hconn] at hok
        exact absurd hok (by simp)
      · exact ⟨by revert hconn; cases connOk name <;> simp, hname⟩
  · intro hchanged
    by_cases hconn : connOk name = false
    · exfalso
      by_cases hname : name = ""
      · refine hchanged ?_
        subst hname
        rw [MetaRepository.addDatabaseFinalStore, MetaRepository.add_database]
        simp
      · refine hchanged ?_
        rw [MetaRepository.addDatabaseFinalStore, MetaRepository.add_database,
          if_neg hname, hconn]
        simp
    · revert hconn; cases connOk name <;> simp

/-- Witness for C10: with a connectivity oracle that only accepts `"ok_db"`, the
empty name and an unreachable name both raise and leave the store unchanged. -/
theorem c10_add_database_requires_connectivity_witness :
    MetaRepository.add_database (fun n => n = "ok_db") emptyMetaStore "" =
      .error "Database name is empty" ∧
    MetaRepository.addDatabaseFinalStore (fun n => n = "ok_db") emptyMetaStore "" =
      emptyMetaStore ∧
    (∃ e, MetaRepository.add_database (fun n => n = "ok_db") emptyMetaStore "bad_db" =
      .error e) ∧
    MetaRepository.addDatabaseFinalStore (fun n => n = "ok_db") emptyMetaStore "bad_db" =
      emptyMetaStore := by
  have h1 := c10_add_database_requires_connectivity (fun n => n = "ok_db")
    emptyMetaStore ""
  have h2 := c10_add_database_requires_connectivity (fun n => n = "ok_db")
    emptyMetaStore "bad_db"
  exact ⟨(h1.1 rfl).1, (h1.1 rfl).2, (h2.2.1 (by decide)).1, (h2.2.1 (by decide)).2⟩

/-- C5: when step-1 extraction raises — at the table listing or partway through
the per-table column/PK/FK pass — the run reports an extraction failure, the
store is untouched (no `Table` row deleted or inserted), no transaction event is
emitted, and the trace is exactly connect-then-close; moreover every run's trace
starts with the extractor connect and close events, so the extractor is closed
before any transaction begins. -/
theorem c5_extraction_failure_no_mutation (s : MetaStore) (src : PostgresSource)
    (dbname : String) (e : String) (hfail : extractSnapshot src = .error e) :
    (MetaRepository.rescan_schema s src dbname).1 =
      .error (.extraction e) ∧
    MetaRepository.rescanFinalStore s src dbname = s ∧
    (MetaRepository.rescan_schema s src dbname).2 =
      [.extractorConnect, .extractorClose] ∧
    (∀ (s' : MetaStore) (src' : PostgresSource) (dbname' : String),
      (MetaRepository.rescan_schema s' src' dbname').2.take 2 =
        [.extractorConnect, .extractorClose]) := by
  refine ⟨?_, ?_, ?_, ?_⟩
  · rw [MetaRepository.rescan_schema, hfail]
  · rw [MetaRepository.rescanFinalStore, MetaRepository.rescan_schema, hfail]
  · rw [MetaRepository.rescan_schema, hfail]
  · intro s' src' dbname'
    rw [MetaRepository.rescan_schema]
    cases hx : extractSnapshot src' with
    | error e' => rfl
    | ok snap =>
        cases hw : MetaRepository.rescanWrite s' dbname' snap with
        | error e' => simp only [hw]; rfl
        | ok s'' => simp only [hw]; rfl

/-- Witness for C5: the partway-failing source aborts the run, leaves the
pre-rescan subtree intact and opens no transaction. -/
theorem c5_extraction_failure_no_mutation_witness :
    (MetaRepository.rescan_schema preRescanStoreExample failingSourceExample "shop").1 =
      .error (.extraction "connection reset while reading pg_attribute") ∧
    MetaRepository.rescanFinalStore preRescanStoreExample failingSourceExample "shop" =
      preRescanStoreExample ∧
    (MetaRepository.rescan_schema preRescanStoreExample failingSourceExample "shop").2 =
      [.extractorConnect, .extractorClose] := by
  have h := c5_extraction_failure_no_mutation preRescanStoreExample failingSourceExample
    "shop" "connection reset while reading pg_attribute" (by decide)
  exact ⟨h.1, h.2.1, h.2.2.1⟩

/-! ### Association-list and lookup helpers -/
theorem dictFind?_isSome_iff {α β : Type} [DecidableEq α] (d : List (α × β)) (k : α) :
    (dictFind? d k).isSome ↔ ∃ v, (k, v) ∈ d := by
  rw [dictFind?]
  cases hfind : d.find? (fun p => p.1 = k) with
  | none =>
      simp only [Option.map_none', Option.isSome_none, Bool.false_eq_true, false_iff]
      rintro ⟨v, hv⟩
      have := List.find?_eq_none.mp hfind (k, v) hv
      simp at this
  | some p =>
      simp only [Option.map_some', Option.isSome_some, true_iff]
      have hkey := List.find?_some hfind
      rw [decide_eq_true_eq] at hkey
      exact ⟨p.2, by rw [← hkey, Prod.mk.eta]; exact List.mem_of_find?_eq_some hfind⟩

theorem dictFind?_eq_of_mem_of_nodup {α β : Type} [DecidableEq α] (d : List (α × β))
    (hnodup : (d.map Prod.fst).Nodup) (k : α) (v : β) (hmem : (k, v) ∈ d) :
    dictFind? d k = some v := by
  induction d with
  | nil => cases hmem
  | cons p rest ih =>
      rw [List.map_cons, List.nodup_cons] at hnodup
      rcases List.mem_cons.mp hmem with hmem | hmem
      · subst hmem
        rw [dictFind?, List.find?_cons_of_pos _ (by simp)]
        rfl
      · have hne : ¬ p.1 = k := by
          intro hEq
          exact hnodup.1 (hEq ▸ List.mem_map_of_mem Prod.fst hmem)
        rw [dictFind?, List.find?_cons_of_neg _ (by simpa using hne)]
        exact ih hnodup.2 hmem

theorem mem_of_dictFind?_eq_some {α β : Type} [DecidableEq α] {d : List (α × β)}
    {k : α} {v : β} (h : dictFind? d k = some v) : (k, v) ∈ d := by
  rw [dictFind?] at h
  obtain ⟨p, hp, hEq⟩ := Option.map_eq_some'.mp h
  have hmem := List.mem_of_find?_eq_some hp
  have hkey := List.find?_some hp
  rw [decide_eq_true_eq] at hkey
  rw [← hEq, ← hkey, Prod.mk.eta]
  exact hmem

theorem dictFind?_merge {α β : Type} [DecidableEq α] (d later : List (α × β)) (k : α) :
    dictFind? (dictMerge d later) k =
      match dictFind? later k with
      | some v => some v
      | none => dictFind? d k := by
  cases hl : dictFind? later k with
  | some v =>
      have hany : later.any (fun q => q.1 = k) = true := by
        rw [List.any_eq_true]
        exact ⟨(k, v), mem_of_dictFind?_eq_some hl, by simp⟩
      rw [dictMerge, dictFind?, List.find?_append]
      have hleft : (d.filter (fun p => !(later.any (fun q => q.1 = p.1)))).find?
          (fun p => p.1 = k) = none := by
        rw [List.find?_eq_none]
        intro p hp hk
        rw [decide_eq_true_eq] at hk
        have hfil := (List.mem_filter.mp hp).2
        rw [hk, hany] at hfil
        simp at hfil
      rw [hleft, Option.none_or]
      exact hl
  | none =>
      have hany : later.any (fun q => q.1 = k) = false := by
        rw [← Bool.not_eq_true, List.any_eq_true]
        rintro ⟨q, hq, hk⟩
        rw [decide_eq_true_eq] at hk
        have : (dictFind? later k).isSome :=
          (dictFind?_isSome_iff later k).mpr ⟨q.2, by rwa [← hk, Prod.mk.eta]⟩
        rw [hl] at this
        cases this
      have hright : later.find? (fun p => p.1 = k) = none := by
        rw [dictFind?] at hl
        cases hfind : later.find? (fun p => p.1 = k) with
        | none => rfl
        | some p => rw [hfind] at hl; cases hl
      rw [dictMerge, dictFind?, List.find?_append, hright, Option.or_none]
      induction d with
      | nil => simp [dictFind?]
      | cons p rest ih =>
          by_cases hp : p.1 = k
          · have hkeep : (later.any (fun q => q.1 = p.1)) = false := by rw [hp]; exact hany
            rw [List.filter_cons_of_pos (by simp [hkeep])]
            rw [List.find?_cons_of_pos _ (by simpa using hp), dictFind?,
              List.find?_cons_of_pos _ (by simpa using hp)]
          · rw [dictFind?, List.find?_cons_of_neg _ (by simpa using hp)]
            by_cases hkeep : later.any (fun q => q.1 = p.1)
            · rw [List.filter_cons_of_neg (by simp [hkeep])]
              rw [dictFind?] at ih
              exact ih
            · rw [Bool.not_eq_true] at hkeep
              rw [List.filter_cons_of_pos (by simp [hkeep])]
              rw [List.find?_cons_of_neg _ (by simpa using hp)]
              rw [dictFind?] at ih
              exact ih

theorem find?_proj_of_mem_of_nodup {α : Type} (f : α → Nat) (l : List α)
    (hnodup : (l.map f).Nodup) (x : α) (hx : x ∈ l) (n : Nat) (hn : f x = n) :
    l.find? (fun y => f y = n) = some x := by
  induction l with
  | nil => cases hx
  | cons a rest ih =>
      rw [List.map_cons, List.nodup_cons] at hnodup
      rcases List.mem_cons.mp hx with hx | hx
      · subst hx
        rw [List.find?_cons_of_pos _ (by simp [hn])]
      · have hne : ¬ f a = n := by
          intro hEq
          refine hnodup.1 ?_
          rw [hEq, ← hn]
          exact List.mem_map_of_mem f hx
        rw [List.find?_cons_of_neg _ (by simpa using hne)]
        exact ih hnodup.2 hx

theorem dictFind?_cons {α β : Type} [DecidableEq α] (k' : α) (v : β)
    (d : List (α × β)) (k : α) :
    dictFind? ((k', v) :: d) k = if k' = k then some v else dictFind? d k := by
  by_cases h : k' = k
  · rw [dictFind?, List.find?_cons_of_pos _ (by simpa using h), if_pos h]
    rfl
  · rw [dictFind?, List.find?_cons_of_neg _ (by simpa using h), if_neg h]
    rfl

namespace MetaRepository

theorem insertTables_fin (database_id : Nat) :
    ∀ (ts : List TableInfo) (next : Nat),
      (insertTables database_id ts next).2.2 = next + ts.length
  | [], next => by simp [insertTables]
  | t :: rest, next => by
      rw [insertTables]
      have ih := insertTables_fin database_id rest (next + 1)
      simp only [List.length_cons]
      omega

theorem insertTables_rows_ids (database_id : Nat) :
    ∀ (ts : List TableInfo) (next : Nat),
      (insertTables database_id ts next).1.map (fun r => r.id) =
        List.range' next ts.length
  | [], next => by simp [insertTables]
  | t :: rest, next => by
      rw [insertTables]
      have ih := insertTables_rows_ids database_id rest (next + 1)
      simp only [List.length_cons, List.map_cons, List.range'_succ]
      rw [ih]

theorem insertTables_rows_db (database_id : Nat) :
    ∀ (ts : List TableInfo) (next : Nat),
      ∀ r ∈ (insertTables database_id ts next).1, r.database_id = database_id
  | [], next => by simp [insertTables]
  | t :: rest, next => by
      rw [insertTables]
      intro r hr
      rcases List.mem_cons.mp hr with hr | hr
      · rw [hr]
      · exact insertTables_rows_db database_id rest (next + 1) r hr

theorem insertTables_rows_names (database_id : Nat) :
    ∀ (ts : List TableInfo) (next : Nat),
      (insertTables database_id ts next).1.map (fun r => r.name) =
        ts.map (fun t => _fq t.schema t.table_name)
  | [], next => by simp [insertTables]
  | t :: rest, next => by
      rw [insertTables]
      have ih := insertTables_rows_names database_id rest (next + 1)
      simp only [List.map_cons]
      rw [ih]

theorem insertTables_map_isSome (database_id : Nat) :
    ∀ (ts : List TableInfo) (next : Nat) (k : String),
      (dictFind? (insertTables database_id ts next).2.1 k).isSome ↔
        k ∈ ts.map (fun t => _fq t.schema t.table_name)
  | [], next, k => by simp [insertTables, dictFind?]
  | t :: rest, next, k => by
      rw [insertTables]
      have ih := insertTables_map_isSome database_id rest (next + 1) k
      simp only [List.map_cons, List.mem_cons]
      by_cases hany : ((insertTables database_id rest (next + 1)).2.1.any
          (fun p => p.1 = _fq t.schema t.table_name))
      · rw [if_pos hany]
        constructor
        · intro h
          exact .inr (ih.mp h)
        · rintro (h | h)
          · subst h
            rw [List.any_eq_true] at hany
            obtain ⟨p, hp, hpk⟩ := hany
            rw [decide_eq_true_eq] at hpk
            exact (dictFind?_isSome_iff _ _).mpr ⟨p.2, by rwa [← hpk, Prod.mk.eta]⟩
          · exact ih.mpr h
      · rw [if_neg hany, dictFind?_cons]
        by_cases hk : _fq t.schema t.table_name = k
        · rw [if_pos hk]
          simp [hk]
        · rw [if_neg hk]
          rw [ih]
          constructor
          · exact .inr
          · rintro (h | h)
            · exact absurd h.symm hk
            · exact h

theorem insertTables_map_sound (database_id : Nat) :
    ∀ (ts : List TableInfo) (next : Nat) (k : String) (v : Nat),
      dictFind? (insertTables database_id ts next).2.1 k = some v →
      next ≤ v ∧ v < next + ts.length ∧
        ∃ r ∈ (insertTables database_id ts next).1, r.id = v ∧ r.name = k
  | [], next, k, v => by simp [insertTables, dictFind?]
  | t :: rest, next, k, v => by
      rw [insertTables]
      intro h
      simp only [List.length_cons]
      by_cases hany : ((insertTables database_id rest (next + 1)).2.1.any
          (fun p => p.1 = _fq t.schema t.table_name))
      · rw [if_pos hany] at h
        obtain ⟨h1, h2, r, hr, hid, hname⟩ :=
          insertTables_map_sound database_id rest (next + 1) k v h
        exact ⟨by omega, by omega, r, List.mem_cons_of_mem _ hr, hid, hname⟩
      · rw [if_neg hany, dictFind?_cons] at h
        by_cases hk : _fq t.schema t.table_name = k
        · rw [if_pos hk] at h
          cases h
          refine ⟨Nat.le_refl _, by omega, ⟨next, database_id, _fq t.schema t.table_name⟩,
            List.mem_cons_self _ _, rfl, hk⟩
        · rw [if_neg hk] at h
          obtain ⟨h1, h2, r, hr, hid, hname⟩ :=
            insertTables_map_sound database_id rest (next + 1) k v h
          exact ⟨by omega, by omega, r, List.mem_cons_of_mem _ hr, hid, hname⟩

theorem insertTables_map_pos (database_id : Nat) :
    ∀ (ts : List TableInfo) (next : Nat),
      (ts.map (fun t => _fq t.schema t.table_name)).Nodup →
      ∀ (j : Nat) (hj : j < ts.length),
        dictFind? (insertTables database_id ts next).2.1
          (_fq (ts.get ⟨j, hj⟩).schema (ts.get ⟨j, hj⟩).table_name) = some (next + j)
  | [], _, _, j, hj => absurd hj (by simp)
  | t :: rest, next, hnodup, j, hj => by
      rw [List.map_cons, List.nodup_cons] at hnodup
      have hnotin : ¬ ((insertTables database_id rest (next + 1)).2.1.any
          (fun p => p.1 = _fq t.schema t.table_name)) := by
        intro hany
        rw [List.any_eq_true] at hany
        obtain ⟨p, hp, hpk⟩ := hany
        rw [decide_eq_true_eq] at hpk
        have hsome : (dictFind? (insertTables database_id rest (next + 1)).2.1
            (_fq t.schema t.table_name)).isSome :=
          (dictFind?_isSome_iff _ _).mpr ⟨p.2, by rwa [← hpk, Prod.mk.eta]⟩
        rw [insertTables_map_isSome] at hsome
        exact hnodup.1 hsome
      rw [insertTables, if_neg hnotin]
      match j with
      | 0 =>
          rw [List.get]
          rw [dictFind?_cons, if_pos rfl]
          rfl
      | j' + 1 =>
          rw [List.get]
          have hne : ¬ _fq t.schema t.table_name =
              _fq (rest.get ⟨j', by simpa using hj⟩).schema
                (rest.get ⟨j', by simpa using hj⟩).table_name := by
            intro hEq
            refine hnodup.1 ?_
            rw [hEq]
            exact List.mem_map_of_mem _ (rest.get_mem _ _)
          rw [dictFind?_cons, if_neg hne]
          have ih := insertTables_map_pos database_id rest (next + 1) hnodup.2 j'
            (by simpa using hj)
          rw [ih]
          congr 1
          omega

theorem insertTables_map_inj (database_id : Nat) (ts : List TableInfo) (next : Nat)
    (k₁ k₂ : String) (v : Nat)
    (h₁ : dictFind? (insertTables database_id ts next).2.1 k₁ = some v)
    (h₂ : dictFind? (insertTables database_id ts next).2.1 k₂ = some v) :
    k₁ = k₂ := by
  obtain ⟨_, _, r₁, hr₁, hid₁, hn₁⟩ := insertTables_map_sound database_id ts next k₁ v h₁
  obtain ⟨_, _, r₂, hr₂, hid₂, hn₂⟩ := insertTables_map_sound database_id ts next k₂ v h₂
  have hids : ((insertTables database_id ts next).1.map (fun r => r.id)).Nodup := by
    rw [insertTables_rows_ids]
    exact List.nodup_range' _ _ 1 (by omega)
  have hfind₁ := find?_proj_of_mem_of_nodup (fun r => r.id) _ hids r₁ hr₁ v hid₁
  have hfind₂ := find?_proj_of_mem_of_nodup (fun r => r.id) _ hids r₂ hr₂ v hid₂
  rw [hfind₁] at hfind₂
  cases hfind₂
  rw [← hn₁, ← hn₂]

theorem insertTableColumns_fin (fq : String) (table_id : Nat) :
    ∀ (cols : List ColumnInfo) (next : Nat),
      (insertTableColumns fq table_id cols next).2.2 = next + cols.length
  | [], next => by simp [insertTableColumns]
  | c :: rest, next => by
      rw [insertTableColumns]
      have ih := insertTableColumns_fin fq table_id rest (next + 1)
      simp only [List.length_cons]
      omega

theorem insertTableColumns_rows_ids (fq : String) (table_id : Nat) :
    ∀ (cols : List ColumnInfo) (next : Nat),
      (insertTableColumns fq table_id cols next).1.map (fun r => r.id) =
        List.range' next cols.length
  | [], next => by simp [insertTableColumns]
  | c :: rest, next => by
      rw [insertTableColumns]
      have ih := insertTableColumns_rows_ids fq table_id rest (next + 1)
      simp only [List.length_cons, List.map_cons, List.range'_succ]
      rw [ih]

theorem insertTableColumns_rows_pairs (fq : String) (table_id : Nat) :
    ∀ (cols : List ColumnInfo) (next : Nat),
      (insertTableColumns fq table_id cols next).1.map (fun r => (r.name, r.data_type)) =
        cols.map (fun c => (c.name, c.data_type))
  | [], next => by simp [insertTableColumns]
  | c :: rest, next => by
      rw [insertTableColumns]
      have ih := insertTableColumns_rows_pairs fq table_id rest (next + 1)
      simp only [List.map_cons]
      rw [ih]

theorem insertTableColumns_rows_table (fq : String) (table_id : Nat) :
    ∀ (cols : List ColumnInfo) (next : Nat),
      ∀ r ∈ (insertTableColumns fq table_id cols next).1, r.table_id = table_id
  | [], next => by simp [insertTableColumns]
  | c :: rest, next => by
      rw [insertTableColumns]
      intro r hr
      rcases List.mem_cons.mp hr with hr | hr
      · rw [hr]
      · exact insertTableColumns_rows_table fq table_id rest (next + 1) r hr

theorem insertTableColumns_map_sound (fq : String) (table_id : Nat) :
    ∀ (cols : List ColumnInfo) (next : Nat) (k : String × String) (v : Nat),
      dictFind? (insertTableColumns fq table_id cols next).2.1 k = some v →
      k.1 = fq ∧ next ≤ v ∧ v < next + cols.length ∧
        ∃ r ∈ (insertTableColumns fq table_id cols next).1, r.id = v ∧ r.name = k.2
  | [], next, k, v => by simp [insertTableColumns, dictFind?]
  | c :: rest, next, k, v => by
      rw [insertTableColumns]
      intro h
      simp only [List.length_cons]
      by_cases hany : ((insertTableColumns fq table_id rest (next + 1)).2.1.any
          (fun p => p.1 = (fq, c.name)))
      · rw [if_pos hany] at h
        obtain ⟨hk, h1, h2, r, hr, hid, hname⟩ :=
          insertTableColumns_map_sound fq table_id rest (next + 1) k v h
        exact ⟨hk, by omega, by omega, r, List.mem_cons_of_mem _ hr, hid, hname⟩
      · rw [if_neg hany, dictFind?_cons] at h
        by_cases hk : (fq, c.name) = k
        · rw [if_pos hk] at h
          cases h
          refine ⟨by rw [← hk], Nat.le_refl _, by omega,
            ⟨next, table_id, c.name, c.data_type⟩, List.mem_cons_self _ _, rfl, by rw [← hk]⟩
        · rw [if_neg hk] at h
          obtain ⟨hkk, h1, h2, r, hr, hid, hname⟩ :=
            insertTableColumns_map_sound fq table_id rest (next + 1) k v h
          exact ⟨hkk, by omega, by omega, r, List.mem_cons_of_mem _ hr, hid, hname⟩

theorem insertTableColumns_map_isSome (fq : String) (table_id : Nat) :
    ∀ (cols : List ColumnInfo) (next : Nat) (k : String × String),
      (dictFind? (insertTableColumns fq table_id cols next).2.1 k).isSome ↔
        k.1 = fq ∧ k.2 ∈ cols.map (fun c => c.name)
  | [], next, k => by simp [insertTableColumns, dictFind?]
  | c :: rest, next, k => by
      rw [insertTableColumns]
      have ih := insertTableColumns_map_isSome fq table_id rest (next + 1) k
      simp only [List.map_cons, List.mem_cons]
      by_cases hany : ((insertTableColumns fq table_id rest (next + 1)).2.1.any
          (fun p => p.1 = (fq, c.name)))
      · rw [if_pos hany]
        rw [ih]
        constructor
        · rintro ⟨h1, h2⟩
          exact ⟨h1, .inr h2⟩
        · rintro ⟨h1, h2 | h2⟩
          · rw [List.any_eq_true] at hany
            obtain ⟨p, hp, hpk⟩ := hany
            rw [decide_eq_true_eq] at hpk
            have hsome : (dictFind? (insertTableColumns fq table_id rest (next + 1)).2.1
                (fq, c.name)).isSome :=
              (dictFind?_isSome_iff _ _).mpr ⟨p.2, by rwa [← hpk, Prod.mk.eta]⟩
            rw [insertTableColumns_map_isSome] at hsome
            exact ⟨h1, h2 ▸ hsome.2⟩
          · exact ⟨h1, h2⟩
      · rw [if_neg hany, dictFind?_cons]
        by_cases hk : (fq, c.name) = k
        · rw [if_pos hk]
          simp only [Option.isSome_some, true_iff]
          exact ⟨by rw [← hk], .inl (by rw [← hk])⟩
        · rw [if_neg hk]
          rw [ih]
          constructor
          · rintro ⟨h1, h2⟩
            exact ⟨h1, .inr h2⟩
          · rintro ⟨h1, h2 | h2⟩
            · exfalso
              refine hk ?_
              rcases k with ⟨ka, kb⟩
              simp only at h1 h2
              rw [h1, h2]
            · exact ⟨h1, h2⟩

theorem insertColumns_ok_iff (tmap : List (String × Nat)) :
    ∀ (items : List (String × List ColumnInfo)) (next : Nat),
      (∃ r, insertColumns tmap items next = .ok r) ↔
        ∀ p ∈ items, (dictFind? tmap p.1).isSome
  | [], next => by simp [insertColumns]
  | (fq, cols) :: rest, next => by
      rw [insertColumns]
      cases hl : dictFind? tmap fq with
      | none =>
          simp only [false_iff]
          constructor
          · rintro ⟨r, hr⟩
            cases hr
          · intro h
            have := h (fq, cols) (List.mem_cons_self _ _)
            rw [hl] at this
            cases this
      | some table_id =>
          have ih := insertColumns_ok_iff tmap rest
            (insertTableColumns fq table_id cols next).2.2
          constructor
          · rintro ⟨r, hr⟩
            intro p hp
            rcases List.mem_cons.mp hp with hp | hp
            · rw [hp, hl]
              rfl
            · dsimp only at hr
              cases hrest : insertColumns tmap rest
                (insertTableColumns fq table_id cols next).2.2 with
              | error e => rw [hrest] at hr; cases hr
              | ok r' => exact ih.mp ⟨r', hrest⟩ p hp
          · intro h
            obtain ⟨⟨rows', m', fin⟩, hrest⟩ := ih.mpr
              (fun p hp => h p (List.mem_cons_of_mem _ hp))
            dsimp only
            rw [hrest]
            exact ⟨_, rfl⟩

theorem insertColumns_rows_ids (tmap : List (String × Nat)) :
    ∀ (items : List (String × List ColumnInfo)) (next : Nat) (crows) (cmap) (nc),
      insertColumns tmap items next = .ok (crows, cmap, nc) →
      crows.map (fun r => r.id) = List.range' next crows.length ∧ nc = next + crows.length
  | [], next, crows, cmap, nc => by
      rw [insertColumns]
      intro h
      cases h
      simp
  | (fq, cols) :: rest, next, crows, cmap, nc => by
      rw [insertColumns]
      cases hl : dictFind? tmap fq with
      | none => intro h; cases h
      | some table_id =>
          intro h
          dsimp only at h
          cases hrest : insertColumns tmap rest
              (insertTableColumns fq table_id cols next).2.2 with
          | error e => rw [hrest] at h; cases h
          | ok r' =>
              rcases r' with ⟨rows', m', fin⟩
              rw [hrest] at h
              cases h
              obtain ⟨ih1, ih2⟩ := insertColumns_rows_ids tmap rest
                (insertTableColumns fq table_id cols next).2.2 rows' m' nc hrest
              have hhead := insertTableColumns_rows_ids fq table_id cols next
              have hfin := insertTableColumns_fin fq table_id cols next
              have hheadlen : (insertTableColumns fq table_id cols next).1.length =
                  cols.length := by
                have := congrArg List.length hhead
                simpa using this
              constructor
              · rw [List.map_append, hhead, ih1, hfin, List.length_append, hheadlen,
                  Nat.add_comm cols.length rows'.length]
                exact List.range'_append_1 next cols.length rows'.length
              · rw [List.length_append, hheadlen]
                omega

theorem insertColumns_rows_table (tmap : List (String × Nat)) :
    ∀ (items : List (String × List ColumnInfo)) (next : Nat) (crows) (cmap) (nc),
      insertColumns tmap items next = .ok (crows, cmap, nc) →
      ∀ r ∈ crows, ∃ p ∈ items, dictFind? tmap p.1 = some r.table_id
  | [], next, crows, cmap, nc => by
      rw [insertColumns]
      intro h
      cases h
      simp
  | (fq, cols) :: rest, next, crows, cmap, nc => by
      rw [insertColumns]
      cases hl : dictFind? tmap fq with
      | none => intro h; cases h
      | some table_id =>
          intro h
          dsimp only at h
          cases hrest : insertColumns tmap rest
              (insertTableColumns fq table_id cols next).2.2 with
          | error e => rw [hrest] at h; cases h
          | ok r' =>
              rcases r' with ⟨rows', m', fin⟩
              rw [hrest] at h
              cases h
              intro r hr
              rcases List.mem_append.mp hr with hr | hr
              · refine ⟨(fq, cols), List.mem_cons_self _ _, ?_⟩
                rw [hl, insertTableColumns_rows_table fq table_id cols next r hr]
              · obtain ⟨p, hp, hpl⟩ := insertColumns_rows_table tmap rest
                  (insertTableColumns fq table_id cols next).2.2 rows' m' nc hrest r hr
                exact ⟨p, List.mem_cons_of_mem _ hp, hpl⟩

theorem insertColumns_map_sound (tmap : List (String × Nat)) :
    ∀ (items : List (String × List ColumnInfo)) (next : Nat) (crows) (cmap) (nc),
      insertColumns tmap items next = .ok (crows, cmap, nc) →
      ∀ k v, dictFind? cmap k = some v →
        ∃ r ∈ crows, r.id = v ∧ r.name = k.2
  | [], next, crows, cmap, nc => by
      rw [insertColumns]
      intro h
      cases h
      simp [dictFind?]
  | (fq, cols) :: rest, next, crows, cmap, nc => by
      rw [insertColumns]
      cases hl : dictFind? tmap fq with
      | none => intro h; cases h
      | some table_id =>
          intro h
          dsimp only at h
          cases hrest : insertColumns tmap rest
              (insertTableColumns fq table_id cols next).2.2 with
          | error e => rw [hrest] at h; cases h
          | ok r' =>
              rcases r' with ⟨rows', m', fin⟩
              rw [hrest] at h
              cases h
              intro k v hk
              rw [dictFind?_merge] at hk
              cases hk' : dictFind? m' k with
              | some v' =>
                  rw [hk'] at hk
                  cases hk
                  obtain ⟨r, hr, hid, hname⟩ := insertColumns_map_sound tmap rest
                    (insertTableColumns fq table_id cols next).2.2 rows' m' nc hrest
                    k v hk'
                  exact ⟨r, List.mem_append_right _ hr, hid, hname⟩
              | none =>
                  rw [hk'] at hk
                  obtain ⟨_, _, _, r, hr, hid, hname⟩ :=
                    insertTableColumns_map_sound fq table_id cols next k v hk
                  exact ⟨r, List.mem_append_left _ hr, hid, hname⟩

theorem insertColumns_map_isSome (tmap : List (String × Nat)) :
    ∀ (items : List (String × List ColumnInfo)) (next : Nat) (crows) (cmap) (nc),
      insertColumns tmap items next = .ok (crows, cmap, nc) →
      ∀ k, (dictFind? cmap k).isSome ↔
        ∃ cols, (k.1, cols) ∈ items ∧ k.2 ∈ cols.map (fun c => c.name)
  | [], next, crows, cmap, nc => by
      rw [insertColumns]
      intro h
      cases h
      simp [dictFind?]
  | (fq, cols) :: rest, next, crows, cmap, nc => by
      rw [insertColumns]
      cases hl : dictFind? tmap fq with
      | none => intro h; cases h
      | some table_id =>
          intro h
          dsimp only at h
          cases hrest : insertColumns tmap rest
              (insertTableColumns fq table_id cols next).2.2 with
          | error e => rw [hrest] at h; cases h
          | ok r' =>
              rcases r' with ⟨rows', m', fin⟩
              rw [hrest] at h
              cases h
              intro k
              have ih := insertColumns_map_isSome tmap rest
                (insertTableColumns fq table_id cols next).2.2 rows' m' nc hrest k
              have hhead := insertTableColumns_map_isSome fq table_id cols next k
              rw [dictFind?_merge]
              cases hk' : dictFind? m' k with
              | some v' =>
                  simp only [Option.isSome_some, true_iff]
                  rw [hk'] at ih
                  obtain ⟨cols', hmem, hname⟩ := ih.mp rfl
                  exact ⟨cols', List.mem_cons_of_mem _ hmem, hname⟩
              | none =>
                  rw [hk'] at ih
                  simp only [Option.isSome_none, Bool.false_eq_true, false_iff] at ih
                  rw [hhead]
                  constructor
                  · rintro ⟨h1, h2⟩
                    exact ⟨cols, by rw [← h1]; exact List.mem_cons_self _ _, h2⟩
                  · rintro ⟨cols', hmem, hname⟩
                    rcases List.mem_cons.mp hmem with hmem | hmem
                    · have h1 : k.1 = fq := by
                        have := congrArg Prod.fst hmem
                        simpa using this
                      have h2 : cols' = cols := by
                        have := congrArg Prod.snd hmem
                        simpa using this
                      exact ⟨h1, h2 ▸ hname⟩
                    · exact absurd ⟨cols', hmem, hname⟩ ih

theorem insertColumns_filter_content (tmap : List (String × Nat)) :
    ∀ (items : List (String × List ColumnInfo)) (next : Nat) (crows) (cmap) (nc),
      insertColumns tmap items next = .ok (crows, cmap, nc) →
      (items.map Prod.fst).Nodup →
      (∀ k₁ k₂ v, dictFind? tmap k₁ = some v → dictFind? tmap k₂ = some v → k₁ = k₂) →
      ∀ fq cols tid, (fq, cols) ∈ items → dictFind? tmap fq = some tid →
        (crows.filter (fun r => r.table_id = tid)).map (fun r => (r.name, r.data_type)) =
          cols.map (fun c => (c.name, c.data_type))
  | [], next, crows, cmap, nc => by
      rw [insertColumns]
      intro h
      cases h
      simp
  | (fq₀, cols₀) :: rest, next, crows, cmap, nc => by
      rw [insertColumns]
      cases hl : dictFind? tmap fq₀ with
      | none => intro h; cases h
      | some table_id =>
          intro h
          dsimp only at h
          cases hrest : insertColumns tmap rest
              (insertTableColumns fq₀ table_id cols₀ next).2.2 with
          | error e => rw [hrest] at h; cases h
          | ok r' =>
              rcases r' with ⟨rows', m', fin⟩
              rw [hrest] at h
              cases h
              intro hnodup hinj fq cols tid hmem hlook
              rw [List.map_cons, List.nodup_cons] at hnodup
              rcases List.mem_cons.mp hmem with hmem | hmem
              · have h1 : fq = fq₀ := by
                  have := congrArg Prod.fst hmem
                  simpa using this
                have h2 : cols = cols₀ := by
                  have := congrArg Prod.snd hmem
                  simpa using this
                subst h1
                subst h2
                rw [hl] at hlook
                cases hlook
                rw [List.filter_append]
                have hhead : (insertTableColumns fq table_id cols next).1.filter
                    (fun r => r.table_id = table_id) =
                    (insertTableColumns fq table_id cols next).1 := by
                  rw [List.filter_eq_self]
                  intro r hr
                  rw [insertTableColumns_rows_table fq table_id cols next r hr]
                  simp
                have hrestnil : rows'.filter (fun r => r.table_id = table_id) = [] := by
                  rw [List.filter_eq_nil_iff]
                  intro r hr htid
                  rw [decide_eq_true_eq] at htid
                  obtain ⟨p, hp, hpl⟩ := insertColumns_rows_table tmap rest
                    (insertTableColumns fq table_id cols next).2.2 rows' m' nc hrest r hr
                  rw [htid] at hpl
                  have := hinj p.1 fq table_id hpl hl
                  exact hnodup.1 (List.mem_map.mpr ⟨p, hp, this⟩)
                rw [hhead, hrestnil, List.append_nil]
                exact insertTableColumns_rows_pairs fq table_id cols next
              · have hne : ¬ fq = fq₀ := by
                  intro hEq
                  exact hnodup.1 (List.mem_map.mpr ⟨(fq, cols), hmem, hEq⟩)
                have htid : ¬ table_id = tid := by
                  intro hEq
                  exact hne (hinj fq fq₀ tid hlook (by rw [hEq] at hl; exact hl))
                rw [List.filter_append]
                have hheadnil : ((insertTableColumns fq₀ table_id cols₀ next).1.filter
                    (fun r => r.table_id = tid)) = [] := by
                  rw [List.filter_eq_nil_iff]
                  intro r hr hq
                  rw [decide_eq_true_eq] at hq
                  rw [insertTableColumns_rows_table fq₀ table_id cols₀ next r hr] at hq
                  exact htid hq
                rw [hheadnil, List.nil_append]
                exact insertColumns_filter_content tmap rest
                  (insertTableColumns fq₀ table_id cols₀ next).2.2 rows' m' nc hrest
                  hnodup.2 hinj fq cols tid hmem hlook

theorem insertPkColumns_ok_iff (fq : String) (pk_id : Nat)
    (cmap : List ((String × String) × Nat)) :
    ∀ (pairs : List (String × Int)),
      (∃ r, insertPkColumns fq pk_id cmap pairs = .ok r) ↔
        ∀ p ∈ pairs, (dictFind? cmap (fq, p.1)).isSome
  | [] => by simp [insertPkColumns]
  | (col, ord) :: rest => by
      rw [insertPkColumns]
      cases hl : dictFind? cmap (fq, col) with
      | none =>
          simp only [false_iff]
          constructor
          · rintro ⟨r, hr⟩
            cases hr
          · intro h
            have := h (col, ord) (List.mem_cons_self _ _)
            rw [hl] at this
            cases this
      | some col_id =>
          have ih := insertPkColumns_ok_iff fq pk_id cmap rest
          constructor
          · rintro ⟨r, hr⟩
            intro p hp
            rcases List.mem_cons.mp hp with hp | hp
            · rw [hp, hl]
              rfl
            · cases hrest : insertPkColumns fq pk_id cmap rest with
              | error e => rw [hrest] at hr; cases hr
              | ok rows => exact ih.mp ⟨rows, hrest⟩ p hp
          · intro h
            obtain ⟨rows, hrest⟩ := ih.mpr (fun p hp => h p (List.mem_cons_of_mem _ hp))
            rw [hrest]
            exact ⟨_, rfl⟩

theorem insertPkColumns_content (fq : String) (pk_id : Nat)
    (cmap : List ((String × String) × Nat)) (resolve : Nat → String)
    (hres : ∀ k v, dictFind? cmap k = some v → resolve v = k.2) :
    ∀ (pairs : List (String × Int)) (pcrows : List MetaPrimaryKeyColumnRow),
      insertPkColumns fq pk_id cmap pairs = .ok pcrows →
      (∀ pc ∈ pcrows, pc.pk_id = pk_id) ∧
      pcrows.map (fun pc => (resolve pc.column_id, pc.ordinal_position)) = pairs
  | [], pcrows => by
      rw [insertPkColumns]
      intro h
      cases h
      simp
  | (col, ord) :: rest, pcrows => by
      rw [insertPkColumns]
      cases hl : dictFind? cmap (fq, col) with
      | none => intro h; cases h
      | some col_id =>
          cases hrest : insertPkColumns fq pk_id cmap rest with
          | error e => intro h; cases h
          | ok rows =>
              intro h
              cases h
              obtain ⟨ih1, ih2⟩ :=
                insertPkColumns_content fq pk_id cmap resolve hres rest rows hrest
              constructor
              · intro pc hpc
                rcases List.mem_cons.mp hpc with hpc | hpc
                · rw [hpc]
                · exact ih1 pc hpc
              · rw [List.map_cons, ih2, hres (fq, col) col_id hl]

theorem insertPkColumns_pkid (fq : String) (pk_id : Nat)
    (cmap : List ((String × String) × Nat)) :
    ∀ (pairs : List (String × Int)) (pcrows : List MetaPrimaryKeyColumnRow),
      insertPkColumns fq pk_id cmap pairs = .ok pcrows →
      ∀ pc ∈ pcrows, pc.pk_id = pk_id
  | [], pcrows => by
      rw [insertPkColumns]
      intro h
      cases h
      simp
  | (col, ord) :: rest, pcrows => by
      rw [insertPkColumns]
      cases hl : dictFind? cmap (fq, col) with
      | none => intro h; cases h
      | some col_id =>
          cases hrest : insertPkColumns fq pk_id cmap rest with
          | error e => intro h; cases h
          | ok rows =>
              intro h
              cases h
              intro pc hpc
              rcases List.mem_cons.mp hpc with hpc | hpc
              · rw [hpc]
              · exact insertPkColumns_pkid fq pk_id cmap rest rows hrest pc hpc

theorem insertPksForTable_ok_iff (fq : String) (table_id : Nat)
    (cmap : List ((String × String) × Nat)) :
    ∀ (pks : List PrimaryKeyInfo) (next : Nat),
      (∃ r, insertPksForTable fq table_id cmap pks next = .ok r) ↔
        ∀ pk ∈ pks, ∀ p ∈ pk.columns.zip pk.ordinal_positions,
          (dictFind? cmap (fq, p.1)).isSome
  | [], next => by simp [insertPksForTable]
  | pk :: rest, next => by
      rw [insertPksForTable]
      cases hpc : insertPkColumns fq next cmap (pk.columns.zip pk.ordinal_positions) with
      | error e =>
          simp only [false_iff]
          constructor
          · rintro ⟨r, hr⟩
            cases hr
          · intro h
            obtain ⟨rows, hrows⟩ := (insertPkColumns_ok_iff fq next cmap
              (pk.columns.zip pk.ordinal_positions)).mpr
              (h pk (List.mem_cons_self _ _))
            rw [hpc] at hrows
            cases hrows
      | ok pcrows =>
          have ih := insertPksForTable_ok_iff fq table_id cmap rest (next + 1)
          constructor
          · rintro ⟨r, hr⟩
            intro pk' hpk'
            rcases List.mem_cons.mp hpk' with hpk' | hpk'
            · subst hpk'
              exact (insertPkColumns_ok_iff fq next cmap _).mp ⟨pcrows, hpc⟩
            · cases hrest : insertPksForTable fq table_id cmap rest (next + 1) with
              | error e => rw [hrest] at hr; cases hr
              | ok r' => exact ih.mp ⟨r', hrest⟩ pk' hpk'
          · intro h
            obtain ⟨⟨rows, pcs, fin⟩, hrest⟩ := ih.mpr
              (fun pk' hpk' => h pk' (List.mem_cons_of_mem _ hpk'))
            rw [hrest]
            exact ⟨_, rfl⟩

theorem insertPksForTable_rows (fq : String) (table_id : Nat)
    (cmap : List ((String × String) × Nat)) :
    ∀ (pks : List PrimaryKeyInfo) (next : Nat) (rows pcs fin),
      insertPksForTable fq table_id cmap pks next = .ok (rows, pcs, fin) →
      fin = next + pks.length ∧
      rows.map (fun r => r.id) = List.range' next pks.length ∧
      (∀ r ∈ rows, r.table_id = table_id) ∧
      (∀ pc ∈ pcs, next ≤ pc.pk_id ∧ pc.pk_id < fin)
  | [], next, rows, pcs, fin => by
      rw [insertPksForTable]
      intro h
      cases h
      simp
  | pk :: rest, next, rows, pcs, fin => by
      rw [insertPksForTable]
      cases hpc : insertPkColumns fq next cmap (pk.columns.zip pk.ordinal_positions) with
      | error e => intro h; cases h
      | ok pcrows =>
          intro h
          dsimp only at h
          cases hrest : insertPksForTable fq table_id cmap rest (next + 1) with
          | error e => rw [hrest] at h; cases h
          | ok r' =>
              rcases r' with ⟨rows', pcs', fin'⟩
              rw [hrest] at h
              cases h
              obtain ⟨ih0, ih1, ih2, ih3⟩ :=
                insertPksForTable_rows fq table_id cmap rest (next + 1) rows' pcs' fin hrest
              have hpcid := insertPkColumns_pkid fq next cmap
                (pk.columns.zip pk.ordinal_positions) pcrows hpc
              simp only [List.length_cons]
              refine ⟨by omega, ?_, ?_, ?_⟩
              · rw [List.map_cons, List.range'_succ, ih1]
              · intro r hr
                rcases List.mem_cons.mp hr with hr | hr
                · rw [hr]
                · exact ih2 r hr
              · intro pc hpc'
                rcases List.mem_append.mp hpc' with hpc' | hpc'
                · have := hpcid pc hpc'
                  omega
                · have := ih3 pc hpc'
                  omega

theorem insertPksForTable_content (fq : String) (table_id : Nat)
    (cmap : List ((String × String) × Nat)) (resolve : Nat → String)
    (hres : ∀ k v, dictFind? cmap k = some v → resolve v = k.2) :
    ∀ (pks : List PrimaryKeyInfo) (next : Nat) (rows pcs fin),
      insertPksForTable fq table_id cmap pks next = .ok (rows, pcs, fin) →
      rows.map (fun r => (pcs.filter (fun pc => pc.pk_id = r.id)).map
          (fun pc => (resolve pc.column_id, pc.ordinal_position))) =
        pks.map (fun pk => pk.columns.zip pk.ordinal_positions)
  | [], next, rows, pcs, fin => by
      rw [insertPksForTable]
      intro h
      cases h
      simp
  | pk :: rest, next, rows, pcs, fin => by
      rw [insertPksForTable]
      cases hpc : insertPkColumns fq next cmap (pk.columns.zip pk.ordinal_positions) with
      | error e => intro h; cases h
      | ok pcrows =>
          intro h
          dsimp only at h
          cases hrest : insertPksForTable fq table_id cmap rest (next + 1) with
          | error e => rw [hrest] at h; cases h
          | ok r' =>
              rcases r' with ⟨rows', pcs', fin'⟩
              rw [hrest] at h
              cases h
              obtain ⟨hfin, hids, htid, hbounds⟩ :=
                insertPksForTable_rows fq table_id cmap rest (next + 1) rows' pcs' fin hrest
              obtain ⟨hpcid, hpccontent⟩ := insertPkColumns_content fq next cmap resolve hres
                (pk.columns.zip pk.ordinal_positions) pcrows hpc
              rw [List.map_cons]
              have hheadfil : (pcrows ++ pcs').filter (fun pc => pc.pk_id = next) = pcrows := by
                rw [List.filter_append]
                have h1 : pcrows.filter (fun pc => pc.pk_id = next) = pcrows := by
                  rw [List.filter_eq_self]
                  intro pc hp
                  rw [hpcid pc hp]
                  simp
                have h2 : pcs'.filter (fun pc => pc.pk_id = next) = [] := by
                  rw [List.filter_eq_nil_iff]
                  intro pc hp
                  have := hbounds pc hp
                  simp only [decide_eq_true_eq]
                  omega
                rw [h1, h2, List.append_nil]
              rw [hheadfil, hpccontent]
              congr 1
              have hmapeq : rows'.map (fun r => ((pcrows ++ pcs').filter
                  (fun pc => pc.pk_id = r.id)).map
                  (fun pc => (resolve pc.column_id, pc.ordinal_position))) =
                  rows'.map (fun r => (pcs'.filter (fun pc => pc.pk_id = r.id)).map
                  (fun pc => (resolve pc.column_id, pc.ordinal_position))) := by
                apply List.map_congr_left
                intro r hr
                have hrid : (next + 1) ≤ r.id := by
                  have hm : r.id ∈ rows'.map (fun r => r.id) := List.mem_map_of_mem _ hr
                  rw [hids] at hm
                  rw [List.mem_range'_1] at hm
                  omega
                congr 1
                rw [List.filter_append]
                have h1 : pcrows.filter (fun pc => pc.pk_id = r.id) = [] := by
                  rw [List.filter_eq_nil_iff]
                  intro pc hp
                  have := hpcid pc hp
                  simp only [decide_eq_true_eq]
                  omega
                rw [h1, List.nil_append]
              rw [hmapeq]
              exact insertPksForTable_content fq table_id cmap resolve hres
                rest (next + 1) rows' pcs' fin hrest

theorem insertPrimaryKeys_ok_iff (tmap : List (String × Nat))
    (cmap : List ((String × String) × Nat)) :
    ∀ (items : List (String × List PrimaryKeyInfo)) (next : Nat),
      (∃ r, insertPrimaryKeys tmap cmap items next = .ok r) ↔
        ∀ p ∈ items, ¬p.2.isEmpty →
          (dictFind? tmap p.1).isSome ∧
          ∀ pk ∈ p.2, ∀ q ∈ pk.columns.zip pk.ordinal_positions,
            (dictFind? cmap (p.1, q.1)).isSome
  | [], next => by simp [insertPrimaryKeys]
  | (fq, pks) :: rest, next => by
      rw [insertPrimaryKeys]
      by_cases hemp : pks.isEmpty
      · rw [if_pos hemp]
        have ih := insertPrimaryKeys_ok_iff tmap cmap rest next
        rw [ih]
        constructor
        · intro h p hp hne
          rcases List.mem_cons.mp hp with hp | hp
          · exfalso
            refine hne ?_
            have : p.2 = pks := by rw [hp]
            rw [this]
            exact hemp
          · exact h p hp hne
        · intro h p hp hne
          exact h p (List.mem_cons_of_mem _ hp) hne
      · rw [if_neg hemp]
        cases hl : dictFind? tmap fq with
        | none =>
            simp only [false_iff]
            constructor
            · rintro ⟨r, hr⟩
              cases hr
            · intro h
              have := (h (fq, pks) (List.mem_cons_self _ _) hemp).1
              rw [hl] at this
              cases this
        | some table_id =>
            cases htbl : insertPksForTable fq table_id cmap pks next with
            | error e =>
                simp only [false_iff]
                constructor
                · rintro ⟨r, hr⟩
                  rw [htbl] at hr
                  cases hr
                · intro h
                  obtain ⟨r, hr⟩ := (insertPksForTable_ok_iff fq table_id cmap pks next).mpr
                    (fun pk hpk q hq => (h (fq, pks) (List.mem_cons_self _ _) hemp).2 pk hpk q hq)
                  rw [htbl] at hr
                  cases hr
            | ok r₀ =>
                rcases r₀ with ⟨rows₀, pcs₀, next'⟩
                have ih := insertPrimaryKeys_ok_iff tmap cmap rest next'
                constructor
                · rintro ⟨r, hr⟩
                  intro p hp hne
                  rcases List.mem_cons.mp hp with hp | hp
                  · subst hp
                    refine ⟨by rw [hl]; rfl, ?_⟩
                    exact (insertPksForTable_ok_iff fq table_id cmap pks next).mp
                      ⟨(rows₀, pcs₀, next'), htbl⟩
                  · dsimp only at hr
                    rw [htbl] at hr
                    dsimp only at hr
                    cases hrest : insertPrimaryKeys tmap cmap rest next' with
                    | error e => rw [hrest] at hr; cases hr
                    | ok r' => exact ih.mp ⟨r', hrest⟩ p hp hne
                · intro h
                  obtain ⟨⟨rows', pcs', fin⟩, hrest⟩ := ih.mpr
                    (fun p hp hne => h p (List.mem_cons_of_mem _ hp) hne)
                  dsimp only
                  rw [htbl]
                  dsimp only
                  rw [hrest]
                  exact ⟨_, rfl⟩

theorem insertPrimaryKeys_rows (tmap : List (String × Nat))
    (cmap : List ((String × String) × Nat)) :
    ∀ (items : List (String × List PrimaryKeyInfo)) (next : Nat) (pkrows pcrows npk),
      insertPrimaryKeys tmap cmap items next = .ok (pkrows, pcrows, npk) →
      pkrows.map (fun r => r.id) = List.range' next pkrows.length ∧
      npk = next + pkrows.length ∧
      (∀ r ∈ pkrows, ∃ p ∈ items, dictFind? tmap p.1 = some r.table_id) ∧
      (∀ pc ∈ pcrows, next ≤ pc.pk_id ∧ pc.pk_id < npk)
  | [], next, pkrows, pcrows, npk => by
      rw [insertPrimaryKeys]
      intro h
      cases h
      simp
  | (fq, pks) :: rest, next, pkrows, pcrows, npk => by
      rw [insertPrimaryKeys]
      by_cases hemp : pks.isEmpty
      · rw [if_pos hemp]
        intro h
        obtain ⟨ih1, ih2, ih3, ih4⟩ :=
          insertPrimaryKeys_rows tmap cmap rest next pkrows pcrows npk h
        exact ⟨ih1, ih2,
          fun r hr => by
            obtain ⟨p, hp, hpl⟩ := ih3 r hr
            exact ⟨p, List.mem_cons_of_mem _ hp, hpl⟩,
          ih4⟩
      · rw [if_neg hemp]
        cases hl : dictFind? tmap fq with
        | none => intro h; cases h
        | some table_id =>
            cases htbl : insertPksForTable fq table_id cmap pks next with
            | error e => intro h; dsimp only at h; rw [htbl] at h; cases h
            | ok r₀ =>
                rcases r₀ with ⟨rows₀, pcs₀, next'⟩
                intro h
                dsimp only at h
                rw [htbl] at h
                dsimp only at h
                cases hrest : insertPrimaryKeys tmap cmap rest next' with
                | error e => rw [hrest] at h; cases h
                | ok r' =>
                    rcases r' with ⟨rows', pcs', fin⟩
                    rw [hrest] at h
                    cases h
                    obtain ⟨hfin₀, hids₀, htid₀, hb₀⟩ :=
                      insertPksForTable_rows fq table_id cmap pks next rows₀ pcs₀ next' htbl
                    obtain ⟨ih1, ih2, ih3, ih4⟩ :=
                      insertPrimaryKeys_rows tmap cmap rest next' rows' pcs' npk hrest
                    have hlen₀ : rows₀.length = pks.length := by
                      have := congrArg List.length hids₀
                      simpa using this
                    refine ⟨?_, ?_, ?_, ?_⟩
                    · rw [List.map_append, hids₀, ih1, List.length_append, hlen₀, hfin₀,
                        Nat.add_comm pks.length rows'.length]
                      exact List.range'_append_1 next pks.length rows'.length
                    · rw [List.length_append, hlen₀]
                      omega
                    · intro r hr
                      rcases List.mem_append.mp hr with hr | hr
                      · exact ⟨(fq, pks), List.mem_cons_self _ _, by rw [hl, htid₀ r hr]⟩
                      · obtain ⟨p, hp, hpl⟩ := ih3 r hr
                        exact ⟨p, List.mem_cons_of_mem _ hp, hpl⟩
                    · intro pc hpc
                      rcases List.mem_append.mp hpc with hpc | hpc
                      · have := hb₀ pc hpc
                        omega
                      · have := ih4 pc hpc
                        omega

theorem insertPrimaryKeys_content (tmap : List (String × Nat))
    (cmap : List ((String × String) × Nat)) (resolve : Nat → String)
    (hres : ∀ k v, dictFind? cmap k = some v → resolve v = k.2) :
    ∀ (items : List (String × List PrimaryKeyInfo)) (next : Nat) (pkrows pcrows npk),
      insertPrimaryKeys tmap cmap items next = .ok (pkrows, pcrows, npk) →
      (items.map Prod.fst).Nodup →
      (∀ k₁ k₂ v, dictFind? tmap k₁ = some v → dictFind? tmap k₂ = some v → k₁ = k₂) →
      ∀ fq pks tid, (fq, pks) ∈ items → dictFind? tmap fq = some tid →
        (pkrows.filter (fun r => r.table_id = tid)).map (fun r =>
          (pcrows.filter (fun pc => pc.pk_id = r.id)).map
            (fun pc => (resolve pc.column_id, pc.ordinal_position))) =
          pks.map (fun pk => pk.columns.zip pk.ordinal_positions)
  | [], next, pkrows, pcrows, npk => by
      rw [insertPrimaryKeys]
      intro h
      cases h
      simp
  | (fq₀, pks₀) :: rest, next, pkrows, pcrows, npk => by
      rw [insertPrimaryKeys]
      by_cases hemp : pks₀.isEmpty
      · rw [if_pos hemp]
        intro h hnodup hinj fq pks tid hmem hlook
        rw [List.map_cons, List.nodup_cons] at hnodup
        obtain ⟨_, _, hor, _⟩ := insertPrimaryKeys_rows tmap cmap rest next pkrows pcrows npk h
        rcases List.mem_cons.mp hmem with hmem | hmem
        · have h1 : fq = fq₀ := by
            have := congrArg Prod.fst hmem
            simpa using this
          have h2 : pks = pks₀ := by
            have := congrArg Prod.snd hmem
            simpa using this
          have hnil : pks = [] := by
            rw [h2]
            exact List.isEmpty_iff.mp hemp
          rw [hnil, List.map_nil]
          have : pkrows.filter (fun r => r.table_id = tid) = [] := by
            rw [List.filter_eq_nil_iff]
            intro r hr hq
            rw [decide_eq_true_eq] at hq
            obtain ⟨p, hp, hpl⟩ := hor r hr
            rw [hq] at hpl
            have := hinj p.1 fq tid hpl hlook
            exact hnodup.1 (List.mem_map.mpr ⟨p, hp, this.trans h1⟩)
          rw [this, List.map_nil]
        · exact insertPrimaryKeys_content tmap cmap resolve hres rest next pkrows pcrows npk
            h hnodup.2 hinj fq pks tid hmem hlook
      · rw [if_neg hemp]
        cases hl : dictFind? tmap fq₀ with
        | none => intro h; cases h
        | some table_id =>
            cases htbl : insertPksForTable fq₀ table_id cmap pks₀ next with
            | error e => intro h; dsimp only at h; rw [htbl] at h; cases h
            | ok r₀ =>
                rcases r₀ with ⟨rows₀, pcs₀, next'⟩
                intro h
                dsimp only at h
                rw [htbl] at h
                dsimp only at h
                cases hrest : insertPrimaryKeys tmap cmap rest next' with
                | error e => rw [hrest] at h; cases h
                | ok r' =>
                    rcases r' with ⟨rows', pcs', fin⟩
                    rw [hrest] at h
                    cases h
                    intro hnodup hinj fq pks tid hmem hlook
                    rw [List.map_cons, List.nodup_cons] at hnodup
                    obtain ⟨hfin₀, hids₀, htid₀, hb₀⟩ :=
                      insertPksForTable_rows fq₀ table_id cmap pks₀ next rows₀ pcs₀ next' htbl
                    obtain ⟨ih1, ih2, ih3, ih4⟩ :=
                      insertPrimaryKeys_rows tmap cmap rest next' rows' pcs' npk hrest
                    have hid₀mem : ∀ r ∈ rows₀, r.id < next' := by
                      intro r hr
                      have hm : r.id ∈ rows₀.map (fun r => r.id) := List.mem_map_of_mem _ hr
                      rw [hids₀] at hm
                      rw [List.mem_range'_1] at hm
                      omega
                    have hid'mem : ∀ r ∈ rows', next' ≤ r.id := by
                      intro r hr
                      have hm : r.id ∈ rows'.map (fun r => r.id) := List.mem_map_of_mem _ hr
                      rw [ih1] at hm
                      rw [List.mem_range'_1] at hm
                      omega
                    rcases List.mem_cons.mp hmem with hmem | hmem
                    · have h1 : fq = fq₀ := by
                        have := congrArg Prod.fst hmem
                        simpa using this
                      have h2 : pks = pks₀ := by
                        have := congrArg Prod.snd hmem
                        simpa using this
                      subst h1
                      subst h2
                      rw [hl] at hlook
                      cases hlook
                      rw [List.filter_append]
                      have hhead : rows₀.filter (fun r => r.table_id = table_id) = rows₀ := by
                        rw [List.filter_eq_self]
                        intro r hr
                        rw [htid₀ r hr]
                        simp
                      have hrestnil : rows'.filter (fun r => r.table_id = table_id) = [] := by
                        rw [List.filter_eq_nil_iff]
                        intro r hr hq
                        rw [decide_eq_true_eq] at hq
                        obtain ⟨p, hp, hpl⟩ := ih3 r hr
                        rw [hq] at hpl
                        have := hinj p.1 fq table_id hpl hl
                        exact hnodup.1 (List.mem_map.mpr ⟨p, hp, this⟩)
                      rw [hhead, hrestnil, List.append_nil]
                      have hmapeq : rows₀.map (fun r => ((pcs₀ ++ pcs').filter
                          (fun pc => pc.pk_id = r.id)).map
                          (fun pc => (resolve pc.column_id, pc.ordinal_position))) =
                          rows₀.map (fun r => (pcs₀.filter (fun pc => pc.pk_id = r.id)).map
                          (fun pc => (resolve pc.column_id, pc.ordinal_position))) := by
                        apply List.map_congr_left
                        intro r hr
                        congr 1
                        rw [List.filter_append]
                        have : pcs'.filter (fun pc => pc.pk_id = r.id) = [] := by
                          rw [List.filter_eq_nil_iff]
                          intro pc hp
                          have h4 := ih4 pc hp
                          have h5 := hid₀mem r hr
                          simp only [decide_eq_true_eq]
                          omega
                        rw [this, List.append_nil]
                      rw [hmapeq]
                      exact insertPksForTable_content fq table_id cmap resolve hres pks
                        next rows₀ pcs₀ next' htbl
                    · have hne : ¬ fq = fq₀ := by
                        intro hEq
                        exact hnodup.1 (List.mem_map.mpr ⟨(fq, pks), hmem, hEq⟩)
                      have htidne : ¬ table_id = tid := by
                        intro hEq
                        exact hne (hinj fq fq₀ tid hlook (by rw [hEq] at hl; exact hl))
                      rw [List.filter_append]
                      have hheadnil : rows₀.filter (fun r => r.table_id = tid) = [] := by
                        rw [List.filter_eq_nil_iff]
                        intro r hr hq
                        rw [decide_eq_true_eq] at hq
                        rw [htid₀ r hr] at hq
                        exact htidne hq
                      rw [hheadnil, List.nil_append]
                      have hmapeq : (rows'.filter (fun r => r.table_id = tid)).map
                          (fun r => ((pcs₀ ++ pcs').filter
                          (fun pc => pc.pk_id = r.id)).map
                          (fun pc => (resolve pc.column_id, pc.ordinal_position))) =
                          (rows'.filter (fun r => r.table_id = tid)).map
                          (fun r => (pcs'.filter (fun pc => pc.pk_id = r.id)).map
                          (fun pc => (resolve pc.column_id, pc.ordinal_position))) := by
                        apply List.map_congr_left
                        intro r hr
                        have hr' := (List.mem_filter.mp hr).1
                        congr 1
                        rw [List.filter_append]
                        have : pcs₀.filter (fun pc => pc.pk_id = r.id) = [] := by
                          rw [List.filter_eq_nil_iff]
                          intro pc hp
                          have h4 := hb₀ pc hp
                          have h5 := hid'mem r hr'
                          simp only [decide_eq_true_eq]
                          omega
                        rw [this, List.nil_append]
                      rw [hmapeq]
                      exact insertPrimaryKeys_content tmap cmap resolve hres rest next'
                        rows' pcs' npk hrest hnodup.2 hinj fq pks tid hmem hlook

theorem insertFkColumns_ok_iff (src_fq tgt_fq : String) (fk_id : Nat)
    (cmap : List ((String × String) × Nat)) :
    ∀ (pairs : List (String × String)) (idx : Nat),
      (∃ r, insertFkColumns src_fq tgt_fq fk_id cmap pairs idx = .ok r) ↔
        ∀ p ∈ pairs, (dictFind? cmap (src_fq, p.1)).isSome ∧
          (dictFind? cmap (tgt_fq, p.2)).isSome
  | [], idx => by simp [insertFkColumns]
  | (sc, tc) :: rest, idx => by
      rw [insertFkColumns]
      cases hs : dictFind? cmap (src_fq, sc) with
      | none =>
          simp only [false_iff]
          constructor
          · rintro ⟨r, hr⟩
            cases hr
          · intro h
            have := (h (sc, tc) (List.mem_cons_self _ _)).1
            rw [hs] at this
            cases this
      | some src_id =>
          cases ht : dictFind? cmap (tgt_fq, tc) with
          | none =>
              simp only [false_iff]
              constructor
              · rintro ⟨r, hr⟩
                cases hr
              · intro h
                have := (h (sc, tc) (List.mem_cons_self _ _)).2
                rw [ht] at this
                cases this
          | some tgt_id =>
              have ih := insertFkColumns_ok_iff src_fq tgt_fq fk_id cmap rest (idx + 1)
              constructor
              · rintro ⟨r, hr⟩
                intro p hp
                rcases List.mem_cons.mp hp with hp | hp
                · rw [hp]
                  rw [hs, ht]
                  exact ⟨rfl, rfl⟩
                · cases hrest : insertFkColumns src_fq tgt_fq fk_id cmap rest (idx + 1) with
                  | error e => rw [hrest] at hr; cases hr
                  | ok rows => exact ih.mp ⟨rows, hrest⟩ p hp
              · intro h
                obtain ⟨rows, hrest⟩ := ih.mpr (fun p hp => h p (List.mem_cons_of_mem _ hp))
                rw [hrest]
                exact ⟨_, rfl⟩

theorem insertFkColumns_fkid (src_fq tgt_fq : String) (fk_id : Nat)
    (cmap : List ((String × String) × Nat)) :
    ∀ (pairs : List (String × String)) (idx : Nat) (fcrows : List MetaForeignKeyColumnRow),
      insertFkColumns src_fq tgt_fq fk_id cmap pairs idx = .ok fcrows →
      ∀ fc ∈ fcrows, fc.fk_id = fk_id
  | [], idx, fcrows => by
      rw [insertFkColumns]
      intro h
      cases h
      simp
  | (sc, tc) :: rest, idx, fcrows => by
      rw [insertFkColumns]
      cases hs : dictFind? cmap (src_fq, sc) with
      | none => intro h; cases h
      | some src_id =>
          cases ht : dictFind? cmap (tgt_fq, tc) with
          | none => intro h; cases h
          | some tgt_id =>
              cases hrest : insertFkColumns src_fq tgt_fq fk_id cmap rest (idx + 1) with
              | error e => intro h; cases h
              | ok rows =>
                  intro h
                  cases h
                  intro fc hfc
                  rcases List.mem_cons.mp hfc with hfc | hfc
                  · rw [hfc]
                  · exact insertFkColumns_fkid src_fq tgt_fq fk_id cmap rest (idx + 1)
                      rows hrest fc hfc

theorem insertFkColumns_content (src_fq tgt_fq : String) (fk_id : Nat)
    (cmap : List ((String × String) × Nat)) (resolve : Nat → String)
    (hres : ∀ k v, dictFind? cmap k = some v → resolve v = k.2) :
    ∀ (pairs : List (String × String)) (idx : Nat) (fcrows : List MetaForeignKeyColumnRow),
      insertFkColumns src_fq tgt_fq fk_id cmap pairs idx = .ok fcrows →
      fcrows.map (fun fc =>
          (resolve fc.column_id, resolve fc.referenced_column_id, fc.ordinal_position)) =
        enumPairsFrom pairs idx
  | [], idx, fcrows => by
      rw [insertFkColumns]
      intro h
      cases h
      simp [enumPairsFrom]
  | (sc, tc) :: rest, idx, fcrows => by
      rw [insertFkColumns]
      cases hs : dictFind? cmap (src_fq, sc) with
      | none => intro h; cases h
      | some src_id =>
          cases ht : dictFind? cmap (tgt_fq, tc) with
          | none => intro h; cases h
          | some tgt_id =>
              cases hrest : insertFkColumns src_fq tgt_fq fk_id cmap rest (idx + 1) with
              | error e => intro h; cases h
              | ok rows =>
                  intro h
                  cases h
                  rw [List.map_cons, enumPairsFrom]
                  rw [insertFkColumns_content src_fq tgt_fq fk_id cmap resolve hres
                    rest (idx + 1) rows hrest]
                  rw [hres (src_fq, sc) src_id hs, hres (tgt_fq, tc) tgt_id ht]

theorem insertFksForTable_ok_iff (src_fq : String) (src_table_id : Nat)
    (tmap : List (String × Nat)) (cmap : List ((String × String) × Nat)) :
    ∀ (fks : List ForeignKeyInfo) (next : Nat),
      (∃ r, insertFksForTable src_fq src_table_id tmap cmap fks next = .ok r) ↔
        ∀ fk ∈ fks,
          (dictFind? tmap (_fq fk.referenced_schema fk.referenced_table)).isSome ∧
          ∀ q ∈ pairsOf fk,
            (dictFind? cmap (src_fq, q.1)).isSome ∧
            (dictFind? cmap (_fq fk.referenced_schema fk.referenced_table, q.2)).isSome
  | [], next => by simp [insertFksForTable]
  | fk :: rest, next => by
      rw [insertFksForTable]
      cases hl : dictFind? tmap (_fq fk.referenced_schema fk.referenced_table) with
      | none =>
          simp only [false_iff]
          constructor
          · rintro ⟨r, hr⟩
            cases hr
          · intro h
            have := (h fk (List.mem_cons_self _ _)).1
            rw [hl] at this
            cases this
      | some tgt_table_id =>
          cases hfc : insertFkColumns src_fq (_fq fk.referenced_schema fk.referenced_table)
              next cmap (pairsOf fk) 1 with
          | error e =>
              simp only [false_iff]
              constructor
              · rintro ⟨r, hr⟩
                cases hr
              · intro h
                obtain ⟨rows, hrows⟩ := (insertFkColumns_ok_iff src_fq
                  (_fq fk.referenced_schema fk.referenced_table) next cmap
                  (pairsOf fk) 1).mpr (fun q hq => (h fk (List.mem_cons_self _ _)).2 q hq)
                rw [hfc] at hrows
                cases hrows
          | ok fcrows =>
              have ih := insertFksForTable_ok_iff src_fq src_table_id tmap cmap rest (next + 1)
              constructor
              · rintro ⟨r, hr⟩
                intro fk' hfk'
                rcases List.mem_cons.mp hfk' with hfk' | hfk'
                · subst hfk'
                  refine ⟨by rw [hl]; rfl, ?_⟩
                  exact (insertFkColumns_ok_iff src_fq
                    (_fq fk'.referenced_schema fk'.referenced_table) next cmap
                    (pairsOf fk') 1).mp ⟨fcrows, hfc⟩
                · cases hrest : insertFksForTable src_fq src_table_id tmap cmap rest
                      (next + 1) with
                  | error e => rw [hrest] at hr; cases hr
                  | ok r' => exact ih.mp ⟨r', hrest⟩ fk' hfk'
              · intro h
                obtain ⟨⟨rows, fcs, fin⟩, hrest⟩ := ih.mpr
                  (fun fk' hfk' => h fk' (List.mem_cons_of_mem _ hfk'))
                rw [hrest]
                exact ⟨_, rfl⟩

theorem insertFksForTable_rows (src_fq : String) (src_table_id : Nat)
    (tmap : List (String × Nat)) (cmap : List ((String × String) × Nat)) :
    ∀ (fks : List ForeignKeyInfo) (next : Nat) (rows fcs fin),
      insertFksForTable src_fq src_table_id tmap cmap fks next = .ok (rows, fcs, fin) →
      fin = next + fks.length ∧
      rows.map (fun r => r.id) = List.range' next fks.length ∧
      (∀ r ∈ rows, r.table_id = src_table_id ∧
        ∃ k, dictFind? tmap k = some r.referenced_table_id) ∧
      (∀ fc ∈ fcs, next ≤ fc.fk_id ∧ fc.fk_id < fin)
  | [], next, rows, fcs, fin => by
      rw [insertFksForTable]
      intro h
      cases h
      simp
  | fk :: rest, next, rows, fcs, fin => by
      rw [insertFksForTable]
      cases hl : dictFind? tmap (_fq fk.referenced_schema fk.referenced_table) with
      | none => intro h; cases h
      | some tgt_table_id =>
          cases hfc : insertFkColumns src_fq (_fq fk.referenced_schema fk.referenced_table)
              next cmap (pairsOf fk) 1 with
          | error e => intro h; cases h
          | ok fcrows =>
              intro h
              dsimp only at h
              cases hrest : insertFksForTable src_fq src_table_id tmap cmap rest
                  (next + 1) with
              | error e => rw [hrest] at h; cases h
              | ok r' =>
                  rcases r' with ⟨rows', fcs', fin'⟩
                  rw [hrest] at h
                  cases h
                  obtain ⟨ih0, ih1, ih2, ih3⟩ := insertFksForTable_rows src_fq src_table_id
                    tmap cmap rest (next + 1) rows' fcs' fin hrest
                  have hfkid := insertFkColumns_fkid src_fq
                    (_fq fk.referenced_schema fk.referenced_table) next cmap
                    (pairsOf fk) 1 fcrows hfc
                  simp only [List.length_cons]
                  refine ⟨by omega, ?_, ?_, ?_⟩
                  · rw [List.map_cons, List.range'_succ, ih1]
                  · intro r hr
                    rcases List.mem_cons.mp hr with hr | hr
                    · rw [hr]
                      exact ⟨rfl, _, hl⟩
                    · exact ih2 r hr
                  · intro fc hfc'
                    rcases List.mem_append.mp hfc' with hfc' | hfc'
                    · have := hfkid fc hfc'
                      omega
                    · have := ih3 fc hfc'
                      omega

theorem insertFksForTable_content (src_fq : String) (src_table_id : Nat)
    (tmap : List (String × Nat)) (cmap : List ((String × String) × Nat))
    (resolve : Nat → String) (tresolve : Nat → String)
    (hres : ∀ k v, dictFind? cmap k = some v → resolve v = k.2)
    (htres : ∀ k v, dictFind? tmap k = some v → tresolve v = k) :
    ∀ (fks : List ForeignKeyInfo) (next : Nat) (rows fcs fin),
      insertFksForTable src_fq src_table_id tmap cmap fks next = .ok (rows, fcs, fin) →
      rows.map (fun r => (tresolve r.referenced_table_id,
          (fcs.filter (fun fc => fc.fk_id = r.id)).map (fun fc =>
            (resolve fc.column_id, resolve fc.referenced_column_id, fc.ordinal_position)))) =
        fks.map (fun fk => (_fq fk.referenced_schema fk.referenced_table,
          enumPairsFrom (pairsOf fk) 1))
  | [], next, rows, fcs, fin => by
      rw [insertFksForTable]
      intro h
      cases h
      simp
  | fk :: rest, next, rows, fcs, fin => by
      rw [insertFksForTable]
      cases hl : dictFind? tmap (_fq fk.referenced_schema fk.referenced_table) with
      | none => intro h; cases h
      | some tgt_table_id =>
          cases hfc : insertFkColumns src_fq (_fq fk.referenced_schema fk.referenced_table)
              next cmap (pairsOf fk) 1 with
          | error e => intro h; cases h
          | ok fcrows =>
              intro h
              dsimp only at h
              cases hrest : insertFksForTable src_fq src_table_id tmap cmap rest
                  (next + 1) with
              | error e => rw [hrest] at h; cases h
              | ok r' =>
                  rcases r' with ⟨rows', fcs', fin'⟩
                  rw [hrest] at h
                  cases h
                  obtain ⟨hfin, hids, hrt, hbounds⟩ := insertFksForTable_rows src_fq
                    src_table_id tmap cmap rest (next + 1) rows' fcs' fin hrest
                  have hfkid := insertFkColumns_fkid src_fq
                    (_fq fk.referenced_schema fk.referenced_table) next cmap
                    (pairsOf fk) 1 fcrows hfc
                  rw [List.map_cons, List.map_cons]
                  have hheadfil : (fcrows ++ fcs').filter (fun fc => fc.fk_id = next) =
                      fcrows := by
                    rw [List.filter_append]
                    have h1 : fcrows.filter (fun fc => fc.fk_id = next) = fcrows := by
                      rw [List.filter_eq_self]
                      intro fc hp
                      rw [hfkid fc hp]
                      simp
                    have h2 : fcs'.filter (fun fc => fc.fk_id = next) = [] := by
                      rw [List.filter_eq_nil_iff]
                      intro fc hp
                      have := hbounds fc hp
                      simp only [decide_eq_true_eq]
                      omega
                    rw [h1, h2, List.append_nil]
                  rw [hheadfil]
                  rw [insertFkColumns_content src_fq
                    (_fq fk.referenced_schema fk.referenced_table) next cmap resolve hres
                    (pairsOf fk) 1 fcrows hfc]
                  rw [htres (_fq fk.referenced_schema fk.referenced_table) tgt_table_id hl]
                  congr 1
                  have hmapeq : rows'.map (fun r => (tresolve r.referenced_table_id,
                      ((fcrows ++ fcs').filter (fun fc => fc.fk_id = r.id)).map (fun fc =>
                        (resolve fc.column_id, resolve fc.referenced_column_id,
                          fc.ordinal_position)))) =
                      rows'.map (fun r => (tresolve r.referenced_table_id,
                      (fcs'.filter (fun fc => fc.fk_id = r.id)).map (fun fc =>
                        (resolve fc.column_id, resolve fc.referenced_column_id,
                          fc.ordinal_position)))) := by
                    apply List.map_congr_left
                    intro r hr
                    have hrid : (next + 1) ≤ r.id := by
                      have hm : r.id ∈ rows'.map (fun r => r.id) := List.mem_map_of_mem _ hr
                      rw [hids] at hm
                      rw [List.mem_range'_1] at hm
                      omega
                    congr 1
                    rw [List.filter_append]
                    have h1 : fcrows.filter (fun fc => fc.fk_id = r.id) = [] := by
                      rw [List.filter_eq_nil_iff]
                      intro fc hp
                      have := hfkid fc hp
                      simp only [decide_eq_true_eq]
                      omega
                    rw [h1, List.nil_append]
                  rw [hmapeq]
                  exact insertFksForTable_content src_fq src_table_id tmap cmap resolve
                    tresolve hres htres rest (next + 1) rows' fcs' fin hrest

theorem insertFksForTable_missing (src_fq : String) (src_table_id : Nat)
    (tmap : List (String × Nat)) (cmap : List ((String × String) × Nat)) :
    ∀ (fks : List ForeignKeyInfo) (next : Nat),
      (∀ fk ∈ fks, ∀ q ∈ pairsOf fk,
        (dictFind? tmap (_fq fk.referenced_schema fk.referenced_table)).isSome →
          (dictFind? cmap (src_fq, q.1)).isSome ∧
          (dictFind? cmap (_fq fk.referenced_schema fk.referenced_table, q.2)).isSome) →
      (∃ fk ∈ fks, dictFind? tmap (_fq fk.referenced_schema fk.referenced_table) = none) →
      ∃ t, insertFksForTable src_fq src_table_id tmap cmap fks next =
          .error (.referencedTableNotFound t) ∧ dictFind? tmap t = none
  | [], next => by
      rintro _ ⟨fk, hfk, _⟩
      cases hfk
  | fk :: rest, next => by
      intro hcols hmiss
      rw [insertFksForTable]
      cases hl : dictFind? tmap (_fq fk.referenced_schema fk.referenced_table) with
      | none =>
          exact ⟨_fq fk.referenced_schema fk.referenced_table, rfl, hl⟩
      | some tgt_table_id =>
          have hfkcols : ∀ q ∈ pairsOf fk,
              (dictFind? cmap (src_fq, q.1)).isSome ∧
              (dictFind? cmap (_fq fk.referenced_schema fk.referenced_table, q.2)).isSome :=
            fun q hq => hcols fk (List.mem_cons_self _ _) q hq (by rw [hl]; rfl)
          obtain ⟨fcrows, hfc⟩ := (insertFkColumns_ok_iff src_fq
            (_fq fk.referenced_schema fk.referenced_table) next cmap
            (pairsOf fk) 1).mpr hfkcols
          rw [hfc]
          have hmiss' : ∃ fk' ∈ rest,
              dictFind? tmap (_fq fk'.referenced_schema fk'.referenced_table) = none := by
            obtain ⟨fk', hfk', hnone⟩ := hmiss
            rcases List.mem_cons.mp hfk' with hfk' | hfk'
            · subst hfk'
              rw [hl] at hnone
              cases hnone
            · exact ⟨fk', hfk', hnone⟩
          obtain ⟨t, ht, htnone⟩ := insertFksForTable_missing src_fq src_table_id tmap cmap
            rest (next + 1)
            (fun fk' hfk' q hq hsome => hcols fk' (List.mem_cons_of_mem _ hfk') q hq hsome)
            hmiss'
          rw [ht]
          exact ⟨t, rfl, htnone⟩

theorem insertForeignKeys_ok_iff (tmap : List (String × Nat))
    (cmap : List ((String × String) × Nat)) :
    ∀ (items : List (String × List ForeignKeyInfo)) (next : Nat),
      (∃ r, insertForeignKeys tmap cmap items next = .ok r) ↔
        ∀ p ∈ items, ¬p.2.isEmpty →
          (dictFind? tmap p.1).isSome ∧
          ∀ fk ∈ p.2,
            (dictFind? tmap (_fq fk.referenced_schema fk.referenced_table)).isSome ∧
            ∀ q ∈ pairsOf fk,
              (dictFind? cmap (p.1, q.1)).isSome ∧
              (dictFind? cmap (_fq fk.referenced_schema fk.referenced_table, q.2)).isSome
  | [], next => by simp [insertForeignKeys]
  | (fq, fks) :: rest, next => by
      rw [insertForeignKeys]
      by_cases hemp : fks.isEmpty
      · rw [if_pos hemp]
        have ih := insertForeignKeys_ok_iff tmap cmap rest next
        rw [ih]
        constructor
        · intro h p hp hne
          rcases List.mem_cons.mp hp with hp | hp
          · exfalso
            refine hne ?_
            have : p.2 = fks := by rw [hp]
            rw [this]
            exact hemp
          · exact h p hp hne
        · intro h p hp hne
          exact h p (List.mem_cons_of_mem _ hp) hne
      · rw [if_neg hemp]
        cases hl : dictFind? tmap fq with
        | none =>
            simp only [false_iff]
            constructor
            · rintro ⟨r, hr⟩
              cases hr
            · intro h
              have := (h (fq, fks) (List.mem_cons_self _ _) hemp).1
              rw [hl] at this
              cases this
        | some src_table_id =>
            cases htbl : insertFksForTable fq src_table_id tmap cmap fks next with
            | error e =>
                simp only [false_iff]
                constructor
                · rintro ⟨r, hr⟩
                  rw [htbl] at hr
                  cases hr
                · intro h
                  obtain ⟨r, hr⟩ := (insertFksForTable_ok_iff fq src_table_id tmap cmap
                    fks next).mpr
                    (fun fk hfk => (h (fq, fks) (List.mem_cons_self _ _) hemp).2 fk hfk)
                  rw [htbl] at hr
                  cases hr
            | ok r₀ =>
                rcases r₀ with ⟨rows₀, fcs₀, next'⟩
                have ih := insertForeignKeys_ok_iff tmap cmap rest next'
                constructor
                · rintro ⟨r, hr⟩
                  intro p hp hne
                  rcases List.mem_cons.mp hp with hp | hp
                  · subst hp
                    refine ⟨by rw [hl]; rfl, ?_⟩
                    exact (insertFksForTable_ok_iff fq src_table_id tmap cmap fks next).mp
                      ⟨(rows₀, fcs₀, next'), htbl⟩
                  · dsimp only at hr
                    rw [htbl] at hr
                    dsimp only at hr
                    cases hrest : insertForeignKeys tmap cmap rest next' with
                    | error e => rw [hrest] at hr; cases hr
                    | ok r' => exact ih.mp ⟨r', hrest⟩ p hp hne
                · intro h
                  obtain ⟨⟨rows', fcs', fin⟩, hrest⟩ := ih.mpr
                    (fun p hp hne => h p (List.mem_cons_of_mem _ hp) hne)
                  dsimp only
                  rw [htbl]
                  dsimp only
                  rw [hrest]
                  exact ⟨_, rfl⟩

theorem insertForeignKeys_rows (tmap : List (String × Nat))
    (cmap : List ((String × String) × Nat)) :
    ∀ (items : List (String × List ForeignKeyInfo)) (next : Nat) (fkrows fcrows nfk),
      insertForeignKeys tmap cmap items next = .ok (fkrows, fcrows, nfk) →
      fkrows.map (fun r => r.id) = List.range' next fkrows.length ∧
      nfk = next + fkrows.length ∧
      (∀ r ∈ fkrows, (∃ p ∈ items, dictFind? tmap p.1 = some r.table_id) ∧
        ∃ k, dictFind? tmap k = some r.referenced_table_id) ∧
      (∀ fc ∈ fcrows, next ≤ fc.fk_id ∧ fc.fk_id < nfk)
  | [], next, fkrows, fcrows, nfk => by
      rw [insertForeignKeys]
      intro h
      cases h
      simp
  | (fq, fks) :: rest, next, fkrows, fcrows, nfk => by
      rw [insertForeignKeys]
      by_cases hemp : fks.isEmpty
      · rw [if_pos hemp]
        intro h
        obtain ⟨ih1, ih2, ih3, ih4⟩ :=
          insertForeignKeys_rows tmap cmap rest next fkrows fcrows nfk h
        refine ⟨ih1, ih2, ?_, ih4⟩
        intro r hr
        obtain ⟨⟨p, hp, hpl⟩, hk⟩ := ih3 r hr
        exact ⟨⟨p, List.mem_cons_of_mem _ hp, hpl⟩, hk⟩
      · rw [if_neg hemp]
        cases hl : dictFind? tmap fq with
        | none => intro h; cases h
        | some src_table_id =>
            cases htbl : insertFksForTable fq src_table_id tmap cmap fks next with
            | error e => intro h; dsimp only at h; rw [htbl] at h; cases h
            | ok r₀ =>
                rcases r₀ with ⟨rows₀, fcs₀, next'⟩
                intro h
                dsimp only at h
                rw [htbl] at h
                dsimp only at h
                cases hrest : insertForeignKeys tmap cmap rest next' with
                | error e => rw [hrest] at h; cases h
                | ok r' =>
                    rcases r' with ⟨rows', fcs', fin⟩
                    rw [hrest] at h
                    cases h
                    obtain ⟨hfin₀, hids₀, hrt₀, hb₀⟩ :=
                      insertFksForTable_rows fq src_table_id tmap cmap fks next
                        rows₀ fcs₀ next' htbl
                    obtain ⟨ih1, ih2, ih3, ih4⟩ :=
                      insertForeignKeys_rows tmap cmap rest next' rows' fcs' nfk hrest
                    have hlen₀ : rows₀.length = fks.length := by
                      have := congrArg List.length hids₀
                      simpa using this
                    refine ⟨?_, ?_, ?_, ?_⟩
                    · rw [List.map_append, hids₀, ih1, List.length_append, hlen₀, hfin₀,
                        Nat.add_comm fks.length rows'.length]
                      exact List.range'_append_1 next fks.length rows'.length
                    · rw [List.length_append, hlen₀]
                      omega
                    · intro r hr
                      rcases List.mem_append.mp hr with hr | hr
                      · obtain ⟨hsrc, hk⟩ := hrt₀ r hr
                        exact ⟨⟨(fq, fks), List.mem_cons_self _ _, by rw [hl, hsrc]⟩, hk⟩
                      · obtain ⟨⟨p, hp, hpl⟩, hk⟩ := ih3 r hr
                        exact ⟨⟨p, List.mem_cons_of_mem _ hp, hpl⟩, hk⟩
                    · intro fc hfc
                      rcases List.mem_append.mp hfc with hfc | hfc
                      · have := hb₀ fc hfc
                        omega
                      · have := ih4 fc hfc
                        omega

theorem insertForeignKeys_content (tmap : List (String × Nat))
    (cmap : List ((String × String) × Nat)) (resolve : Nat → String)
    (tresolve : Nat → String)
    (hres : ∀ k v, dictFind? cmap k = some v → resolve v = k.2)
    (htres : ∀ k v, dictFind? tmap k = some v → tresolve v = k) :
    ∀ (items : List (String × List ForeignKeyInfo)) (next : Nat) (fkrows fcrows nfk),
      insertForeignKeys tmap cmap items next = .ok (fkrows, fcrows, nfk) →
      (items.map Prod.fst).Nodup →
      (∀ k₁ k₂ v, dictFind? tmap k₁ = some v → dictFind? tmap k₂ = some v → k₁ = k₂) →
      ∀ fq fks tid, (fq, fks) ∈ items → dictFind? tmap fq = some tid →
        (fkrows.filter (fun r => r.table_id = tid)).map (fun r =>
          (tresolve r.referenced_table_id,
            (fcrows.filter (fun fc => fc.fk_id = r.id)).map (fun fc =>
              (resolve fc.column_id, resolve fc.referenced_column_id,
                fc.ordinal_position)))) =
          fks.map (fun fk => (_fq fk.referenced_schema fk.referenced_table,
            enumPairsFrom (pairsOf fk) 1))
  | [], next, fkrows, fcrows, nfk => by
      rw [insertForeignKeys]
      intro h
      cases h
      simp
  | (fq₀, fks₀) :: rest, next, fkrows, fcrows, nfk => by
      rw [insertForeignKeys]
      by_cases hemp : fks₀.isEmpty
      · rw [if_pos hemp]
        intro h hnodup hinj fq fks tid hmem hlook
        rw [List.map_cons, List.nodup_cons] at hnodup
        obtain ⟨_, _, hor, _⟩ := insertForeignKeys_rows tmap cmap rest next fkrows fcrows nfk h
        rcases List.mem_cons.mp hmem with hmem | hmem
        · have h1 : fq = fq₀ := by
            have := congrArg Prod.fst hmem
            simpa using this
          have h2 : fks = fks₀ := by
            have := congrArg Prod.snd hmem
            simpa using this
          have hnil : fks = [] := by
            rw [h2]
            exact List.isEmpty_iff.mp hemp
          rw [hnil, List.map_nil]
          have : fkrows.filter (fun r => r.table_id = tid) = [] := by
            rw [List.filter_eq_nil_iff]
            intro r hr hq
            rw [decide_eq_true_eq] at hq
            obtain ⟨⟨p, hp, hpl⟩, _⟩ := hor r hr
            rw [hq] at hpl
            have := hinj p.1 fq tid hpl hlook
            exact hnodup.1 (List.mem_map.mpr ⟨p, hp, this.trans h1⟩)
          rw [this, List.map_nil]
        · exact insertForeignKeys_content tmap cmap resolve tresolve hres htres rest next
            fkrows fcrows nfk h hnodup.2 hinj fq fks tid hmem hlook
      · rw [if_neg hemp]
        cases hl : dictFind? tmap fq₀ with
        | none => intro h; cases h
        | some src_table_id =>
            cases htbl : insertFksForTable fq₀ src_table_id tmap cmap fks₀ next with
            | error e => intro h; dsimp only at h; rw [htbl] at h; cases h
            | ok r₀ =>
                rcases r₀ with ⟨rows₀, fcs₀, next'⟩
                intro h
                dsimp only at h
                rw [htbl] at h
                dsimp only at h
                cases hrest : insertForeignKeys tmap cmap rest next' with
                | error e => rw [hrest] at h; cases h
                | ok r' =>
                    rcases r' with ⟨rows', fcs', fin⟩
                    rw [hrest] at h
                    cases h
                    intro hnodup hinj fq fks tid hmem hlook
                    rw [List.map_cons, List.nodup_cons] at hnodup
                    obtain ⟨hfin₀, hids₀, hrt₀, hb₀⟩ :=
                      insertFksForTable_rows fq₀ src_table_id tmap cmap fks₀ next
                        rows₀ fcs₀ next' htbl
                    obtain ⟨ih1, ih2, ih3, ih4⟩ :=
                      insertForeignKeys_rows tmap cmap rest next' rows' fcs' nfk hrest
                    have hid₀mem : ∀ r ∈ rows₀, r.id < next' := by
                      intro r hr
                      have hm : r.id ∈ rows₀.map (fun r => r.id) := List.mem_map_of_mem _ hr
                      rw [hids₀] at hm
                      rw [List.mem_range'_1] at hm
                      omega
                    have hid'mem : ∀ r ∈ rows', next' ≤ r.id := by
                      intro r hr
                      have hm : r.id ∈ rows'.map (fun r => r.id) := List.mem_map_of_mem _ hr
                      rw [ih1] at hm
                      rw [List.mem_range'_1] at hm
                      omega
                    rcases List.mem_cons.mp hmem with hmem | hmem
                    · have h1 : fq = fq₀ := by
                        have := congrArg Prod.fst hmem
                        simpa using this
                      have h2 : fks = fks₀ := by
                        have := congrArg Prod.snd hmem
                        simpa using this
                      subst h1
                      subst h2
                      rw [hl] at hlook
                      cases hlook
                      rw [List.filter_append]
                      have hhead : rows₀.filter (fun r => r.table_id = src_table_id) =
                          rows₀ := by
                        rw [List.filter_eq_self]
                        intro r hr
                        rw [(hrt₀ r hr).1]
                        simp
                      have hrestnil : rows'.filter (fun r => r.table_id = src_table_id) =
                          [] := by
                        rw [List.filter_eq_nil_iff]
                        intro r hr hq
                        rw [decide_eq_true_eq] at hq
                        obtain ⟨⟨p, hp, hpl⟩, _⟩ := ih3 r hr
                        rw [hq] at hpl
                        have := hinj p.1 fq src_table_id hpl hl
                        exact hnodup.1 (List.mem_map.mpr ⟨p, hp, this⟩)
                      rw [hhead, hrestnil, List.append_nil]
                      have hmapeq : rows₀.map (fun r => (tresolve r.referenced_table_id,
                          ((fcs₀ ++ fcs').filter (fun fc => fc.fk_id = r.id)).map (fun fc =>
                            (resolve fc.column_id, resolve fc.referenced_column_id,
                              fc.ordinal_position)))) =
                          rows₀.map (fun r => (tresolve r.referenced_table_id,
                          (fcs₀.filter (fun fc => fc.fk_id = r.id)).map (fun fc =>
                            (resolve fc.column_id, resolve fc.referenced_column_id,
                              fc.ordinal_position)))) := by
                        apply List.map_congr_left
                        intro r hr
                        congr 1
                        rw [List.filter_append]
                        have : fcs'.filter (fun fc => fc.fk_id = r.id) = [] := by
                          rw [List.filter_eq_nil_iff]
                          intro fc hp
                          have h4 := ih4 fc hp
                          have h5 := hid₀mem r hr
                          simp only [decide_eq_true_eq]
                          omega
                        rw [this, List.append_nil]
                      rw [hmapeq]
                      exact insertFksForTable_content fq src_table_id tmap cmap resolve
                        tresolve hres htres fks next rows₀ fcs₀ next' htbl
                    · have hne : ¬ fq = fq₀ := by
                        intro hEq
                        exact hnodup.1 (List.mem_map.mpr ⟨(fq, fks), hmem, hEq⟩)
                      have htidne : ¬ src_table_id = tid := by
                        intro hEq
                        exact hne (hinj fq fq₀ tid hlook (by rw [hEq] at hl; exact hl))
                      rw [List.filter_append]
                      have hheadnil : rows₀.filter (fun r => r.table_id = tid) = [] := by
                        rw [List.filter_eq_nil_iff]
                        intro r hr hq
                        rw [decide_eq_true_eq] at hq
                        rw [(hrt₀ r hr).1] at hq
                        exact htidne hq
                      rw [hheadnil, List.nil_append]
                      have hmapeq : (rows'.filter (fun r => r.table_id = tid)).map
                          (fun r => (tresolve r.referenced_table_id,
                          ((fcs₀ ++ fcs').filter (fun fc => fc.fk_id = r.id)).map (fun fc =>
                            (resolve fc.column_id, resolve fc.referenced_column_id,
                              fc.ordinal_position)))) =
                          (rows'.filter (fun r => r.table_id = tid)).map
                          (fun r => (tresolve r.referenced_table_id,
                          (fcs'.filter (fun fc => fc.fk_id = r.id)).map (fun fc =>
                            (resolve fc.column_id, resolve fc.referenced_column_id,
                              fc.ordinal_position)))) := by
                        apply List.map_congr_left
                        intro r hr
                        have hr' := (List.mem_filter.mp hr).1
                        congr 1
                        rw [List.filter_append]
                        have : fcs₀.filter (fun fc => fc.fk_id = r.id) = [] := by
                          rw [List.filter_eq_nil_iff]
                          intro fc hp
                          have h4 := hb₀ fc hp
                          have h5 := hid'mem r hr'
                          simp only [decide_eq_true_eq]
                          omega
                        rw [this, List.nil_append]
                      rw [hmapeq]
                      exact insertForeignKeys_content tmap cmap resolve tresolve hres htres
                        rest next' rows' fcs' nfk hrest hnodup.2 hinj fq fks tid hmem hlook

theorem insertForeignKeys_missing (tmap : List (String × Nat))
    (cmap : List ((String × String) × Nat)) :
    ∀ (items : List (String × List ForeignKeyInfo)) (next : Nat),
      (∀ p ∈ items, ¬p.2.isEmpty → (dictFind? tmap p.1).isSome) →
      (∀ p ∈ items, ∀ fk ∈ p.2, ∀ q ∈ pairsOf fk,
        (dictFind? tmap (_fq fk.referenced_schema fk.referenced_table)).isSome →
          (dictFind? cmap (p.1, q.1)).isSome ∧
          (dictFind? cmap (_fq fk.referenced_schema fk.referenced_table, q.2)).isSome) →
      (∃ p ∈ items, ∃ fk ∈ p.2,
        dictFind? tmap (_fq fk.referenced_schema fk.referenced_table) = none) →
      ∃ t, insertForeignKeys tmap cmap items next =
          .error (.referencedTableNotFound t) ∧ dictFind? tmap t = none
  | [], next => by
      rintro _ _ ⟨p, hp, _⟩
      cases hp
  | (fq, fks) :: rest, next => by
      intro hsrc hcols hmiss
      rw [insertForeignKeys]
      by_cases hemp : fks.isEmpty
      · rw [if_pos hemp]
        have hmiss' : ∃ p ∈ rest, ∃ fk ∈ p.2,
            dictFind? tmap (_fq fk.referenced_schema fk.referenced_table) = none := by
          obtain ⟨p, hp, fk, hfk, hnone⟩ := hmiss
          rcases List.mem_cons.mp hp with hp | hp
          · exfalso
            have hnil : fks = [] := List.isEmpty_iff.mp hemp
            have : p.2 = fks := by rw [hp]
            rw [this, hnil] at hfk
            cases hfk
          · exact ⟨p, hp, fk, hfk, hnone⟩
        exact insertForeignKeys_missing tmap cmap rest next
          (fun p hp => hsrc p (List.mem_cons_of_mem _ hp))
          (fun p hp => hcols p (List.mem_cons_of_mem _ hp)) hmiss'
      · rw [if_neg hemp]
        cases hl : dictFind? tmap fq with
        | none =>
            exfalso
            have := hsrc (fq, fks) (List.mem_cons_self _ _) hemp
            rw [hl] at this
            cases this
        | some src_table_id =>
            by_cases hheadmiss : ∃ fk ∈ fks,
                dictFind? tmap (_fq fk.referenced_schema fk.referenced_table) = none
            · obtain ⟨t, ht, htnone⟩ := insertFksForTable_missing fq src_table_id tmap cmap
                fks next
                (fun fk hfk q hq hsome =>
                  hcols (fq, fks) (List.mem_cons_self _ _) fk hfk q hq hsome)
                hheadmiss
              dsimp only
              rw [ht]
              exact ⟨t, rfl, htnone⟩
            · push_neg at hheadmiss
              have hok : ∀ fk ∈ fks,
                  (dictFind? tmap (_fq fk.referenced_schema fk.referenced_table)).isSome ∧
                  ∀ q ∈ pairsOf fk,
                    (dictFind? cmap (fq, q.1)).isSome ∧
                    (dictFind? cmap
                      (_fq fk.referenced_schema fk.referenced_table, q.2)).isSome := by
                intro fk hfk
                have hs : (dictFind? tmap
                    (_fq fk.referenced_schema fk.referenced_table)).isSome := by
                  cases hcase : dictFind? tmap
                      (_fq fk.referenced_schema fk.referenced_table) with
                  | none => exact absurd hcase (hheadmiss fk hfk)
                  | some v => rfl
                exact ⟨hs, fun q hq =>
                  hcols (fq, fks) (List.mem_cons_self _ _) fk hfk q hq hs⟩
              obtain ⟨⟨rows₀, fcs₀, next'⟩, htbl⟩ :=
                (insertFksForTable_ok_iff fq src_table_id tmap cmap fks next).mpr hok
              dsimp only
              rw [htbl]
              dsimp only
              have hmiss' : ∃ p ∈ rest, ∃ fk ∈ p.2,
                  dictFind? tmap (_fq fk.referenced_schema fk.referenced_table) = none := by
                obtain ⟨p, hp, fk, hfk, hnone⟩ := hmiss
                rcases List.mem_cons.mp hp with hp | hp
                · exfalso
                  have : p.2 = fks := by rw [hp]
                  rw [this] at hfk
                  exact (hheadmiss fk hfk) hnone
                · exact ⟨p, hp, fk, hfk, hnone⟩
              obtain ⟨t, ht, htnone⟩ := insertForeignKeys_missing tmap cmap rest next'
                (fun p hp => hsrc p (List.mem_cons_of_mem _ hp))
                (fun p hp => hcols p (List.mem_cons_of_mem _ hp)) hmiss'
              rw [ht]
              exact ⟨t, rfl, htnone⟩

end MetaRepository

theorem emptyMetaStore_wf : StoreWF emptyMetaStore := by
  constructor <;> intro r hr <;> cases hr

namespace MetaRepository

theorem upsert_frame (s : MetaStore) (name : String) :
    (_upsert_database s name).2.next_table_id = s.next_table_id ∧
    (_upsert_database s name).2.next_column_id = s.next_column_id ∧
    (_upsert_database s name).2.next_pk_id = s.next_pk_id ∧
    (_upsert_database s name).2.next_fk_id = s.next_fk_id ∧
    (_upsert_database s name).2.meta_tables = s.meta_tables ∧
    (_upsert_database s name).2.meta_columns = s.meta_columns ∧
    (_upsert_database s name).2.meta_primary_keys = s.meta_primary_keys ∧
    (_upsert_database s name).2.meta_primary_key_columns = s.meta_primary_key_columns ∧
    (_upsert_database s name).2.meta_foreign_keys = s.meta_foreign_keys ∧
    (_upsert_database s name).2.meta_foreign_key_columns = s.meta_foreign_key_columns := by
  rw [_upsert_database]
  cases s.meta_databases.find? (fun d => d.name = name) with
  | some d => exact ⟨rfl, rfl, rfl, rfl, rfl, rfl, rfl, rfl, rfl, rfl⟩
  | none => exact ⟨rfl, rfl, rfl, rfl, rfl, rfl, rfl, rfl, rfl, rfl⟩

theorem upsert_find (s : MetaStore) (name : String) :
    ∃ drow, (_upsert_database s name).2.meta_databases.find? (fun d => d.name = name) =
        some drow ∧ drow.id = (_upsert_database s name).1 := by
  rw [_upsert_database]
  cases hfind : s.meta_databases.find? (fun d => d.name = name) with
  | some d => exact ⟨d, hfind, rfl⟩
  | none =>
      refine ⟨⟨s.next_database_id, name⟩, ?_, rfl⟩
      rw [List.find?_append, hfind]
      simp

theorem upsert_wf (s : MetaStore) (name : String) (hwf : StoreWF s) :
    StoreWF (_upsert_database s name).2 := by
  obtain ⟨h1, h2, h3, h4, h5, h6, h7, h8, h9, h10⟩ := upsert_frame s name
  exact ⟨by rw [h5, h1]; exact hwf.tables_id_lt,
         by rw [h6, h2]; exact hwf.columns_id_lt,
         by rw [h6, h1]; exact hwf.columns_table_lt,
         by rw [h7, h3]; exact hwf.pks_id_lt,
         by rw [h7, h1]; exact hwf.pks_table_lt,
         by rw [h8, h3]; exact hwf.pkcols_pk_lt,
         by rw [h9, h4]; exact hwf.fks_id_lt,
         by rw [h9, h1]; exact hwf.fks_table_lt,
         by rw [h10, h4]; exact hwf.fkcols_fk_lt⟩

theorem deleteTablesCascade_wf (s : MetaStore) (database_id : Nat) (hwf : StoreWF s) :
    StoreWF (deleteTablesCascade s database_id) := by
  rw [deleteTablesCascade]
  exact ⟨fun r hr => hwf.tables_id_lt r (List.mem_filter.mp hr).1,
         fun r hr => hwf.columns_id_lt r (List.mem_filter.mp hr).1,
         fun r hr => hwf.columns_table_lt r (List.mem_filter.mp hr).1,
         fun r hr => hwf.pks_id_lt r (List.mem_filter.mp hr).1,
         fun r hr => hwf.pks_table_lt r (List.mem_filter.mp hr).1,
         fun r hr => hwf.pkcols_pk_lt r (List.mem_filter.mp hr).1,
         fun r hr => hwf.fks_id_lt r (List.mem_filter.mp hr).1,
         fun r hr => hwf.fks_table_lt r (List.mem_filter.mp hr).1,
         fun r hr => hwf.fkcols_fk_lt r (List.mem_filter.mp hr).1⟩

theorem deleteTablesCascade_no_db (s : MetaStore) (database_id : Nat) :
    ∀ r ∈ (deleteTablesCascade s database_id).meta_tables, ¬ r.database_id = database_id := by
  rw [deleteTablesCascade]
  intro r hr
  have := (List.mem_filter.mp hr).2
  simpa using this

theorem rescanWrite_ok_elim (s : MetaStore) (dbname : String) (snap : Snapshot)
    (s' : MetaStore) (hok : rescanWrite s dbname snap = .ok s') :
    ∃ crows cmap nc pkrows pcrows npk fkrows fcrows nfk,
      insertColumns
          (insertTables (_upsert_database s dbname).1 snap.tables
            (deleteTablesCascade (_upsert_database s dbname).2
              (_upsert_database s dbname).1).next_table_id).2.1
          snap.per_table_columns
          (deleteTablesCascade (_upsert_database s dbname).2
            (_upsert_database s dbname).1).next_column_id = .ok (crows, cmap, nc) ∧
      insertPrimaryKeys
          (insertTables (_upsert_database s dbname).1 snap.tables
            (deleteTablesCascade (_upsert_database s dbname).2
              (_upsert_database s dbname).1).next_table_id).2.1
          cmap snap.per_table_pks
          (deleteTablesCascade (_upsert_database s dbname).2
            (_upsert_database s dbname).1).next_pk_id = .ok (pkrows, pcrows, npk) ∧
      insertForeignKeys
          (insertTables (_upsert_database s dbname).1 snap.tables
            (deleteTablesCascade (_upsert_database s dbname).2
              (_upsert_database s dbname).1).next_table_id).2.1
          cmap snap.per_table_fks
          (deleteTablesCascade (_upsert_database s dbname).2
            (_upsert_database s dbname).1).next_fk_id = .ok (fkrows, fcrows, nfk) ∧
      s' = { deleteTablesCascade (_upsert_database s dbname).2
                (_upsert_database s dbname).1 with
              next_table_id := (insertTables (_upsert_database s dbname).1 snap.tables
                (deleteTablesCascade (_upsert_database s dbname).2
                  (_upsert_database s dbname).1).next_table_id).2.2
              next_column_id := nc
              next_pk_id := npk
              next_fk_id := nfk
              meta_tables := (deleteTablesCascade (_upsert_database s dbname).2
                  (_upsert_database s dbname).1).meta_tables ++
                (insertTables (_upsert_database s dbname).1 snap.tables
                  (deleteTablesCascade (_upsert_database s dbname).2
                    (_upsert_database s dbname).1).next_table_id).1
              meta_columns := (deleteTablesCascade (_upsert_database s dbname).2
                  (_upsert_database s dbname).1).meta_columns ++ crows
              meta_primary_keys := (deleteTablesCascade (_upsert_database s dbname).2
                  (_upsert_database s dbname).1).meta_primary_keys ++ pkrows
              meta_primary_key_columns :=
                (deleteTablesCascade (_upsert_database s dbname).2
                  (_upsert_database s dbname).1).meta_primary_key_columns ++ pcrows
              meta_foreign_keys := (deleteTablesCascade (_upsert_database s dbname).2
                  (_upsert_database s dbname).1).meta_foreign_keys ++ fkrows
              meta_foreign_key_columns :=
                (deleteTablesCascade (_upsert_database s dbname).2
                  (_upsert_database s dbname).1).meta_foreign_key_columns ++ fcrows } := by
  rw [rescanWrite] at hok
  cases hC : insertColumns
      (insertTables (_upsert_database s dbname).1 snap.tables
        (deleteTablesCascade (_upsert_database s dbname).2
          (_upsert_database s dbname).1).next_table_id).2.1
      snap.per_table_columns
      (deleteTablesCascade (_upsert_database s dbname).2
        (_upsert_database s dbname).1).next_column_id with
  | error e => rw [hC] at hok; cases hok
  | ok rC =>
      rcases rC with ⟨crows, cmap, nc⟩
      rw [hC] at hok
      dsimp only at hok
      cases hP : insertPrimaryKeys
          (insertTables (_upsert_database s dbname).1 snap.tables
            (deleteTablesCascade (_upsert_database s dbname).2
              (_upsert_database s dbname).1).next_table_id).2.1
          cmap snap.per_table_pks
          (deleteTablesCascade (_upsert_database s dbname).2
            (_upsert_database s dbname).1).next_pk_id with
      | error e => rw [hP] at hok; cases hok
      | ok rP =>
          rcases rP with ⟨pkrows, pcrows, npk⟩
          rw [hP] at hok
          dsimp only at hok
          cases hF : insertForeignKeys
              (insertTables (_upsert_database s dbname).1 snap.tables
                (deleteTablesCascade (_upsert_database s dbname).2
                  (_upsert_database s dbname).1).next_table_id).2.1
              cmap snap.per_table_fks
              (deleteTablesCascade (_upsert_database s dbname).2
                (_upsert_database s dbname).1).next_fk_id with
          | error e => rw [hF] at hok; cases hok
          | ok rF =>
              rcases rF with ⟨fkrows, fcrows, nfk⟩
              rw [hF] at hok
              dsimp only at hok
              cases hok
              exact ⟨crows, cmap, nc, pkrows, pcrows, npk, fkrows, fcrows, nfk,
                rfl, hP, hF, rfl⟩

end MetaRepository

/-- Index-wise reading of a `map` equality. -/
theorem map_get_eq {α β : Type} (l : List α) (f : α → β) (l' : List β)
    (h : l.map f = l') (j : Nat) (hj : j < l.length) (hj' : j < l'.length) :
    f (l.get ⟨j, hj⟩) = l'.get ⟨j, hj'⟩ := by
  subst h
  simp [List.get_eq_getElem, List.getElem_map]

namespace MetaRepository

theorem rescanWrite_content_core (base : MetaStore) (dbid : Nat) (dbname : String)
    (drow : MetaDatabaseRow) (snap : Snapshot)
    (trows : List MetaTableRow) (tmap : List (String × Nat)) (nt : Nat)
    (crows : List MetaColumnRow) (cmap : List ((String × String) × Nat)) (nc : Nat)
    (pkrows : List MetaPrimaryKeyRow) (pcrows : List MetaPrimaryKeyColumnRow) (npk : Nat)
    (fkrows : List MetaForeignKeyRow) (fcrows : List MetaForeignKeyColumnRow) (nfk : Nat)
    (S : MetaStore)
    (hwfbase : StoreWF base)
    (hnodb : ∀ r ∈ base.meta_tables, ¬r.database_id = dbid)
    (hfind : base.meta_databases.find? (fun d => d.name = dbname) = some drow)
    (hdrow : drow.id = dbid)
    (hnodup : (snap.tables.map (fun t => _fq t.schema t.table_name)).Nodup)
    (hkC : snap.per_table_columns.map Prod.fst =
      snap.tables.map (fun t => _fq t.schema t.table_name))
    (hkP : snap.per_table_pks.map Prod.fst =
      snap.tables.map (fun t => _fq t.schema t.table_name))
    (hkF : snap.per_table_fks.map Prod.fst =
      snap.tables.map (fun t => _fq t.schema t.table_name))
    (hT : insertTables dbid snap.tables base.next_table_id = (trows, tmap, nt))
    (hC : insertColumns tmap snap.per_table_columns base.next_column_id =
      .ok (crows, cmap, nc))
    (hP : insertPrimaryKeys tmap cmap snap.per_table_pks base.next_pk_id =
      .ok (pkrows, pcrows, npk))
    (hF : insertForeignKeys tmap cmap snap.per_table_fks base.next_fk_id =
      .ok (fkrows, fcrows, nfk))
    (hS : S =
      { base with
          next_table_id := nt
          next_column_id := nc
          next_pk_id := npk
          next_fk_id := nfk
          meta_tables := base.meta_tables ++ trows
          meta_columns := base.meta_columns ++ crows
          meta_primary_keys := base.meta_primary_keys ++ pkrows
          meta_primary_key_columns := base.meta_primary_key_columns ++ pcrows
          meta_foreign_keys := base.meta_foreign_keys ++ fkrows
          meta_foreign_key_columns := base.meta_foreign_key_columns ++ fcrows }) :
    subtreeContent S dbname = snapContent snap := by
  have hSdb : S.meta_databases = base.meta_databases := by rw [hS]
  have hSt : S.meta_tables = base.meta_tables ++ trows := by rw [hS]
  have hSc : S.meta_columns = base.meta_columns ++ crows := by rw [hS]
  have hSpk : S.meta_primary_keys = base.meta_primary_keys ++ pkrows := by rw [hS]
  have hSpc : S.meta_primary_key_columns = base.meta_primary_key_columns ++ pcrows := by
    rw [hS]
  have hSfk : S.meta_foreign_keys = base.meta_foreign_keys ++ fkrows := by rw [hS]
  have hSfc : S.meta_foreign_key_columns = base.meta_foreign_key_columns ++ fcrows := by
    rw [hS]
  have htr : (insertTables dbid snap.tables base.next_table_id).1 = trows := by rw [hT]
  have htm : (insertTables dbid snap.tables base.next_table_id).2.1 = tmap := by rw [hT]
  have hids : trows.map (fun r => r.id) =
      List.range' base.next_table_id snap.tables.length := by
    rw [← htr]
    exact insertTables_rows_ids dbid snap.tables base.next_table_id
  have hnames : trows.map (fun r => r.name) =
      snap.tables.map (fun t => _fq t.schema t.table_name) := by
    rw [← htr]
    exact insertTables_rows_names dbid snap.tables base.next_table_id
  have hdbs : ∀ r ∈ trows, r.database_id = dbid := by
    rw [← htr]
    exact insertTables_rows_db dbid snap.tables base.next_table_id
  have hlenT : trows.length = snap.tables.length := by
    have h1 := congrArg List.length hids
    simpa using h1
  have hpos : ∀ (j : Nat) (hj : j < snap.tables.length),
      dictFind? tmap (_fq (snap.tables.get ⟨j, hj⟩).schema
        (snap.tables.get ⟨j, hj⟩).table_name) = some (base.next_table_id + j) := by
    intro j hj
    rw [← htm]
    exact insertTables_map_pos dbid snap.tables base.next_table_id hnodup j hj
  have hinj : ∀ k₁ k₂ v, dictFind? tmap k₁ = some v → dictFind? tmap k₂ = some v →
      k₁ = k₂ := by
    intro k₁ k₂ v h₁ h₂
    rw [← htm] at h₁ h₂
    exact insertTables_map_inj dbid snap.tables base.next_table_id k₁ k₂ v h₁ h₂
  have htsound : ∀ k v, dictFind? tmap k = some v →
      base.next_table_id ≤ v ∧
        ∃ r ∈ trows, r.id = v ∧ r.name = k := by
    intro k v hkv
    rw [← htm] at hkv
    obtain ⟨h1, h2, r, hr, hid, hname⟩ :=
      insertTables_map_sound dbid snap.tables base.next_table_id k v hkv
    rw [htr] at hr
    exact ⟨h1, r, hr, hid, hname⟩
  have htnodup : (trows.map (fun r => r.id)).Nodup := by
    rw [hids]
    exact List.nodup_range' _ _ 1 (by omega)
  have htres : ∀ k v, dictFind? tmap k = some v → tableNameById S v = k := by
    intro k v hkv
    obtain ⟨hge, r, hr, hid, hname⟩ := htsound k v hkv
    rw [tableNameById, hSt, List.find?_append]
    have hnone : base.meta_tables.find? (fun t => t.id = v) = none := by
      rw [List.find?_eq_none]
      intro t ht
      have h4 := hwfbase.tables_id_lt t ht
      simp only [decide_eq_true_eq]
      omega
    rw [hnone, Option.none_or]
    have hfound : trows.find? (fun t => t.id = v) = some r :=
      find?_proj_of_mem_of_nodup (fun t => t.id) trows htnodup r hr v hid
    rw [hfound]
    simpa using hname
  have hcids : crows.map (fun r => r.id) = List.range' base.next_column_id crows.length :=
    (insertColumns_rows_ids tmap snap.per_table_columns base.next_column_id
      crows cmap nc hC).1
  have hcnodup : (crows.map (fun r => r.id)).Nodup := by
    rw [hcids]
    exact List.nodup_range' _ _ 1 (by omega)
  have hres : ∀ (k : String × String) (v : Nat), dictFind? cmap k = some v →
      columnNameById S v = k.2 := by
    intro k v hkv
    obtain ⟨r, hr, hid, hname⟩ := insertColumns_map_sound tmap snap.per_table_columns
      base.next_column_id crows cmap nc hC k v hkv
    have hge : base.next_column_id ≤ v := by
      have hm : r.id ∈ crows.map (fun r => r.id) := List.mem_map_of_mem _ hr
      rw [hcids, List.mem_range'_1] at hm
      omega
    rw [columnNameById, hSc, List.find?_append]
    have hnone : base.meta_columns.find? (fun c => c.id = v) = none := by
      rw [List.find?_eq_none]
      intro c hc
      have h4 := hwfbase.columns_id_lt c hc
      simp only [decide_eq_true_eq]
      omega
    rw [hnone, Option.none_or]
    have hfound : crows.find? (fun c => c.id = v) = some r :=
      find?_proj_of_mem_of_nodup (fun c => c.id) crows hcnodup r hr v hid
    rw [hfound]
    simpa using hname
  obtain ⟨hpkids, hnpkEq, hpktab, hpcbounds⟩ := insertPrimaryKeys_rows tmap cmap
    snap.per_table_pks base.next_pk_id pkrows pcrows npk hP
  obtain ⟨hfkids, hnfkEq, hfktab, hfcbounds⟩ := insertForeignKeys_rows tmap cmap
    snap.per_table_fks base.next_fk_id fkrows fcrows nfk hF
  have hnodupC : (snap.per_table_columns.map Prod.fst).Nodup := by
    rw [hkC]; exact hnodup
  have hnodupP : (snap.per_table_pks.map Prod.fst).Nodup := by
    rw [hkP]; exact hnodup
  have hnodupF : (snap.per_table_fks.map Prod.fst).Nodup := by
    rw [hkF]; exact hnodup
  have hlenC : snap.per_table_columns.length = snap.tables.length := by
    have h1 := congrArg List.length hkC
    simpa using h1
  have hlenP : snap.per_table_pks.length = snap.tables.length := by
    have h1 := congrArg List.length hkP
    simpa using h1
  have hlenF : snap.per_table_fks.length = snap.tables.length := by
    have h1 := congrArg List.length hkF
    simpa using h1
  rw [subtreeContent, hSdb, hfind]
  dsimp only
  rw [hdrow, hSt, List.filter_append]
  have hbase_nil : base.meta_tables.filter (fun t => t.database_id = dbid) = [] := by
    rw [List.filter_eq_nil_iff]
    intro t ht hq
    rw [decide_eq_true_eq] at hq
    exact hnodb t ht hq
  have htrows_self : trows.filter (fun t => t.database_id = dbid) = trows := by
    rw [List.filter_eq_self]
    intro t ht
    rw [hdbs t ht]
    simp
  rw [hbase_nil, htrows_self, List.nil_append, snapContent]
  apply List.ext_get
  · simp [hlenT]
  intro j h₁ h₂
  have hjr : j < trows.length := by simpa using h₁
  have hjt : j < snap.tables.length := by simpa using h₂
  have hL : (trows.map (tableContent S)).get ⟨j, h₁⟩ =
      tableContent S (trows.get ⟨j, hjr⟩) := by
    simp [List.get_eq_getElem, List.getElem_map]
  have hR : (snap.tables.map (snapTableContent snap)).get ⟨j, h₂⟩ =
      snapTableContent snap (snap.tables.get ⟨j, hjt⟩) := by
    simp [List.get_eq_getElem, List.getElem_map]
  rw [hL, hR]
  have hid : (trows.get ⟨j, hjr⟩).id = base.next_table_id + j := by
    have h3 := map_get_eq trows (fun r => r.id) _ hids j hjr (by simpa using hjt)
    rw [h3]
    simp [List.get_eq_getElem, List.getElem_range'_1]
  have hnamej : (trows.get ⟨j, hjr⟩).name =
      _fq (snap.tables.get ⟨j, hjt⟩).schema (snap.tables.get ⟨j, hjt⟩).table_name := by
    have h3 := map_get_eq trows (fun r => r.name) _ hnames j hjr (by simpa using hjt)
    rw [h3]
    simp [List.get_eq_getElem, List.getElem_map]
  have hlookj : dictFind? tmap (_fq (snap.tables.get ⟨j, hjt⟩).schema
      (snap.tables.get ⟨j, hjt⟩).table_name) = some (base.next_table_id + j) := hpos j hjt
  have hjC : j < snap.per_table_columns.length := by rw [hlenC]; exact hjt
  have hkeyC : (snap.per_table_columns.get ⟨j, hjC⟩).1 =
      _fq (snap.tables.get ⟨j, hjt⟩).schema (snap.tables.get ⟨j, hjt⟩).table_name := by
    have h3 := map_get_eq snap.per_table_columns Prod.fst _ hkC j hjC (by simpa using hjt)
    rw [h3]
    simp [List.get_eq_getElem, List.getElem_map]
  have hmemC : (_fq (snap.tables.get ⟨j, hjt⟩).schema (snap.tables.get ⟨j, hjt⟩).table_name,
      (snap.per_table_columns.get ⟨j, hjC⟩).2) ∈ snap.per_table_columns := by
    rw [← hkeyC, Prod.mk.eta]
    exact List.get_mem _ j hjC
  have hdictC : dictFind? snap.per_table_columns
      (_fq (snap.tables.get ⟨j, hjt⟩).schema (snap.tables.get ⟨j, hjt⟩).table_name) =
      some (snap.per_table_columns.get ⟨j, hjC⟩).2 :=
    dictFind?_eq_of_mem_of_nodup _ hnodupC _ _ hmemC
  have hjP : j < snap.per_table_pks.length := by rw [hlenP]; exact hjt
  have hkeyP : (snap.per_table_pks.get ⟨j, hjP⟩).1 =
      _fq (snap.tables.get ⟨j, hjt⟩).schema (snap.tables.get ⟨j, hjt⟩).table_name := by
    have h3 := map_get_eq snap.per_table_pks Prod.fst _ hkP j hjP (by simpa using hjt)
    rw [h3]
    simp [List.get_eq_getElem, List.getElem_map]
  have hmemP : (_fq (snap.tables.get ⟨j, hjt⟩).schema (snap.tables.get ⟨j, hjt⟩).table_name,
      (snap.per_table_pks.get ⟨j, hjP⟩).2) ∈ snap.per_table_pks := by
    rw [← hkeyP, Prod.mk.eta]
    exact List.get_mem _ j hjP
  have hdictP : dictFind? snap.per_table_pks
      (_fq (snap.tables.get ⟨j, hjt⟩).schema (snap.tables.get ⟨j, hjt⟩).table_name) =
      some (snap.per_table_pks.get ⟨j, hjP⟩).2 :=
    dictFind?_eq_of_mem_of_nodup _ hnodupP _ _ hmemP
  have hjF : j < snap.per_table_fks.length := by rw [hlenF]; exact hjt
  have hkeyF : (snap.per_table_fks.get ⟨j, hjF⟩).1 =
      _fq (snap.tables.get ⟨j, hjt⟩).schema (snap.tables.get ⟨j, hjt⟩).table_name := by
    have h3 := map_get_eq snap.per_table_fks Prod.fst _ hkF j hjF (by simpa using hjt)
    rw [h3]
    simp [List.get_eq_getElem, List.getElem_map]
  have hmemF : (_fq (snap.tables.get ⟨j, hjt⟩).schema (snap.tables.get ⟨j, hjt⟩).table_name,
      (snap.per_table_fks.get ⟨j, hjF⟩).2) ∈ snap.per_table_fks := by
    rw [← hkeyF, Prod.mk.eta]
    exact List.get_mem _ j hjF
  have hdictF : dictFind? snap.per_table_fks
      (_fq (snap.tables.get ⟨j, hjt⟩).schema (snap.tables.get ⟨j, hjt⟩).table_name) =
      some (snap.per_table_fks.get ⟨j, hjF⟩).2 :=
    dictFind?_eq_of_mem_of_nodup _ hnodupF _ _ hmemF
  rw [tableContent, snapTableContent]
  simp only [TableContent.mk.injEq]
  refine ⟨hnamej, ?_, ?_, ?_⟩
  · rw [hid, hSc, List.filter_append]
    have hbnil : base.meta_columns.filter
        (fun c => c.table_id = base.next_table_id + j) = [] := by
      rw [List.filter_eq_nil_iff]
      intro c hc hq
      rw [decide_eq_true_eq] at hq
      have h4 := hwfbase.columns_table_lt c hc
      omega
    rw [hbnil, List.nil_append, hdictC, Option.getD_some]
    exact insertColumns_filter_content tmap snap.per_table_columns base.next_column_id
      crows cmap nc hC hnodupC hinj
      (_fq (snap.tables.get ⟨j, hjt⟩).schema (snap.tables.get ⟨j, hjt⟩).table_name)
      (snap.per_table_columns.get ⟨j, hjC⟩).2 (base.next_table_id + j) hmemC hlookj
  · rw [hid, hSpk, List.filter_append]
    have hbnil : base.meta_primary_keys.filter
        (fun pk => pk.table_id = base.next_table_id + j) = [] := by
      rw [List.filter_eq_nil_iff]
      intro pk hpk hq
      rw [decide_eq_true_eq] at hq
      have h4 := hwfbase.pks_table_lt pk hpk
      omega
    rw [hbnil, List.nil_append]
    have hinner : (pkrows.filter (fun pk => pk.table_id = base.next_table_id + j)).map
        (fun pk => (S.meta_primary_key_columns.filter (fun pc => pc.pk_id = pk.id)).map
          (fun pc => (columnNameById S pc.column_id, pc.ordinal_position))) =
        (pkrows.filter (fun pk => pk.table_id = base.next_table_id + j)).map
        (fun pk => (pcrows.filter (fun pc => pc.pk_id = pk.id)).map
          (fun pc => (columnNameById S pc.column_id, pc.ordinal_position))) := by
      apply List.map_congr_left
      intro pk hpk
      have hpkmem : pk ∈ pkrows := (List.mem_filter.mp hpk).1
      have hge : base.next_pk_id ≤ pk.id := by
        have hm : pk.id ∈ pkrows.map (fun r => r.id) := List.mem_map_of_mem _ hpkmem
        rw [hpkids, List.mem_range'_1] at hm
        omega
      rw [hSpc, List.filter_append]
      have hbnil2 : base.meta_primary_key_columns.filter
          (fun pc => pc.pk_id = pk.id) = [] := by
        rw [List.filter_eq_nil_iff]
        intro pc hpc hq
        rw [decide_eq_true_eq] at hq
        have h4 := hwfbase.pkcols_pk_lt pc hpc
        omega
      rw [hbnil2, List.nil_append]
    rw [hinner, hdictP, Option.getD_some]
    exact insertPrimaryKeys_content tmap cmap (columnNameById S) hres
      snap.per_table_pks base.next_pk_id pkrows pcrows npk hP hnodupP hinj
      (_fq (snap.tables.get ⟨j, hjt⟩).schema (snap.tables.get ⟨j, hjt⟩).table_name)
      (snap.per_table_pks.get ⟨j, hjP⟩).2 (base.next_table_id + j) hmemP hlookj
  · rw [hid, hSfk, List.filter_append]
    have hbnil : base.meta_foreign_keys.filter
        (fun fk => fk.table_id = base.next_table_id + j) = [] := by
      rw [List.filter_eq_nil_iff]
      intro fk hfk hq
      rw [decide_eq_true_eq] at hq
      have h4 := hwfbase.fks_table_lt fk hfk
      omega
    rw [hbnil, List.nil_append]
    have hinner : (fkrows.filter (fun fk => fk.table_id = base.next_table_id + j)).map
        (fun fk => (tableNameById S fk.referenced_table_id,
          (S.meta_foreign_key_columns.filter (fun fc => fc.fk_id = fk.id)).map
            (fun fc => (columnNameById S fc.column_id,
              columnNameById S fc.referenced_column_id, fc.ordinal_position)))) =
        (fkrows.filter (fun fk => fk.table_id = base.next_table_id + j)).map
        (fun fk => (tableNameById S fk.referenced_table_id,
          (fcrows.filter (fun fc => fc.fk_id = fk.id)).map
            (fun fc => (columnNameById S fc.column_id,
              columnNameById S fc.referenced_column_id, fc.ordinal_position)))) := by
      apply List.map_congr_left
      intro fk hfk
      have hfkmem : fk ∈ fkrows := (List.mem_filter.mp hfk).1
      have hge : base.next_fk_id ≤ fk.id := by
        have hm : fk.id ∈ fkrows.map (fun r => r.id) := List.mem_map_of_mem _ hfkmem
        rw [hfkids, List.mem_range'_1] at hm
        omega
      rw [hSfc, List.filter_append]
      have hbnil2 : base.meta_foreign_key_columns.filter
          (fun fc => fc.fk_id = fk.id) = [] := by
        rw [List.filter_eq_nil_iff]
        intro fc hfc hq
        rw [decide_eq_true_eq] at hq
        have h4 := hwfbase.fkcols_fk_lt fc hfc
        omega
      rw [hbnil2, List.nil_append]
    rw [hinner, hdictF, Option.getD_some]
    exact insertForeignKeys_content tmap cmap (columnNameById S) (tableNameById S)
      hres htres snap.per_table_fks base.next_fk_id fkrows fcrows nfk hF hnodupF hinj
      (_fq (snap.tables.get ⟨j, hjt⟩).schema (snap.tables.get ⟨j, hjt⟩).table_name)
      (snap.per_table_fks.get ⟨j, hjF⟩).2 (base.next_table_id + j) hmemF hlookj

theorem rescanWrite_content (s : MetaStore) (dbname : String) (snap : Snapshot)
    (s' : MetaStore)
    (hwf : StoreWF s)
    (hnodup : (snap.tables.map (fun t => _fq t.schema t.table_name)).Nodup)
    (hkC : snap.per_table_columns.map Prod.fst =
      snap.tables.map (fun t => _fq t.schema t.table_name))
    (hkP : snap.per_table_pks.map Prod.fst =
      snap.tables.map (fun t => _fq t.schema t.table_name))
    (hkF : snap.per_table_fks.map Prod.fst =
      snap.tables.map (fun t => _fq t.schema t.table_name))
    (hok : rescanWrite s dbname snap = .ok s') :
    subtreeContent s' dbname = snapContent snap := by
  obtain ⟨crows, cmap, nc, pkrows, pcrows, npk, fkrows, fcrows, nfk, hC, hP, hF, hS⟩ :=
    rescanWrite_ok_elim s dbname snap s' hok
  have hwf2 : StoreWF (deleteTablesCascade (_upsert_database s dbname).2
      (_upsert_database s dbname).1) :=
    deleteTablesCascade_wf _ _ (upsert_wf s dbname hwf)
  have hnodb := deleteTablesCascade_no_db (_upsert_database s dbname).2
    (_upsert_database s dbname).1
  obtain ⟨drow, hfind, hdrow⟩ := upsert_find s dbname
  have hfind' : (deleteTablesCascade (_upsert_database s dbname).2
      (_upsert_database s dbname).1).meta_databases.find?
        (fun d => d.name = dbname) = some drow := hfind
  exact rescanWrite_content_core
    (deleteTablesCascade (_upsert_database s dbname).2 (_upsert_database s dbname).1)
    (_upsert_database s dbname).1 dbname drow snap
    (insertTables (_upsert_database s dbname).1 snap.tables
      (deleteTablesCascade (_upsert_database s dbname).2
        (_upsert_database s dbname).1).next_table_id).1
    (insertTables (_upsert_database s dbname).1 snap.tables
      (deleteTablesCascade (_upsert_database s dbname).2
        (_upsert_database s dbname).1).next_table_id).2.1
    (insertTables (_upsert_database s dbname).1 snap.tables
      (deleteTablesCascade (_upsert_database s dbname).2
        (_upsert_database s dbname).1).next_table_id).2.2
    crows cmap nc pkrows pcrows npk fkrows fcrows nfk s'
    hwf2 hnodb hfind' hdrow hnodup hkC hkP hkF rfl hC hP hF hS

end MetaRepository

theorem dictAssign_keys {α β : Type} [DecidableEq α] (d : List (α × β)) (k : α) (v : β)
    (hnew : ¬k ∈ d.map Prod.fst) :
    (dictAssign d k v).map Prod.fst = d.map Prod.fst ++ [k] := by
  rw [dictAssign]
  have hc : ¬(d.any (fun p => p.1 = k) = true) := by
    rw [List.any_eq_true]
    rintro ⟨p, hp, hk⟩
    rw [decide_eq_true_eq] at hk
    exact hnew (hk ▸ List.mem_map_of_mem Prod.fst hp)
  rw [if_neg hc, List.map_append]
  rfl

theorem extractLoop_tables (src : PostgresSource) :
    ∀ (ts : List TableInfo) (snap0 snap : Snapshot),
      extractLoop src ts snap0 = .ok snap → snap.tables = snap0.tables
  | [], snap0, snap => by
      rw [extractLoop]
      intro h
      cases h
      rfl
  | t :: rest, snap0, snap => by
      rw [extractLoop]
      intro h
      cases hc : src.list_columns t.schema t.table_name with
      | error e => rw [hc] at h; cases h
      | ok cols =>
          rw [hc] at h
          dsimp only at h
          cases hp : src.list_primary_keys t.schema t.table_name with
          | error e => rw [hp] at h; cases h
          | ok pks =>
              rw [hp] at h
              dsimp only at h
              cases hf : src.list_foreign_keys t.schema t.table_name with
              | error e => rw [hf] at h; cases h
              | ok fks =>
                  rw [hf] at h
                  dsimp only at h
                  have h2 := extractLoop_tables src rest _ snap h
                  rw [h2]

theorem extractLoop_keys (src : PostgresSource) :
    ∀ (ts : List TableInfo) (snap0 snap : Snapshot),
      extractLoop src ts snap0 = .ok snap →
      (∀ t ∈ ts, ¬_fq t.schema t.table_name ∈ snap0.per_table_columns.map Prod.fst) →
      (∀ t ∈ ts, ¬_fq t.schema t.table_name ∈ snap0.per_table_pks.map Prod.fst) →
      (∀ t ∈ ts, ¬_fq t.schema t.table_name ∈ snap0.per_table_fks.map Prod.fst) →
      (ts.map (fun t => _fq t.schema t.table_name)).Nodup →
      snap.per_table_columns.map Prod.fst =
        snap0.per_table_columns.map Prod.fst ++
          ts.map (fun t => _fq t.schema t.table_name) ∧
      snap.per_table_pks.map Prod.fst =
        snap0.per_table_pks.map Prod.fst ++
          ts.map (fun t => _fq t.schema t.table_name) ∧
      snap.per_table_fks.map Prod.fst =
        snap0.per_table_fks.map Prod.fst ++
          ts.map (fun t => _fq t.schema t.table_name)
  | [], snap0, snap => by
      rw [extractLoop]
      intro h _ _ _ _
      cases h
      simp
  | t :: rest, snap0, snap => by
      rw [extractLoop]
      intro h hC hP hF hnodup
      cases hc : src.list_columns t.schema t.table_name with
      | error e => rw [hc] at h; cases h
      | ok cols =>
          rw [hc] at h
          dsimp only at h
          cases hp : src.list_primary_keys t.schema t.table_name with
          | error e => rw [hp] at h; cases h
          | ok pks =>
              rw [hp] at h
              dsimp only at h
              cases hf : src.list_foreign_keys t.schema t.table_name with
              | error e => rw [hf] at h; cases h
              | ok fks =>
                  rw [hf] at h
                  dsimp only at h
                  rw [List.map_cons, List.nodup_cons] at hnodup
                  have hkC0 := dictAssign_keys snap0.per_table_columns
                    (_fq t.schema t.table_name) cols (hC t (List.mem_cons_self _ _))
                  have hkP0 := dictAssign_keys snap0.per_table_pks
                    (_fq t.schema t.table_name) pks (hP t (List.mem_cons_self _ _))
                  have hkF0 := dictAssign_keys snap0.per_table_fks
                    (_fq t.schema t.table_name) fks (hF t (List.mem_cons_self _ _))
                  have hC' : ∀ t' ∈ rest, ¬_fq t'.schema t'.table_name ∈
                      (dictAssign snap0.per_table_columns (_fq t.schema t.table_name)
                        cols).map Prod.fst := by
                    intro t' ht' hmem
                    rw [hkC0, List.mem_append] at hmem
                    rcases hmem with hmem | hmem
                    · exact hC t' (List.mem_cons_of_mem _ ht') hmem
                    · rw [List.mem_singleton] at hmem
                      exact hnodup.1 (hmem ▸ List.mem_map_of_mem
                        (fun t => _fq t.schema t.table_name) ht')
                  have hP' : ∀ t' ∈ rest, ¬_fq t'.schema t'.table_name ∈
                      (dictAssign snap0.per_table_pks (_fq t.schema t.table_name)
                        pks).map Prod.fst := by
                    intro t' ht' hmem
                    rw [hkP0, List.mem_append] at hmem
                    rcases hmem with hmem | hmem
                    · exact hP t' (List.mem_cons_of_mem _ ht') hmem
                    · rw [List.mem_singleton] at hmem
                      exact hnodup.1 (hmem ▸ List.mem_map_of_mem
                        (fun t => _fq t.schema t.table_name) ht')
                  have hF' : ∀ t' ∈ rest, ¬_fq t'.schema t'.table_name ∈
                      (dictAssign snap0.per_table_fks (_fq t.schema t.table_name)
                        fks).map Prod.fst := by
                    intro t' ht' hmem
                    rw [hkF0, List.mem_append] at hmem
                    rcases hmem with hmem | hmem
                    · exact hF t' (List.mem_cons_of_mem _ ht') hmem
                    · rw [List.mem_singleton] at hmem
                      exact hnodup.1 (hmem ▸ List.mem_map_of_mem
                        (fun t => _fq t.schema t.table_name) ht')
                  obtain ⟨ih1, ih2, ih3⟩ := extractLoop_keys src rest _ snap h
                    hC' hP' hF' hnodup.2
                  refine ⟨?_, ?_, ?_⟩
                  · rw [ih1]
                    dsimp only
                    rw [hkC0, List.map_cons, List.append_assoc, List.singleton_append]
                  · rw [ih2]
                    dsimp only
                    rw [hkP0, List.map_cons, List.append_assoc, List.singleton_append]
                  · rw [ih3]
                    dsimp only
                    rw [hkF0, List.map_cons, List.append_assoc, List.singleton_append]

theorem extractSnapshot_tables (src : PostgresSource) (snap : Snapshot)
    (hok : extractSnapshot src = .ok snap) :
    src.list_tables = .ok snap.tables := by
  rw [extractSnapshot] at hok
  cases hlt : src.list_tables with
  | error e => rw [hlt] at hok; cases hok
  | ok tables =>
      rw [hlt] at hok
      dsimp only at hok
      have h2 := extractLoop_tables src tables _ snap hok
      rw [h2]

theorem extractSnapshot_keys (src : PostgresSource) (snap : Snapshot)
    (hok : extractSnapshot src = .ok snap)
    (hnodup : (snap.tables.map (fun t => _fq t.schema t.table_name)).Nodup) :
    snap.per_table_columns.map Prod.fst =
      snap.tables.map (fun t => _fq t.schema t.table_name) ∧
    snap.per_table_pks.map Prod.fst =
      snap.tables.map (fun t => _fq t.schema t.table_name) ∧
    snap.per_table_fks.map Prod.fst =
      snap.tables.map (fun t => _fq t.schema t.table_name) := by
  rw [extractSnapshot] at hok
  cases hlt : src.list_tables with
  | error e => rw [hlt] at hok; cases hok
  | ok tables =>
      rw [hlt] at hok
      dsimp only at hok
      have htab : snap.tables = tables := extractLoop_tables src tables _ snap hok
      rw [htab] at hnodup ⊢
      obtain ⟨h1, h2, h3⟩ := extractLoop_keys src tables _ snap hok
        (by intro t ht hmem; simp at hmem)
        (by intro t ht hmem; simp at hmem)
        (by intro t ht hmem; simp at hmem)
        hnodup
      rw [h1, h2, h3]
      simp

namespace MetaRepository

theorem rescanWrite_wf_core (base : MetaStore) (dbid : Nat) (snap : Snapshot)
    (trows : List MetaTableRow) (tmap : List (String × Nat)) (nt : Nat)
    (crows : List MetaColumnRow) (cmap : List ((String × String) × Nat)) (nc : Nat)
    (pkrows : List MetaPrimaryKeyRow) (pcrows : List MetaPrimaryKeyColumnRow) (npk : Nat)
    (fkrows : List MetaForeignKeyRow) (fcrows : List MetaForeignKeyColumnRow) (nfk : Nat)
    (S : MetaStore)
    (hwfbase : StoreWF base)
    (hT : insertTables dbid snap.tables base.next_table_id = (trows, tmap, nt))
    (hC : insertColumns tmap snap.per_table_columns base.next_column_id =
      .ok (crows, cmap, nc))
    (hP : insertPrimaryKeys tmap cmap snap.per_table_pks base.next_pk_id =
      .ok (pkrows, pcrows, npk))
    (hF : insertForeignKeys tmap cmap snap.per_table_fks base.next_fk_id =
      .ok (fkrows, fcrows, nfk))
    (hS : S =
      { base with
          next_table_id := nt
          next_column_id := nc
          next_pk_id := npk
          next_fk_id := nfk
          meta_tables := base.meta_tables ++ trows
          meta_columns := base.meta_columns ++ crows
          meta_primary_keys := base.meta_primary_keys ++ pkrows
          meta_primary_key_columns := base.meta_primary_key_columns ++ pcrows
          meta_foreign_keys := base.meta_foreign_keys ++ fkrows
          meta_foreign_key_columns := base.meta_foreign_key_columns ++ fcrows }) :
    StoreWF S := by
  have htr : (insertTables dbid snap.tables base.next_table_id).1 = trows := by rw [hT]
  have htm : (insertTables dbid snap.tables base.next_table_id).2.1 = tmap := by rw [hT]
  have hnt : nt = base.next_table_id + snap.tables.length := by
    have h1 := insertTables_fin dbid snap.tables base.next_table_id
    rw [hT] at h1
    exact h1
  have hids : trows.map (fun r => r.id) =
      List.range' base.next_table_id snap.tables.length := by
    rw [← htr]
    exact insertTables_rows_ids dbid snap.tables base.next_table_id
  have htid_lt : ∀ r ∈ trows, r.id < nt := by
    intro r hr
    have hm : r.id ∈ trows.map (fun r => r.id) := List.mem_map_of_mem _ hr
    rw [hids, List.mem_range'_1] at hm
    omega
  have htmap_lt : ∀ k v, dictFind? tmap k = some v → v < nt := by
    intro k v hkv
    rw [← htm] at hkv
    obtain ⟨h1, h2, _⟩ := insertTables_map_sound dbid snap.tables base.next_table_id k v hkv
    omega
  obtain ⟨hcids, hnc⟩ := insertColumns_rows_ids tmap snap.per_table_columns
    base.next_column_id crows cmap nc hC
  have hctab := insertColumns_rows_table tmap snap.per_table_columns
    base.next_column_id crows cmap nc hC
  obtain ⟨hpkids, hnpkEq, hpktab, hpcbounds⟩ := insertPrimaryKeys_rows tmap cmap
    snap.per_table_pks base.next_pk_id pkrows pcrows npk hP
  obtain ⟨hfkids, hnfkEq, hfktab, hfcbounds⟩ := insertForeignKeys_rows tmap cmap
    snap.per_table_fks base.next_fk_id fkrows fcrows nfk hF
  have hSnt : S.next_table_id = nt := by rw [hS]
  have hSnc : S.next_column_id = nc := by rw [hS]
  have hSnpk : S.next_pk_id = npk := by rw [hS]
  have hSnfk : S.next_fk_id = nfk := by rw [hS]
  have hSt : S.meta_tables = base.meta_tables ++ trows := by rw [hS]
  have hSc : S.meta_columns = base.meta_columns ++ crows := by rw [hS]
  have hSpk : S.meta_primary_keys = base.meta_primary_keys ++ pkrows := by rw [hS]
  have hSpc : S.meta_primary_key_columns = base.meta_primary_key_columns ++ pcrows := by
    rw [hS]
  have hSfk : S.meta_foreign_keys = base.meta_foreign_keys ++ fkrows := by rw [hS]
  have hSfc : S.meta_foreign_key_columns = base.meta_foreign_key_columns ++ fcrows := by
    rw [hS]
  constructor
  · intro r hr
    rw [hSt] at hr
    rw [hSnt]
    rcases List.mem_append.mp hr with hr | hr
    · have h1 := hwfbase.tables_id_lt r hr
      omega
    · exact htid_lt r hr
  · intro r hr
    rw [hSc] at hr
    rw [hSnc]
    rcases List.mem_append.mp hr with hr | hr
    · have h1 := hwfbase.columns_id_lt r hr
      omega
    · have hm : r.id ∈ crows.map (fun r => r.id) := List.mem_map_of_mem _ hr
      rw [hcids, List.mem_range'_1] at hm
      omega
  · intro r hr
    rw [hSc] at hr
    rw [hSnt]
    rcases List.mem_append.mp hr with hr | hr
    · have h1 := hwfbase.columns_table_lt r hr
      omega
    · obtain ⟨p, hp, hpl⟩ := hctab r hr
      exact htmap_lt p.1 r.table_id hpl
  · intro r hr
    rw [hSpk] at hr
    rw [hSnpk]
    rcases List.mem_append.mp hr with hr | hr
    · have h1 := hwfbase.pks_id_lt r hr
      omega
    · have hm : r.id ∈ pkrows.map (fun r => r.id) := List.mem_map_of_mem _ hr
      rw [hpkids, List.mem_range'_1] at hm
      omega
  · intro r hr
    rw [hSpk] at hr
    rw [hSnt]
    rcases List.mem_append.mp hr with hr | hr
    · have h1 := hwfbase.pks_table_lt r hr
      omega
    · obtain ⟨p, hp, hpl⟩ := hpktab r hr
      exact htmap_lt p.1 r.table_id hpl
  · intro r hr
    rw [hSpc] at hr
    rw [hSnpk]
    rcases List.mem_append.mp hr with hr | hr
    · have h1 := hwfbase.pkcols_pk_lt r hr
      omega
    · exact (hpcbounds r hr).2
  · intro r hr
    rw [hSfk] at hr
    rw [hSnfk]
    rcases List.mem_append.mp hr with hr | hr
    · have h1 := hwfbase.fks_id_lt r hr
      omega
    · have hm : r.id ∈ fkrows.map (fun r => r.id) := List.mem_map_of_mem _ hr
      rw [hfkids, List.mem_range'_1] at hm
      omega
  · intro r hr
    rw [hSfk] at hr
    rw [hSnt]
    rcases List.mem_append.mp hr with hr | hr
    · have h1 := hwfbase.fks_table_lt r hr
      omega
    · obtain ⟨⟨p, hp, hpl⟩, _⟩ := hfktab r hr
      exact htmap_lt p.1 r.table_id hpl
  · intro r hr
    rw [hSfc] at hr
    rw [hSnfk]
    rcases List.mem_append.mp hr with hr | hr
    · have h1 := hwfbase.fkcols_fk_lt r hr
      omega
    · exact (hfcbounds r hr).2

theorem rescanWrite_wf (s : MetaStore) (dbname : String) (snap : Snapshot)
    (s' : MetaStore) (hwf : StoreWF s) (hok : rescanWrite s dbname snap = .ok s') :
    StoreWF s' := by
  obtain ⟨crows, cmap, nc, pkrows, pcrows, npk, fkrows, fcrows, nfk, hC, hP, hF, hS⟩ :=
    rescanWrite_ok_elim s dbname snap s' hok
  exact rescanWrite_wf_core
    (deleteTablesCascade (_upsert_database s dbname).2 (_upsert_database s dbname).1)
    (_upsert_database s dbname).1 snap
    (insertTables (_upsert_database s dbname).1 snap.tables
      (deleteTablesCascade (_upsert_database s dbname).2
        (_upsert_database s dbname).1).next_table_id).1
    (insertTables (_upsert_database s dbname).1 snap.tables
      (deleteTablesCascade (_upsert_database s dbname).2
        (_upsert_database s dbname).1).next_table_id).2.1
    (insertTables (_upsert_database s dbname).1 snap.tables
      (deleteTablesCascade (_upsert_database s dbname).2
        (_upsert_database s dbname).1).next_table_id).2.2
    crows cmap nc pkrows pcrows npk fkrows fcrows nfk s'
    (deleteTablesCascade_wf _ _ (upsert_wf s dbname hwf))
    rfl hC hP hF hS

/-- **C2.** For a database whose source schema is unchanged between two
consecutive successful `rescan_schema` runs (same source, duplicate-free table
list), the store subtree after the second run has identical content to the one
after the first run — the same fully-qualified table names in order, the same
`(name, type)` column lists, the same primary-key column lists with ordinals,
and the same foreign-key column pairs with ordinals — though surrogate ids may
differ (content is compared id-free). -/
theorem c2_rescan_unchanged_source_same_content (s : MetaStore) (src : PostgresSource)
    (dbname : String) (s₁ s₂ : MetaStore)
    (hwf : StoreWF s)
    (hnodup : ∀ tables, src.list_tables = .ok tables →
      (tables.map (fun t => _fq t.schema t.table_name)).Nodup)
    (h1 : (rescan_schema s src dbname).1 = .ok s₁)
    (h2 : (rescan_schema s₁ src dbname).1 = .ok s₂) :
    subtreeContent s₂ dbname = subtreeContent s₁ dbname := by
  rw [rescan_schema] at h1 h2
  cases hext : extractSnapshot src with
  | error e =>
      rw [hext] at h1
      dsimp only at h1
      cases h1
  | ok snap =>
      rw [hext] at h1 h2
      dsimp only at h1 h2
      cases hw1 : rescanWrite s dbname snap with
      | error e =>
          rw [hw1] at h1
          dsimp only at h1
          cases h1
      | ok s1' =>
          rw [hw1] at h1
          dsimp only at h1
          cases h1
          cases hw2 : rescanWrite s₁ dbname snap with
          | error e =>
              rw [hw2] at h2
              dsimp only at h2
              cases h2
          | ok s2' =>
              rw [hw2] at h2
              dsimp only at h2
              cases h2
              have htab := extractSnapshot_tables src snap hext
              have hnodup' : (snap.tables.map
                  (fun t => _fq t.schema t.table_name)).Nodup :=
                hnodup snap.tables htab
              obtain ⟨hkC, hkP, hkF⟩ := extractSnapshot_keys src snap hext hnodup'
              have hwf1 : StoreWF s₁ := rescanWrite_wf s dbname snap s₁ hwf hw1
              have hc1 := rescanWrite_content s dbname snap s₁ hwf hnodup'
                hkC hkP hkF hw1
              have hc2 := rescanWrite_content s₁ dbname snap s₂ hwf1 hnodup'
                hkC hkP hkF hw2
              rw [hc1, hc2]

end MetaRepository

/-- Witness for C2: both rescans of the unchanged two-table source succeed, and
the resulting subtrees have identical content (surrogate ids do differ: the
second run re-inserts rows under fresh sequence values). -/
theorem c2_rescan_unchanged_source_same_content_witness :
    ((MetaRepository.rescan_schema emptyMetaStore c2SourceExample "shop").1 =
        .ok c2FirstStore ∧
      (MetaRepository.rescan_schema c2FirstStore c2SourceExample "shop").1 =
        .ok c2SecondStore) ∧
    subtreeContent c2SecondStore "shop" = subtreeContent c2FirstStore "shop" :=
  ⟨⟨by decide, by decide⟩,
   MetaRepository.c2_rescan_unchanged_source_same_content emptyMetaStore
     c2SourceExample "shop" c2FirstStore c2SecondStore emptyMetaStore_wf
     (fun tables h => by injection h with h2; rw [← h2]; decide)
     (by decide) (by decide)⟩

namespace MetaRepository

/-- **C1.** During a rescan whose extraction succeeded, if some extracted
foreign key's referenced table (fully-qualified `schema.table`) is not among
the scanned tables — so it is absent from the table-id map built from the same
snapshot — while every primary-key and foreign-key member column does resolve,
then the run raises the referential-integrity error (`RuntimeError` →
`referencedTableNotFound`), the transaction rolls back, and the store is left
exactly as it was: no table deleted, no row inserted. -/
theorem c1_missing_fk_target_rolls_back (s : MetaStore) (src : PostgresSource)
    (dbname : String) (snap : Snapshot)
    (hext : extractSnapshot src = .ok snap)
    (hnodup : (snap.tables.map (fun t => _fq t.schema t.table_name)).Nodup)
    (hpkcols : ∀ p ∈ snap.per_table_pks, ∀ pk ∈ p.2,
      ∀ q ∈ pk.columns.zip pk.ordinal_positions,
      q.1 ∈ ((dictFind? snap.per_table_columns p.1).getD []).map
        (fun c => c.name))
    (hfksrc : ∀ p ∈ snap.per_table_fks, ∀ fk ∈ p.2, ∀ q ∈ pairsOf fk,
      q.1 ∈ ((dictFind? snap.per_table_columns p.1).getD []).map
        (fun c => c.name))
    (hfktgt : ∀ p ∈ snap.per_table_fks, ∀ fk ∈ p.2, ∀ q ∈ pairsOf fk,
      (_fq fk.referenced_schema fk.referenced_table) ∈
        snap.tables.map (fun t => _fq t.schema t.table_name) →
      q.2 ∈ ((dictFind? snap.per_table_columns
        (_fq fk.referenced_schema fk.referenced_table)).getD []).map
        (fun c => c.name))
    (hmiss : ∃ p ∈ snap.per_table_fks, ∃ fk ∈ p.2,
      ¬(_fq fk.referenced_schema fk.referenced_table) ∈
        snap.tables.map (fun t => _fq t.schema t.table_name)) :
    (∃ t, (rescan_schema s src dbname).1 =
      .error (.write (.referencedTableNotFound t))) ∧
    rescanFinalStore s src dbname = s ∧
    (rescan_schema s src dbname).2 =
      [.extractorConnect, .extractorClose, .txBegin, .txRollback] := by
  obtain ⟨hkC, hkP, hkF⟩ := extractSnapshot_keys src snap hext hnodup
  have hconv : ∀ (key nm : String),
      nm ∈ ((dictFind? snap.per_table_columns key).getD []).map (fun c => c.name) →
      ∃ cols, (key, cols) ∈ snap.per_table_columns ∧
        nm ∈ cols.map (fun c => c.name) := by
    intro key nm hmem
    cases hd : dictFind? snap.per_table_columns key with
    | none =>
        rw [hd] at hmem
        simp at hmem
    | some cols =>
        rw [hd] at hmem
        exact ⟨cols, mem_of_dictFind?_eq_some hd, by simpa using hmem⟩
  have hmemT : ∀ k, (dictFind? (insertTables (_upsert_database s dbname).1 snap.tables
      (deleteTablesCascade (_upsert_database s dbname).2
        (_upsert_database s dbname).1).next_table_id).2.1 k).isSome ↔
      k ∈ snap.tables.map (fun t => _fq t.schema t.table_name) := fun k =>
    insertTables_map_isSome (_upsert_database s dbname).1 snap.tables
      (deleteTablesCascade (_upsert_database s dbname).2
        (_upsert_database s dbname).1).next_table_id k
  have hCsucc : ∃ r, insertColumns (insertTables (_upsert_database s dbname).1 snap.tables
      (deleteTablesCascade (_upsert_database s dbname).2
        (_upsert_database s dbname).1).next_table_id).2.1 snap.per_table_columns
      (deleteTablesCascade (_upsert_database s dbname).2
        (_upsert_database s dbname).1).next_column_id = .ok r := by
    rw [insertColumns_ok_iff]
    intro p hp
    rw [hmemT, ← hkC]
    exact List.mem_map_of_mem Prod.fst hp
  obtain ⟨⟨crows, cmap, nc⟩, hC⟩ := hCsucc
  have hcm := insertColumns_map_isSome (insertTables (_upsert_database s dbname).1
      snap.tables (deleteTablesCascade (_upsert_database s dbname).2
        (_upsert_database s dbname).1).next_table_id).2.1 snap.per_table_columns
    (deleteTablesCascade (_upsert_database s dbname).2
      (_upsert_database s dbname).1).next_column_id crows cmap nc hC
  have hPsucc : ∃ r, insertPrimaryKeys (insertTables (_upsert_database s dbname).1
      snap.tables (deleteTablesCascade (_upsert_database s dbname).2
        (_upsert_database s dbname).1).next_table_id).2.1 cmap snap.per_table_pks
      (deleteTablesCascade (_upsert_database s dbname).2
        (_upsert_database s dbname).1).next_pk_id = .ok r := by
    rw [insertPrimaryKeys_ok_iff]
    intro p hp _
    refine ⟨?_, ?_⟩
    · rw [hmemT, ← hkP]
      exact List.mem_map_of_mem Prod.fst hp
    · intro pk hpk q hq
      rw [hcm (p.1, q.1)]
      exact hconv p.1 q.1 (hpkcols p hp pk hpk q hq)
  obtain ⟨⟨pkrows, pcrows, npk⟩, hP⟩ := hPsucc
  obtain ⟨t, hFerr, htnone⟩ := insertForeignKeys_missing
    (insertTables (_upsert_database s dbname).1 snap.tables
      (deleteTablesCascade (_upsert_database s dbname).2
        (_upsert_database s dbname).1).next_table_id).2.1 cmap snap.per_table_fks
    (deleteTablesCascade (_upsert_database s dbname).2
      (_upsert_database s dbname).1).next_fk_id
    (by
      intro p hp _
      rw [hmemT, ← hkF]
      exact List.mem_map_of_mem Prod.fst hp)
    (by
      intro p hp fk hfk q hq hsome
      constructor
      · rw [hcm (p.1, q.1)]
        exact hconv p.1 q.1 (hfksrc p hp fk hfk q hq)
      · rw [hcm (_fq fk.referenced_schema fk.referenced_table, q.2)]
        rw [hmemT] at hsome
        exact hconv (_fq fk.referenced_schema fk.referenced_table) q.2
          (hfktgt p hp fk hfk q hq hsome))
    (by
      obtain ⟨p, hp, fk, hfk, hnm⟩ := hmiss
      refine ⟨p, hp, fk, hfk, ?_⟩
      rw [← Option.not_isSome_iff_eq_none, hmemT]
      exact hnm)
  have hw : rescanWrite s dbname snap = .error (.referencedTableNotFound t) := by
    rw [rescanWrite]
    rw [hC]
    dsimp only
    rw [hP]
    dsimp only
    rw [hFerr]
  have hrs : rescan_schema s src dbname =
      (.error (.write (.referencedTableNotFound t)),
       [.extractorConnect, .extractorClose, .txBegin, .txRollback]) := by
    rw [rescan_schema, hext]
    dsimp only
    rw [hw]
  refine ⟨⟨t, by rw [hrs]⟩, ?_, by rw [hrs]⟩
  rw [rescanFinalStore, hrs]

end MetaRepository

/-- Witness for C1: rescanning `c1SourceExample` over the populated store
raises the referential-integrity error, rolls back, and leaves the store
exactly as it was. -/
theorem c1_missing_fk_target_rolls_back_witness :
    extractSnapshot c1SourceExample = .ok c1SnapExample ∧
    ((∃ t, (MetaRepository.rescan_schema c1StoreExample c1SourceExample "shop").1 =
        .error (.write (.referencedTableNotFound t))) ∧
      MetaRepository.rescanFinalStore c1StoreExample c1SourceExample "shop" =
        c1StoreExample ∧
      (MetaRepository.rescan_schema c1StoreExample c1SourceExample "shop").2 =
        [.extractorConnect, .extractorClose, .txBegin, .txRollback]) :=
  ⟨by decide,
   MetaRepository.c1_missing_fk_target_rolls_back c1StoreExample c1SourceExample
     "shop" c1SnapExample (by decide) (by decide) (by decide) (by decide)
     (by decide) (by decide)⟩

namespace MetaRepository

theorem list_columns_sorted (s : MetaStore) (dbname table : String)
    (res : List (String × String)) (h : list_columns s dbname table = .ok res) :
    res.Pairwise (fun a b => strLe a.1 b.1 = true) := by
  rw [list_columns] at h
  by_cases hdot : (table.data.contains '.') = false
  · rw [if_pos hdot] at h
    cases h
  · rw [if_neg hdot] at h
    cases hdb : _get_database_id s dbname with
    | error e => rw [hdb] at h; cases h
    | ok db_id =>
        rw [hdb] at h
        dsimp only at h
        cases hfind : s.meta_tables.find?
            (fun t => t.database_id = db_id && t.name = table) with
        | none =>
            rw [hfind] at h
            dsimp only at h
            cases h
            exact List.Pairwise.nil
        | some trow =>
            rw [hfind] at h
            dsimp only at h
            cases h
            letI : IsTrans MetaColumnRow (fun a b => strLe a.name b.name = true) :=
              ⟨fun _ _ _ => strLe_trans⟩
            letI : IsTotal MetaColumnRow (fun a b => strLe a.name b.name = true) :=
              ⟨fun a b => strLe_total a.name b.name⟩
            have hsorted := List.sorted_insertionSort
              (fun a b : MetaColumnRow => strLe a.name b.name = true)
              (s.meta_columns.filter (fun c => c.table_id = trow.id))
            rw [List.pairwise_map]
            exact hsorted.imp (fun h => h)

/-- **C4** (amended).  Each table's columns are inserted into the store in
extraction order — `ordinal_position` ascending, as `list_columns` of the
extractor returns them — and the store preserves that insertion order, so the
stored per-table column content equals the snapshot's per-table column list.
But the repository's read-back path sorts by column *name* (`ORDER BY name`),
so reading columns back reproduces the source declaration order only when the
names happen to be alphabetically ordered; in general read-back is
name-ordered, not declaration-ordered. -/
theorem c4_columns_stored_in_extraction_order_read_back_by_name
    (s : MetaStore) (src : PostgresSource) (dbname : String) (snap : Snapshot)
    (s' : MetaStore)
    (hwf : StoreWF s)
    (hnodup : ∀ tables, src.list_tables = .ok tables →
      (tables.map (fun t => _fq t.schema t.table_name)).Nodup)
    (hext : extractSnapshot src = .ok snap)
    (h1 : (rescan_schema s src dbname).1 = .ok s') :
    (subtreeContent s' dbname).map (fun tc => (tc.name, tc.columns)) =
      snap.tables.map (fun t => (_fq t.schema t.table_name,
        ((dictFind? snap.per_table_columns (_fq t.schema t.table_name)).getD []).map
          (fun c => (c.name, c.data_type)))) ∧
    ∀ table res, list_columns s' dbname table = .ok res →
      res.Pairwise (fun a b => strLe a.1 b.1 = true) := by
  refine ⟨?_, fun table res h => list_columns_sorted s' dbname table res h⟩
  rw [rescan_schema] at h1
  rw [hext] at h1
  dsimp only at h1
  cases hw1 : rescanWrite s dbname snap with
  | error e =>
      rw [hw1] at h1
      dsimp only at h1
      cases h1
  | ok s1' =>
      rw [hw1] at h1
      dsimp only at h1
      cases h1
      have htab := extractSnapshot_tables src snap hext
      have hnodup' : (snap.tables.map (fun t => _fq t.schema t.table_name)).Nodup :=
        hnodup snap.tables htab
      obtain ⟨hkC, hkP, hkF⟩ := extractSnapshot_keys src snap hext hnodup'
      have hc1 := rescanWrite_content s dbname snap s' hwf hnodup' hkC hkP hkF hw1
      rw [hc1, snapContent, List.map_map]
      rfl

end MetaRepository

/-- Counterexample to C4 as stated: the rescan succeeds and stores the columns
of `public.t` in extraction order `b`, `a` (the store row order preserves the
declaration order), but reading them back with the repository's `list_columns`
returns them sorted by name — `a`, `b` — NOT the source declaration order. -/
theorem c4_readback_not_declaration_order_counterexample :
    (MetaRepository.rescan_schema emptyMetaStore c4SourceExample "db").1 =
      .ok c4StoreAfter ∧
    (subtreeContent c4StoreAfter "db").map (fun tc => tc.columns) =
      [[("b", "integer"), ("a", "integer")]] ∧
    MetaRepository.list_columns c4StoreAfter "db" "public.t" =
      .ok [("a", "integer"), ("b", "integer")] ∧
    ¬MetaRepository.list_columns c4StoreAfter "db" "public.t" =
      .ok [("b", "integer"), ("a", "integer")] := by
  decide

/-- Witness for the amended C4 at the `b`-before-`a` source: stored content
keeps extraction order; the read-back list is name-sorted. -/
theorem c4_columns_stored_in_extraction_order_read_back_by_name_witness :
    ((MetaRepository.rescan_schema emptyMetaStore c4SourceExample "db").1 =
        .ok c4StoreAfter ∧
      extractSnapshot c4SourceExample = .ok c4SnapExample) ∧
    ((subtreeContent c4StoreAfter "db").map (fun tc => (tc.name, tc.columns)) =
      c4SnapExample.tables.map (fun t => (_fq t.schema t.table_name,
        ((dictFind? c4SnapExample.per_table_columns
          (_fq t.schema t.table_name)).getD []).map
          (fun c => (c.name, c.data_type)))) ∧
    ∀ table res, MetaRepository.list_columns c4StoreAfter "db" table = .ok res →
      res.Pairwise (fun a b => strLe a.1 b.1 = true)) :=
  ⟨⟨by decide, by decide⟩,
   MetaRepository.c4_columns_stored_in_extraction_order_read_back_by_name
     emptyMetaStore c4SourceExample "db" c4SnapExample c4StoreAfter
     emptyMetaStore_wf
     (fun tables h => by injection h with h2; rw [← h2]; decide)
     (by decide) (by decide)⟩
